import Mathlib

/-!
# HomeSweetHome: legacy migration pipeline

A shallow embedding of `src/main/services/legacyMigrationService.js`,
`src/main/services/voucherService.js`, the parts of
`src/main/database/database.js` they rely on (the schema, `run` and
`transaction`), and the main loop of `scripts/reimport-complete-data.js`.

JavaScript strings are Lean strings, handled through their character lists.
Engine built-ins whose result is not fixed by the source (time zone offsets,
native date-string parsing, Unicode lower-casing, JSON parsing, the Fuse.js
search, the clock, `parseFloat`, `toFixed`) are fields of `Runtime`.

The amounts of the store and of the migration pipeline are carried by exact
rationals. The amounts that `VoucherService.validateVoucherEntries` adds and
compares are IEEE 754 doubles (`Float64`, with `roundToDouble` for the rounding
of every operation).
-/

namespace HomeSweetHome

/-! ## JavaScript primitives -/

/-- The regular-expression class `\d` (no unicode flag): ASCII digits only. -/
def isDigit (c : Char) : Bool := decide (48 ≤ c.toNat) && decide (c.toNat ≤ 57)

/-- Value of an ASCII digit. -/
def digitVal (c : Char) : Nat := c.toNat - 48

/-- Model of `parseInt` / `ToNumber` on a string made of decimal digits. -/
def digitsToNat (cs : List Char) : Nat := cs.foldl (fun n c => 10 * n + digitVal c) 0

/-- The character of a decimal digit. -/
def digitChar (n : Nat) : Char := Char.ofNat (48 + n % 10)

/-- Decimal digits of `n`, most significant first, with recursion fuel. -/
def natDigits : Nat → Nat → List Char
  | 0, _ => []
  | fuel + 1, n => if n < 10 then [digitChar n] else natDigits fuel (n / 10) ++ [digitChar n]

/-- Model of `String(n)` for a non-negative integer `n`. -/
def natToString (n : Nat) : List Char := natDigits (n + 1) n

/-- Model of `s.padStart(width, '0')`. -/
def padStart (width : Nat) (cs : List Char) : List Char :=
  List.replicate (width - cs.length) '0' ++ cs

/-- White space and line terminators removed by `String.prototype.trim`. -/
def isJsWhitespace (c : Char) : Bool :=
  let n := c.toNat
  n == 9 || n == 10 || n == 11 || n == 12 || n == 13 || n == 32 || n == 160 ||
  n == 5760 || (decide (8192 ≤ n) && decide (n ≤ 8202)) || n == 8232 || n == 8233 ||
  n == 8239 || n == 8287 || n == 12288 || n == 65279

/-- Model of `String.prototype.trim` on a character list. -/
def trim (cs : List Char) : List Char :=
  ((cs.dropWhile isJsWhitespace).reverse.dropWhile isJsWhitespace).reverse

/-- Model of `str.split(sep)` for a one-character separator. -/
def splitChar (sep : Char) : List Char → List (List Char)
  | [] => [[]]
  | c :: cs =>
    if c = sep then [] :: splitChar sep cs
    else
      match splitChar sep cs with
      | [] => [[c]]
      | p :: ps => (c :: p) :: ps

/-! ## Calendar arithmetic of the `Date` object -/

/-- Milliseconds per day. -/
def msPerDay : Int := 86400000

/-- Day number (days since 1970-01-01) of the proleptic Gregorian date
`y`-`m`-`d`, month `m` in 1..12; any integer `d` is accepted and rolls over. -/
def daysFromCivil (y m d : Int) : Int :=
  let y1 := if m ≤ 2 then y - 1 else y
  let era := y1 / 400
  let yoe := y1 - era * 400
  let doy := (153 * (m + (if m > 2 then -3 else 9)) + 2) / 5 + d - 1
  let doe := yoe * 365 + yoe / 4 - yoe / 100 + doy
  era * 146097 + doe - 719468

/-- Year, month (1..12) and day of month of a day number. -/
def civilFromDays (z0 : Int) : Int × Int × Int :=
  let z := z0 + 719468
  let era := z / 146097
  let doe := z - era * 146097
  let yoe := (doe - doe / 1460 + doe / 36524 - doe / 146096) / 365
  let y := yoe + era * 400
  let doy := doe - (365 * yoe + yoe / 4 - yoe / 100)
  let mp := (5 * doy + 2) / 153
  let d := doy - (153 * mp + 2) / 5 + 1
  let m := if mp < 10 then mp + 3 else mp - 9
  (if m ≤ 2 then y + 1 else y, m, d)

/-- Model of `MakeDay(year, month, date)` of ECMAScript: `month` is a zero-based index
that may lie outside 0..11 and is carried into the year. -/
def makeDay (year month date : Int) : Int :=
  daysFromCivil (year + month / 12) (month % 12 + 1) 1 + date - 1

/-- Model of `TimeClip`: time values beyond 8.64e15 ms are `NaN`. -/
def timeClip (t : Int) : Option Int :=
  if t.natAbs ≤ 8640000000000000 then some t else none

/-! ## Data model (tables of `database.js`)

SQL `REAL` columns and JavaScript numbers are exact rationals. The JSON text columns
`validation_errors` and `warnings` are the string lists they serialise
(`JSON.stringify` and `JSON.parse` are inverse on arrays of strings); SQL `NULL` is
`none`. Foreign keys are not part of the model. -/

/-- Column `legacy_raw_records.status`. -/
inductive RecordStatus where
  | raw
  | normalized
  | mapped
  | validated
  | posted
  | failed
  | skipped
  deriving DecidableEq, Repr

/-- Column `legacy_import_batches.status`. -/
inductive BatchStatus where
  | pending
  | processing
  | normalized
  | validated
  | posted
  | failed
  deriving DecidableEq, Repr

/-- A row of `legacy_raw_records`. -/
structure RawRecord where
  raw_id : Nat
  batch_id : Nat
  raw_payload : String
  detected_date : Option String
  detected_amount : Option ℚ
  detected_debit_account : Option String
  detected_credit_account : Option String
  detected_narration : Option String
  confidence_score : Option ℚ
  status : RecordStatus
  validation_errors : Option (List String)
  warnings : Option (List String)
  deriving DecidableEq

/-- A row of `legacy_import_batches`. -/
structure Batch where
  batch_id : Nat
  source_file : String
  source_type : String
  total_records : Nat
  processed_records : Nat
  failed_records : Nat
  status : BatchStatus
  completed_at : Option String
  deriving DecidableEq

/-- A row of `accounts` (the columns the pipeline reads). -/
structure Account where
  account_id : Nat
  account_code : Option String
  account_name : String
  is_active : Bool
  deriving DecidableEq

/-- A row of `legacy_mapping_rules`; `auto_apply` is the truthiness of the column. -/
structure MappingRule where
  rule_id : Nat
  legacy_text_pattern : String
  mapped_account_id : Nat
  priority : Int
  auto_apply : Bool
  deriving DecidableEq

/-- A row of `vouchers`. -/
structure Voucher where
  voucher_id : Nat
  voucher_number : String
  voucher_type : String
  voucher_date : String
  narration : Option String
  total_amount : ℚ
  legacy_raw_id : Option Nat
  deriving DecidableEq

/-- A row of `voucher_entries`. -/
structure VoucherEntry where
  voucher_id : Nat
  account_id : Nat
  debit_amount : ℚ
  credit_amount : ℚ
  deriving DecidableEq

/-- A row of `migration_audit_log`. -/
structure AuditEntry where
  batch_id : Option Nat
  raw_id : Option Nat
  action_taken : String
  details : String
  warnings : Option String
  final_voucher_id : Option Nat
  deriving DecidableEq

/-- The database: its tables in row order; `voucherSeq`, `batchSeq`, `rawSeq` and
`ruleSeq` are the AUTOINCREMENT high-water marks of `vouchers`, `legacy_import_batches`,
`legacy_raw_records` and `legacy_mapping_rules`. -/
structure Store where
  batches : List Batch
  rawRecords : List RawRecord
  accounts : List Account
  rules : List MappingRule
  vouchers : List Voucher
  entries : List VoucherEntry
  auditLog : List AuditEntry
  voucherSeq : Nat
  batchSeq : Nat := 0
  rawSeq : Nat := 0
  ruleSeq : Nat := 0
  deriving DecidableEq

/-- A value of a parsed payload. Arrays and nested objects carry their string
conversion `String(v)`, all the code observes of them. -/
inductive JsValue where
  | null
  | bool (b : Bool)
  | num (q : ℚ)
  | str (s : String)
  | object (text : String)
  deriving DecidableEq

/-- A JavaScript number that may be `null` or `NaN`. -/
inductive JsNumber where
  | null
  | nan
  | num (q : ℚ)
  deriving DecidableEq

/-- The result of `JSON.parse(record.raw_payload)`: `none` is JSON `null`, otherwise
the own enumerable entries in `Object.entries` order (none for a number or boolean). -/
abbrev Payload := Option (List (String × JsValue))

/-- The result of `JSON.parse(fileContent)` in `importBatch`: an array or any other
value. A parsed value is carried by its serialisation `JSON.stringify(v)`, all that
`importBatch` observes of it. -/
inductive JsonDoc where
  | array (items : List String)
  | value (text : String)
  deriving DecidableEq

/-- Built-ins of the JavaScript engine and libraries that the source calls but does
not define. -/
structure Runtime where
  /-- Offset of local time from UTC in ms, given a local time value. -/
  tzaLocal : Int → Int
  /-- Offset of local time from UTC in ms, given a UTC time value. -/
  tzaUTC : Int → Int
  /-- Time value of `new Date(str)`; `none` for an Invalid Date. -/
  dateParse : List Char → Option Int
  /-- Model of `String.prototype.toLowerCase`. -/
  toLowerCase : List Char → List Char
  /-- Model of `new Date().getFullYear()`. -/
  currentYear : Nat
  /-- Model of `String(x)` for a number `x`. -/
  numberToString : ℚ → List Char
  /-- Model of `CURRENT_TIMESTAMP` of the database. -/
  now : String
  /-- Model of `JSON.parse` of a raw payload; `Except.error msg` is a thrown error. -/
  jsonParse : String → Except String Payload
  /-- The hits Fuse.js finds for `text` in `accounts` on the keys `account_name` and
  `account_code` with the given threshold, best first, each with the score Fuse.js
  computes for it (0 is identical). -/
  fuseSearch : List Account → ℚ → List Char → List (Account × ℚ)
  /-- Model of `fs.readFileSync(filePath, 'utf-8')`; `Except.error msg` is a thrown error. -/
  readFileSync : String → Except String String
  /-- The rows of `Papa.parse(fileContent, options).data` with `header` and
  `skipEmptyLines` set, each carried by its `JSON.stringify`. -/
  papaParse : String → List String
  /-- Model of `JSON.parse(fileContent)`; `Except.error msg` is a thrown error. -/
  jsonParseDoc : String → Except String JsonDoc
  /-- Model of `path.basename(filePath)`. -/
  basename : String → String
  /-- Model of `parseFloat(str)`; `none` is `NaN`. -/
  parseFloat : List Char → Option ℚ
  /-- Model of `x.toFixed(2)`. -/
  toFixed2 : ℚ → List Char

/-- Time value of `new Date(year, monthIndex, day)` (local time); a year in 0..99
means 1900 + year. `none` is `NaN`. -/
def newDateLocal (rt : Runtime) (year monthIndex day : Int) : Option Int :=
  let yr := if 0 ≤ year ∧ year ≤ 99 then 1900 + year else year
  let t := makeDay yr monthIndex day * msPerDay
  timeClip (t - rt.tzaLocal t)

/-- Model of `date.getFullYear()`: the year in local time. -/
def getFullYear (rt : Runtime) (t : Int) : Int :=
  (civilFromDays ((t + rt.tzaUTC t) / msPerDay)).1

/-- The year part of `toISOString`: four digits for 0..9999, otherwise a sign and six digits. -/
def isoYear (y : Int) : List Char :=
  if 0 ≤ y ∧ y ≤ 9999 then padStart 4 (natToString y.toNat)
  else (if y < 0 then '-' else '+') :: padStart 6 (natToString y.natAbs)

/-- Model of `date.toISOString().split('T')[0]`: the UTC calendar date of a time value. -/
def isoDate (t : Int) : String :=
  let (y, m, d) := civilFromDays (t / msPerDay)
  String.mk (isoYear y ++ '-' :: padStart 2 (natToString m.toNat) ++ '-' :: padStart 2 (natToString d.toNat))

/-! ## `LegacyMigrationService.parseDate` -/

/-- One or two digits followed by a slash, as the greedy group `(\d{1,2})\/` matches
them: the digits and the rest after the slash. -/
def digits12Slash : List Char → Option (List Char × List Char)
  | a :: b :: c :: rest =>
    if isDigit a && isDigit b && c == '/' then some ([a, b], rest)
    else if isDigit a && b == '/' then some ([a], c :: rest)
    else none
  | [a, b] => if isDigit a && b == '/' then some ([a], []) else none
  | _ => none

/-- Exactly four digits at the start of the input (more may follow). -/
def digits4 : List Char → Option (List Char)
  | a :: b :: c :: d :: _ =>
    if isDigit a && isDigit b && isDigit c && isDigit d then some [a, b, c, d] else none
  | _ => none

/-- The match of `/^(\d{1,2})\/(\d{1,2})\/(\d{4})/` with its three groups passed
through `parseInt`: (month, day, year). -/
def mdyMatch (cs : List Char) : Option (Nat × Nat × Nat) :=
  match digits12Slash cs with
  | none => none
  | some (g1, r1) =>
    match digits12Slash r1 with
    | none => none
    | some (g2, r2) =>
      match digits4 r2 with
      | none => none
      | some g3 => some (digitsToNat g1, digitsToNat g2, digitsToNat g3)

/-- Whole-string match of a fixed-width pattern: `none` stands for `\d`, `some c`
for the literal character `c`. -/
def matchTemplate : List (Option Char) → List Char → Bool
  | [], [] => true
  | none :: t, c :: cs => isDigit c && matchTemplate t cs
  | some x :: t, c :: cs => (c == x) && matchTemplate t cs
  | _, _ => false

/-- The four entries of the `formats` array of `parseDate`. -/
inductive DateFormat where
  | ymdDash
  | dmySlash
  | dmyDash
  | ymdSlash
  deriving DecidableEq, Repr

/-- The `formats` array, in source order. -/
def formats : List DateFormat :=
  [DateFormat.ymdDash, DateFormat.dmySlash, DateFormat.dmyDash, DateFormat.ymdSlash]

/-- The pattern of each format. -/
def DateFormat.template : DateFormat → List (Option Char)
  | .ymdDash => [none, none, none, none, some '-', none, none, some '-', none, none]
  | .dmySlash => [none, none, some '/', none, none, some '/', none, none, none, none]
  | .dmyDash => [none, none, some '-', none, none, some '-', none, none, none, none]
  | .ymdSlash => [none, none, none, none, some '/', none, none, some '/', none, none]

/-- Model of `format.source.includes('\\/')`: the pattern contains an escaped slash. -/
def DateFormat.hasSlash : DateFormat → Bool
  | .dmySlash => true
  | .ymdSlash => true
  | _ => false

/-- Model of `ToNumber` of a `split` part; the guarding patterns only let digit strings
through, anything else is `NaN`. -/
def partToNumber (cs : List Char) : Option Int :=
  if cs ≠ [] ∧ cs.all isDigit then some (digitsToNat cs : Int) else none

/-- The slash branch inside the format loop: `new Date(parts[2], parts[1] - 1, parts[0])`
when `str.split('/')` has three parts. -/
def slashDate (rt : Runtime) (str : List Char) : Option Int :=
  match splitChar '/' str with
  | [p0, p1, p2] =>
    match partToNumber p2, partToNumber p1, partToNumber p0 with
    | some y, some m, some d => newDateLocal rt y (m - 1) d
    | _, _, _ => none
  | _ => none

/-- Body of the format loop for one matching format. -/
def tryFormat (rt : Runtime) (str : List Char) (f : DateFormat) : Option String :=
  match (if f.hasSlash then slashDate rt str else none) with
  | some t => some (isoDate t)
  | none =>
    match rt.dateParse str with
    | some t => some (isoDate t)
    | none => none

/-- The loop `for (const format of formats)`: the first format that matches and
yields a valid date returns. -/
def formatLoop (rt : Runtime) (str : List Char) : List DateFormat → Option String
  | [] => none
  | f :: fs =>
    if matchTemplate f.template str then
      match tryFormat rt str f with
      | some r => some r
      | none => formatLoop rt str fs
    else formatLoop rt str fs

/-- The last resort: native parsing, accepted when the local year is in 1900..2100. -/
def nativeFallback (rt : Runtime) (str : List Char) : Option String :=
  match rt.dateParse str with
  | some t =>
    if 1900 ≤ getFullYear rt t ∧ getFullYear rt t ≤ 2100 then some (isoDate t) else none
  | none => none

/-- The M/D/YYYY branch: range check, then `new Date(year, month - 1, day)`. -/
def mdyDate (rt : Runtime) (str : List Char) : Option String :=
  match mdyMatch str with
  | some (month, day, year) =>
    if 1 ≤ month ∧ month ≤ 12 ∧ 1 ≤ day ∧ day ≤ 31 ∧ 1900 ≤ year ∧ year ≤ 2100 then
      match newDateLocal rt year ((month : Int) - 1) day with
      | some t => some (isoDate t)
      | none => none
    else none
  | none => none

/-- The body of `parseDate` after the guard `if (!value) return null`, on `String(value)`. -/
def parseDateStr (rt : Runtime) (value : List Char) : Option String :=
  let str := trim value
  match mdyDate rt str with
  | some r => some r
  | none =>
    match formatLoop rt str formats with
    | some r => some r
    | none => nativeFallback rt str

/-- Model of `LegacyMigrationService.parseDate` on a string value; `none` is `null`. An empty
string is falsy and returns `null` at once. -/
def parseDate (rt : Runtime) (value : String) : Option String :=
  if value.data = [] then none else parseDateStr rt value.data

/-! ## `LegacyMigrationService.attemptNormalization` -/

/-- JavaScript truthiness of a payload value. -/
def JsValue.truthy : JsValue → Bool
  | .null => false
  | .bool b => b
  | .num q => decide (q ≠ 0)
  | .str s => decide (s.data ≠ [])
  | .object _ => true

/-- Model of `String(v)`. -/
def JsValue.toStr (rt : Runtime) : JsValue → List Char
  | .null => "null".data
  | .bool b => if b then "true".data else "false".data
  | .num q => rt.numberToString q
  | .str s => s.data
  | .object text => text.data

/-- Model of `payload[field]`; `none` is `undefined`. -/
def getField (payload : List (String × JsValue)) (field : String) : Option JsValue :=
  (payload.find? (fun kv => kv.1 == field)).map (fun kv => kv.2)

/-- Model of `parseDate(payload[field])` for a truthy value. -/
def parseDateValue (rt : Runtime) (v : JsValue) : Option String :=
  if v.truthy then parseDateStr rt (v.toStr rt) else none

/-- The date loop: the first candidate key with a truthy value that parses. -/
def detectDate (rt : Runtime) (payload : List (String × JsValue)) : List String → Option String
  | [] => none
  | field :: rest =>
    match getField payload field with
    | some v =>
      if v.truthy then
        match parseDateStr rt (v.toStr rt) with
        | some d => some d
        | none => detectDate rt payload rest
      else detectDate rt payload rest
    | none => detectDate rt payload rest

/-- Model of `s.replace(/[^0-9.-]/g, '')`. -/
def filterNumeric (cs : List Char) : List Char :=
  cs.filter (fun c => isDigit c || c == '.' || c == '-')

/-- Model of `parseFloat` on a string of digits, dots and minus signs: the longest prefix that
is a decimal literal; `none` is `NaN`. -/
def parseFloatFiltered (cs : List Char) : Option ℚ :=
  let neg := cs.head? == some '-'
  let body := if neg then cs.tail else cs
  let ip := body.takeWhile isDigit
  let afterInt := body.dropWhile isDigit
  let fp := if afterInt.head? == some '.' then afterInt.tail.takeWhile isDigit else []
  if ip = [] ∧ fp = [] then none
  else
    let v : ℚ := (digitsToNat ip : ℚ) + (digitsToNat fp : ℚ) / (10 ^ fp.length : ℚ)
    some (if neg then -v else v)

/-- The amount loop: `amount` keeps the last value assigned, `NaN` included. -/
def detectAmount (rt : Runtime) (payload : List (String × JsValue)) :
    List String → JsNumber → JsNumber × Bool
  | [], acc => (acc, false)
  | field :: rest, acc =>
    match getField payload field with
    | some v =>
      match parseFloatFiltered (filterNumeric (v.toStr rt)) with
      | some q => (JsNumber.num q, true)
      | none => detectAmount rt payload rest JsNumber.nan
    | none => detectAmount rt payload rest acc

/-- The loops over account and narration candidates: the trimmed string of the
first candidate key with a truthy value. -/
def detectText (rt : Runtime) (payload : List (String × JsValue)) : List String → Option String
  | [] => none
  | field :: rest =>
    match getField payload field with
    | some v => if v.truthy then some (String.mk (trim (v.toStr rt))) else detectText rt payload rest
    | none => detectText rt payload rest

/-- Model of `!x` for a nullable string. -/
def strFalsy (x : Option String) : Bool :=
  match x with
  | none => true
  | some s => decide (s.data = [])

/-- Model of `!x` for a nullable number. -/
def numFalsy (x : Option ℚ) : Bool :=
  match x with
  | none => true
  | some q => decide (q = 0)

/-- Model of `!amount` for the amount variable. -/
def JsNumber.falsy : JsNumber → Bool
  | .num q => decide (q = 0)
  | _ => true

/-- The value bound to a `REAL` column: `null` and `NaN` are stored as `NULL`. -/
def JsNumber.toSql : JsNumber → Option ℚ
  | .num q => some q
  | _ => none

/-- Model of `parts.join(sep)`. -/
def joinWith (sep : List Char) : List (List Char) → List Char
  | [] => []
  | [p] => p
  | p :: q :: rest => p ++ sep ++ joinWith sep (q :: rest)

/-- The narration made from all string-valued fields: `key: value` joined by `; `. -/
def synthNarration (payload : List (String × JsValue)) : String :=
  String.mk (joinWith "; ".data
    (payload.filterMap (fun kv =>
      match kv.2 with
      | .str v => if v.data ≠ [] then some (kv.1.data ++ ": ".data ++ v.data) else none
      | _ => none)))

/-- The object returned by `attemptNormalization`. -/
structure Normalized where
  date : Option String
  amount : JsNumber
  debit_account : Option String
  credit_account : Option String
  narration : String
  confidence : ℚ
  warnings : Option (List String)
  deriving DecidableEq

/-- Candidate keys for the date, in source order. -/
def dateFields : List String :=
  ["date", "Date", "DATE", "voucher_date", "transaction_date", "txn_date"]

/-- Candidate keys for the amount, in source order. -/
def amountFields : List String :=
  ["amount", "Amount", "AMOUNT", "value", "total", "debit", "credit"]

/-- Candidate keys for the debit account, in source order. -/
def debitFields : List String :=
  ["debit_account", "dr_account", "from_account", "paid_to", "expense"]

/-- Candidate keys for the credit account, in source order. -/
def creditFields : List String :=
  ["credit_account", "cr_account", "to_account", "received_from", "income"]

/-- Candidate keys for the generic account fallback, in source order. -/
def accountFields : List String := ["account", "Account", "account_name", "ledger"]

/-- Candidate keys for the narration, in source order. -/
def narrationFields : List String :=
  ["narration", "description", "particulars", "memo", "notes", "remarks"]

/-- Model of `LegacyMigrationService.attemptNormalization` on the entries of a non-null payload. -/
def attemptNormalizationFields (rt : Runtime) (payload : List (String × JsValue)) : Normalized :=
  let date := detectDate rt payload dateFields
  let am := detectAmount rt payload amountFields JsNumber.null
  let debit0 := detectText rt payload debitFields
  let credit := detectText rt payload creditFields
  let generic :=
    if strFalsy debit0 && strFalsy credit then detectText rt payload accountFields else none
  let debit := if strFalsy debit0 && strFalsy credit then
      (match generic with
       | some g => some g
       | none => debit0)
    else debit0
  let narr0 := detectText rt payload narrationFields
  let narration := if strFalsy narr0 then synthNarration payload else narr0.getD ""
  let confidence : ℚ :=
    (if date.isSome then 1 / 4 else 0) + (if am.2 then 1 / 4 else 0) +
    (if debit0.isSome then 1 / 8 else 0) + (if credit.isSome then 1 / 8 else 0) +
    (if generic.isSome then 1 / 10 else 0) + (if narr0.isSome then 1 / 8 else 0)
  let warnings : List String :=
    (if date.isNone then ["Could not detect date"] else []) ++
    (if am.1.falsy then ["Could not detect amount"] else []) ++
    (if generic.isSome then ["Only one account detected, manual mapping required"] else [])
  { date := date, amount := am.1, debit_account := debit, credit_account := credit,
    narration := narration, confidence := min confidence 1,
    warnings := if warnings.length > 0 then some warnings else none }

/-- Model of `LegacyMigrationService.attemptNormalization`; reading a property of a `null`
payload throws. -/
def attemptNormalization (rt : Runtime) (payload : Payload) : Except String Normalized :=
  match payload with
  | none => Except.error "Cannot read properties of null (reading 'date')"
  | some fields => Except.ok (attemptNormalizationFields rt fields)

/-! ## Store access -/

/-- Model of `UPDATE legacy_raw_records SET ... WHERE raw_id = ?`. -/
def updateRecord (s : Store) (rawId : Nat) (f : RawRecord → RawRecord) : Store :=
  { s with rawRecords := s.rawRecords.map (fun r => if r.raw_id = rawId then f r else r) }

/-- Model of `UPDATE legacy_import_batches SET ... WHERE batch_id = ?`. -/
def updateBatch (s : Store) (batchId : Nat) (f : Batch → Batch) : Store :=
  { s with batches := s.batches.map (fun b => if b.batch_id = batchId then f b else b) }

/-- Model of `LegacyMigrationService.logAudit`: one row appended to `migration_audit_log`. -/
def logAudit (s : Store) (batchId : Option Nat) (rawId : Option Nat) (action details : String)
    (warnings : Option String) (voucherId : Option Nat) : Store :=
  { s with auditLog := s.auditLog ++
      [{ batch_id := batchId, raw_id := rawId, action_taken := action, details := details,
         warnings := warnings, final_voucher_id := voucherId }] }

/-- Model of `SELECT * FROM legacy_raw_records WHERE batch_id = ? AND status ...`. -/
def selectRecords (s : Store) (batchId : Nat) (p : RecordStatus → Bool) : List RawRecord :=
  s.rawRecords.filter (fun r => decide (r.batch_id = batchId) && p r.status)

/-- Model of `SELECT * FROM accounts WHERE is_active = 1`. -/
def activeAccounts (s : Store) : List Account :=
  s.accounts.filter (fun a => a.is_active)

/-- Model of `LegacyMigrationService.getMappingRules`: rules joined with their account,
ordered by descending priority. -/
def getMappingRules (s : Store) : List MappingRule :=
  (s.rules.filter (fun r => s.accounts.any (fun a => a.account_id == r.mapped_account_id))).insertionSort
    (fun a b => a.priority ≥ b.priority)

/-- The status of a batch, `none` when there is no such batch. -/
def batchStatus (s : Store) (batchId : Nat) : Option BatchStatus :=
  (s.batches.find? (fun b => b.batch_id == batchId)).map (fun b => b.status)

/-- The raw record with a given id. -/
def findRecord (s : Store) (rawId : Nat) : Option RawRecord :=
  s.rawRecords.find? (fun r => r.raw_id == rawId)

/-! ## `LegacyMigrationService.normalizeRecords` -/

/-- The success update of `normalizeRecords`. -/
def applyNormalized (n : Normalized) (r : RawRecord) : RawRecord :=
  { r with detected_date := n.date, detected_amount := n.amount.toSql,
           detected_debit_account := n.debit_account,
           detected_credit_account := n.credit_account,
           detected_narration := some n.narration, confidence_score := some n.confidence,
           status := RecordStatus.normalized, warnings := n.warnings }

/-- The update of a `catch` block: the record fails with the error message. -/
def applyFailed (msg : String) (r : RawRecord) : RawRecord :=
  { r with status := RecordStatus.failed, validation_errors := some [msg] }

/-- The `try` block of `normalizeRecords` for one record. -/
def normalizeOne (rt : Runtime) (record : RawRecord) : Except String Normalized :=
  match rt.jsonParse record.raw_payload with
  | Except.error msg => Except.error msg
  | Except.ok payload => attemptNormalization rt payload

/-- The record loop of `normalizeRecords`: the store and the counters `normalized`
and `failed`. -/
def normalizeLoop (rt : Runtime) : List RawRecord → Store × Nat × Nat → Store × Nat × Nat
  | [], acc => acc
  | record :: rest, (s, normalized, failed) =>
    match normalizeOne rt record with
    | Except.ok n =>
      normalizeLoop rt rest (updateRecord s record.raw_id (applyNormalized n), normalized + 1, failed)
    | Except.error msg =>
      normalizeLoop rt rest (updateRecord s record.raw_id (applyFailed msg), normalized, failed + 1)

/-- The counts a stage returns (`success` is always true). -/
structure StageResult where
  processed : Nat
  failed : Nat
  deriving DecidableEq, Repr

/-- Model of `LegacyMigrationService.normalizeRecords`. -/
def normalizeRecords (rt : Runtime) (s : Store) (batchId : Nat) : Store × StageResult :=
  let records := selectRecords s batchId (fun st => st == RecordStatus.raw)
  let (s1, normalized, failed) := normalizeLoop rt records (s, 0, 0)
  let s2 := updateBatch s1 batchId (fun b =>
    { b with status := BatchStatus.normalized, processed_records := normalized,
             failed_records := failed })
  let s3 := logAudit s2 (some batchId) none "BATCH_NORMALIZED"
    (String.mk ("Normalized ".data ++ natToString normalized ++ " records, ".data ++
      natToString failed ++ " failed".data)) none none
  (s3, { processed := normalized, failed := failed })

/-! ## `LegacyMigrationService.findAccountMatch` -/

/-- Model of `text.includes(pattern)`. -/
def includes (text pattern : List Char) : Bool := decide (pattern <:+: text)

/-- Truthiness of an account id that may be `null`. -/
def idTruthy (x : Option Nat) : Bool :=
  match x with
  | none => false
  | some n => decide (n ≠ 0)

/-- The test of the mapping-rule loop. -/
def ruleMatches (rt : Runtime) (text : String) (rule : MappingRule) : Bool :=
  rule.auto_apply &&
    includes (rt.toLowerCase text.data) (rt.toLowerCase rule.legacy_text_pattern.data)

/-- The predicate of `accounts.find` in the exact tier. -/
def exactMatches (rt : Runtime) (text : String) (a : Account) : Bool :=
  rt.toLowerCase a.account_name.data == rt.toLowerCase text.data || a.account_code == some text

/-- Model of the test `fuzzyResults[0].score < 0.3`: `none` is a result object without
a `score` property, whose `score` reads `undefined`, and `undefined < 0.3` is false. -/
def scoreBelow (score : Option ℚ) (bound : ℚ) : Bool :=
  match score with
  | none => false
  | some sc => decide (sc < bound)

/-- Model of `LegacyMigrationService.findAccountMatch`; `none` is `null`. The argument
`fuse` is carried by its `search` method: the result objects in order, each with its
`item` and its `score` property (`none` when the object has no such property). -/
def findAccountMatch (rt : Runtime) (text : Option String) (accounts : List Account)
    (mappingRules : List MappingRule) (fuse : List Char → List (Account × Option ℚ)) :
    Option Nat :=
  match text with
  | none => none
  | some t =>
    if t.data = [] then none
    else
      match mappingRules.find? (ruleMatches rt t) with
      | some rule => some rule.mapped_account_id
      | none =>
        match accounts.find? (exactMatches rt t) with
        | some a => some a.account_id
        | none =>
          match fuse t.data with
          | (a, score) :: _ => if scoreBelow score (3 / 10) then some a.account_id else none
          | [] => none

/-- Model of the index built in `validateBatch` and `postBatch`,
`new Fuse(accounts, options)` with the keys `account_name` and `account_code` and the
threshold 0.4, carried by its `search` method. The option `includeScore` is not set,
so Fuse.js returns its hits without a `score` property. -/
def newFuse (rt : Runtime) (accounts : List Account) : List Char → List (Account × Option ℚ) :=
  fun text => (rt.fuseSearch accounts (4 / 10) text).map (fun hit => (hit.1, none))

/-! ## `LegacyMigrationService.validateBatch` -/

/-- The account lookup of `validateBatch`: `findAccountMatch` is only called on a
truthy text. -/
def mapAccount (rt : Runtime) (text : Option String) (accounts : List Account)
    (mappingRules : List MappingRule) (fuse : List Char → List (Account × Option ℚ)) : Option Nat :=
  if strFalsy text then none else findAccountMatch rt text accounts mappingRules fuse

/-- The `errors` array built for one record. -/
def validationErrors (rt : Runtime) (accounts : List Account) (mappingRules : List MappingRule)
    (fuse : List Char → List (Account × Option ℚ)) (record : RawRecord) : List String :=
  let debitAccountId := mapAccount rt record.detected_debit_account accounts mappingRules fuse
  let creditAccountId := mapAccount rt record.detected_credit_account accounts mappingRules fuse
  (if strFalsy record.detected_date then ["Missing date"] else []) ++
  (if numFalsy record.detected_amount || decide (record.detected_amount.getD 0 ≤ 0)
    then ["Invalid or missing amount"] else []) ++
  (if !idTruthy debitAccountId && !idTruthy creditAccountId
    then ["No accounts could be mapped"] else [])

/-- The `warnings` array built for one record. -/
def validationWarnings (rt : Runtime) (accounts : List Account) (mappingRules : List MappingRule)
    (fuse : List Char → List (Account × Option ℚ)) (record : RawRecord) : List String :=
  let debitAccountId := mapAccount rt record.detected_debit_account accounts mappingRules fuse
  let creditAccountId := mapAccount rt record.detected_credit_account accounts mappingRules fuse
  (match record.warnings with
   | some w => w
   | none => []) ++
  (if !strFalsy record.detected_debit_account && !idTruthy debitAccountId
    then [String.mk ("Could not map debit account: ".data ++
      (record.detected_debit_account.getD "").data)] else []) ++
  (if !strFalsy record.detected_credit_account && !idTruthy creditAccountId
    then [String.mk ("Could not map credit account: ".data ++
      (record.detected_credit_account.getD "").data)] else []) ++
  (if !idTruthy debitAccountId && !idTruthy creditAccountId then []
   else if !idTruthy debitAccountId || !idTruthy creditAccountId
    then ["Only one account mapped - manual intervention required"] else [])

/-- The status chosen for a record from its `errors` array. -/
def validationStatus (errors : List String) : RecordStatus :=
  if errors.length > 0 then RecordStatus.failed else RecordStatus.validated

/-- The update `validateBatch` writes for one record. -/
def applyValidation (errors warnings : List String) (r : RawRecord) : RawRecord :=
  { r with status := validationStatus errors,
           validation_errors := if errors.length > 0 then some errors else none,
           warnings := if warnings.length > 0 then some warnings else none }

/-- The record loop of `validateBatch`. -/
def validateLoop (rt : Runtime) (accounts : List Account) (mappingRules : List MappingRule)
    (fuse : List Char → List (Account × Option ℚ)) :
    List RawRecord → Store × Nat × Nat → Store × Nat × Nat
  | [], acc => acc
  | record :: rest, (s, validated, failed) =>
    let errors := validationErrors rt accounts mappingRules fuse record
    let warnings := validationWarnings rt accounts mappingRules fuse record
    let s1 := updateRecord s record.raw_id (applyValidation errors warnings)
    if validationStatus errors = RecordStatus.validated then
      validateLoop rt accounts mappingRules fuse rest (s1, validated + 1, failed)
    else
      validateLoop rt accounts mappingRules fuse rest (s1, validated, failed + 1)

/-- Model of `LegacyMigrationService.validateBatch`. -/
def validateBatch (rt : Runtime) (s : Store) (batchId : Nat) : Store × StageResult :=
  let records := selectRecords s batchId
    (fun st => st == RecordStatus.normalized || st == RecordStatus.mapped)
  let accounts := activeAccounts s
  let mappingRules := getMappingRules s
  let fuse := newFuse rt accounts
  let (s1, validated, failed) := validateLoop rt accounts mappingRules fuse records (s, 0, 0)
  let s2 := updateBatch s1 batchId (fun b =>
    { b with status := BatchStatus.validated, processed_records := validated,
             failed_records := failed })
  let s3 := logAudit s2 (some batchId) none "BATCH_VALIDATED"
    (String.mk ("Validated ".data ++ natToString validated ++ " records, ".data ++
      natToString failed ++ " failed".data)) none none
  (s3, { processed := validated, failed := failed })

/-! ## Voucher numbering -/

/-- Value of a hexadecimal digit. -/
def hexVal (c : Char) : Option Nat :=
  if isDigit c then some (c.toNat - 48)
  else if 97 ≤ c.toNat ∧ c.toNat ≤ 102 then some (c.toNat - 87)
  else if 65 ≤ c.toNat ∧ c.toNat ≤ 70 then some (c.toNat - 55)
  else none

/-- Model of `parseInt(s)` without a radix: leading white space, a sign, then hexadecimal
digits after `0x` or decimal digits; `none` is `NaN`. The value is the exact integer
of the digits, which is the engine's double for magnitudes up to 2^53. -/
def jsParseInt (cs : List Char) : Option Int :=
  let s := cs.dropWhile isJsWhitespace
  let neg := s.head? == some '-'
  let s1 := if s.head? == some '-' || s.head? == some '+' then s.tail else s
  let isHex := (s1.take 2 == ['0', 'x']) || (s1.take 2 == ['0', 'X'])
  let mag : Option Nat :=
    if isHex then
      let ds := (s1.drop 2).takeWhile (fun c => (hexVal c).isSome)
      if ds = [] then none
      else some (ds.foldl (fun n c => 16 * n + (hexVal c).getD 0) 0)
    else
      let ds := s1.takeWhile isDigit
      if ds = [] then none else some (digitsToNat ds)
  mag.map (fun m => if neg then -(m : Int) else (m : Int))

/-- Model of `String(x)` for an integer or `NaN`: the decimal digits, as the engine
prints an integer below 10^21. -/
def intToString (x : Option Int) : List Char :=
  match x with
  | none => "NaN".data
  | some n => if n < 0 then '-' :: natToString n.natAbs else natToString n.natAbs

/-- Lower case of an ASCII letter, as SQLite's `LIKE` folds case. -/
def asciiLower (c : Char) : Char :=
  if 65 ≤ c.toNat ∧ c.toNat ≤ 90 then Char.ofNat (c.toNat + 32) else c

/-- Model of `voucher_number LIKE 'lead%'` for a `lead` without wildcards. -/
def likeStart (lead : List Char) (number : String) : Bool :=
  (lead.map asciiLower).isPrefixOf (number.data.map asciiLower)

/-- Model of `SELECT voucher_number FROM vouchers WHERE voucher_number LIKE ? ORDER BY
voucher_id DESC LIMIT 1`: the matching voucher with the greatest id. -/
def lastVoucherLike (vouchers : List Voucher) (lead : List Char) : Option Voucher :=
  (vouchers.filter (fun v => likeStart lead v.voucher_number)).foldl
    (fun best v =>
      match best with
      | none => some v
      | some b => if b.voucher_id < v.voucher_id then some v else some b)
    none

/-- The numbering code shared by `postBatch` and `generateVoucherNumber`: the lead
`PFX-YEAR-` followed by `String(nextNum).padStart(5, '0')`. The sum
`parseInt(parts[2]) + 1` is taken over the integers: it is the engine's sum of doubles
as long as `parseInt(parts[2])` is below 2^53 = 9007199254740992, and the statements
on numbers read from a stored voucher are made within that range. -/
def nextVoucherNumber (vouchers : List Voucher) (pfx : String) (year : Nat) : String :=
  let lead := pfx.data ++ '-' :: natToString year ++ ['-']
  let nextNum : Option Int :=
    match lastVoucherLike vouchers lead with
    | none => some 1
    | some v => (jsParseInt ((splitChar '-' v.voucher_number.data).getD 2 [])).map (fun n => n + 1)
  String.mk (lead ++ padStart 5 (intToString nextNum))

/-- Model of `VoucherService.generateVoucherNumber`. -/
def generateVoucherNumber (rt : Runtime) (s : Store) (type : String) : String :=
  let pfx := if type = "Debit" then "DBV" else if type = "Credit" then "CRV" else "JRN"
  nextVoucherNumber s.vouchers pfx rt.currentYear

/-! ## `LegacyMigrationService.postBatch` -/

/-- The id given to a new row of `vouchers` (AUTOINCREMENT). -/
def newVoucherId (s : Store) : Nat :=
  (s.vouchers.foldl (fun m v => max m v.voucher_id) s.voucherSeq) + 1

/-- The `CHECK` constraint of `voucher_entries`. -/
def entryCheck (debit credit : ℚ) : Bool :=
  (decide (debit > 0) && decide (credit = 0)) || (decide (credit > 0) && decide (debit = 0)) ||
  (decide (debit = 0) && decide (credit = 0))

/-- The transaction of `postBatch` for one record with both accounts resolved:
the new store, voucher id and voucher number, or the error of the statement that
fails (the transaction is then rolled back and the store is unchanged). -/
def postTransaction (rt : Runtime) (s : Store) (record : RawRecord)
    (debitAccountId creditAccountId : Nat) : Except String (Store × Nat × String) :=
  let voucherNumber := nextVoucherNumber s.vouchers "LGC" rt.currentYear
  match record.detected_date, record.detected_amount with
  | none, _ => Except.error "NOT NULL constraint failed: vouchers.voucher_date"
  | some _, none => Except.error "NOT NULL constraint failed: vouchers.total_amount"
  | some date, some amount =>
    if s.vouchers.any (fun v => v.voucher_number == voucherNumber) then
      Except.error "UNIQUE constraint failed: vouchers.voucher_number"
    else if !entryCheck amount 0 || !entryCheck 0 amount then
      Except.error "CHECK constraint failed: voucher_entries"
    else
      let voucherId := newVoucherId s
      let voucher : Voucher :=
        { voucher_id := voucherId, voucher_number := voucherNumber, voucher_type := "Journal",
          voucher_date := date,
          narration := some (if strFalsy record.detected_narration then "Imported from legacy data"
            else record.detected_narration.getD ""),
          total_amount := amount, legacy_raw_id := some record.raw_id }
      Except.ok
        ({ s with
            vouchers := s.vouchers ++ [voucher],
            entries := s.entries ++
              [{ voucher_id := voucherId, account_id := debitAccountId,
                 debit_amount := amount, credit_amount := 0 },
               { voucher_id := voucherId, account_id := creditAccountId,
                 debit_amount := 0, credit_amount := amount }],
            voucherSeq := voucherId },
         voucherId, voucherNumber)

/-- The `try` block of `postBatch` for one record, up to the end of the transaction. -/
def postOne (rt : Runtime) (s : Store) (accounts : List Account) (mappingRules : List MappingRule)
    (fuse : List Char → List (Account × Option ℚ)) (record : RawRecord) :
    Except String (Store × Nat × String) :=
  let debitAccountId := findAccountMatch rt record.detected_debit_account accounts mappingRules fuse
  let creditAccountId := findAccountMatch rt record.detected_credit_account accounts mappingRules fuse
  if !idTruthy debitAccountId || !idTruthy creditAccountId then
    Except.error "Account mapping incomplete"
  else postTransaction rt s record (debitAccountId.getD 0) (creditAccountId.getD 0)

/-- One iteration of the record loop of `postBatch`: the new store and whether the
record was posted. -/
def postStep (rt : Runtime) (batchId : Nat) (accounts : List Account)
    (mappingRules : List MappingRule) (fuse : List Char → List (Account × Option ℚ))
    (s : Store) (record : RawRecord) : Store × Bool :=
  match postOne rt s accounts mappingRules fuse record with
  | Except.ok (s1, voucherId, voucherNumber) =>
    let s2 := updateRecord s1 record.raw_id (fun r => { r with status := RecordStatus.posted })
    (logAudit s2 (some batchId) (some record.raw_id) "RECORD_POSTED"
      (String.mk ("Created voucher ".data ++ voucherNumber.data)) none (some voucherId), true)
  | Except.error msg =>
    let s1 := updateRecord s record.raw_id (applyFailed msg)
    (logAudit s1 (some batchId) (some record.raw_id) "RECORD_FAILED" msg none none, false)

/-- The record loop of `postBatch`: the store and the counters `posted` and `failed`. -/
def postLoop (rt : Runtime) (batchId : Nat) (accounts : List Account)
    (mappingRules : List MappingRule) (fuse : List Char → List (Account × Option ℚ)) :
    List RawRecord → Store × Nat × Nat → Store × Nat × Nat
  | [], acc => acc
  | record :: rest, (s, posted, failed) =>
    match postStep rt batchId accounts mappingRules fuse s record with
    | (s1, true) => postLoop rt batchId accounts mappingRules fuse rest (s1, posted + 1, failed)
    | (s1, false) => postLoop rt batchId accounts mappingRules fuse rest (s1, posted, failed + 1)

/-- Model of `LegacyMigrationService.postBatch`. -/
def postBatch (rt : Runtime) (s : Store) (batchId : Nat) : Store × StageResult :=
  let records := selectRecords s batchId (fun st => st == RecordStatus.validated)
  let accounts := activeAccounts s
  let mappingRules := getMappingRules s
  let fuse := newFuse rt accounts
  let (s1, posted, failed) := postLoop rt batchId accounts mappingRules fuse records (s, 0, 0)
  let s2 := updateBatch s1 batchId (fun b =>
    { b with status := BatchStatus.posted, processed_records := posted,
             failed_records := failed, completed_at := some rt.now })
  let s3 := logAudit s2 (some batchId) none "BATCH_POSTED"
    (String.mk ("Posted ".data ++ natToString posted ++ " vouchers, ".data ++
      natToString failed ++ " failed".data)) none none
  (s3, { processed := posted, failed := failed })

/-! ## `LegacyMigrationService.importBatch` -/

/-- The source type that `scanLegacyFiles` gives a file by its lower-cased extension;
`none` is a file it skips. -/
def scanSourceType (ext : String) : Option String :=
  if ext = ".csv" then some "CSV"
  else if ext = ".json" then some "JSON"
  else if ext = ".xlsx" ∨ ext = ".xls" then some "Excel"
  else none

/-- The array `rawRecords` that `importBatch` builds from the file, one JSON text per
parsed row. `Except.error msg` is the message of the failure result: an error thrown
while reading or parsing, or the refusal of any other source type. -/
def parseRows (rt : Runtime) (filePath sourceType : String) : Except String (List String) :=
  if sourceType = "CSV" then
    match rt.readFileSync filePath with
    | Except.error msg => Except.error msg
    | Except.ok fileContent => Except.ok (rt.papaParse fileContent)
  else if sourceType = "JSON" then
    match rt.readFileSync filePath with
    | Except.error msg => Except.error msg
    | Except.ok fileContent =>
      match rt.jsonParseDoc fileContent with
      | Except.error msg => Except.error msg
      | Except.ok (JsonDoc.array items) => Except.ok items
      | Except.ok (JsonDoc.value text) => Except.ok [text]
  else Except.error "Unsupported file type. Use CSV or JSON."

/-- The id given to a new row of `legacy_import_batches` (AUTOINCREMENT). -/
def newBatchId (s : Store) : Nat :=
  (s.batches.foldl (fun m b => max m b.batch_id) s.batchSeq) + 1

/-- The id given to a new row of `legacy_raw_records` (AUTOINCREMENT). -/
def newRawId (s : Store) : Nat :=
  (s.rawRecords.foldl (fun m r => max m r.raw_id) s.rawSeq) + 1

/-- The row that `INSERT INTO legacy_raw_records (batch_id, raw_payload, status)
VALUES (?, ?, 'raw')` creates: the other columns take their defaults. -/
def freshRecord (rawId batchId : Nat) (payload : String) : RawRecord :=
  { raw_id := rawId, batch_id := batchId, raw_payload := payload, detected_date := none,
    detected_amount := none, detected_debit_account := none, detected_credit_account := none,
    detected_narration := none, confidence_score := some 0, status := RecordStatus.raw,
    validation_errors := none, warnings := none }

/-- The loop `for (const payload of rawRecords)` of `importBatch`. -/
def insertRawRecords (batchId : Nat) : List String → Store → Store
  | [], s => s
  | payload :: rest, s =>
    insertRawRecords batchId rest
      { s with rawRecords := s.rawRecords ++ [freshRecord (newRawId s) batchId payload],
               rawSeq := newRawId s }

/-- Model of `LegacyMigrationService.importBatch`: the new store and either the error message
of the failure result or the pair (`batch_id`, `records_imported`). -/
def importBatch (rt : Runtime) (s : Store) (filePath sourceType : String) :
    Store × Except String (Nat × Nat) :=
  match parseRows rt filePath sourceType with
  | Except.error msg => (s, Except.error msg)
  | Except.ok rawRecords =>
    let batchId := newBatchId s
    let s1 : Store :=
      { s with batches := s.batches ++
                 [{ batch_id := batchId, source_file := rt.basename filePath,
                    source_type := sourceType, total_records := rawRecords.length,
                    processed_records := 0, failed_records := 0,
                    status := BatchStatus.pending, completed_at := none }],
               batchSeq := batchId }
    let s2 := insertRawRecords batchId rawRecords s1
    let s3 := logAudit s2 (some batchId) none "BATCH_IMPORTED"
      (String.mk ("Imported ".data ++ natToString rawRecords.length ++ " records from ".data ++
        (rt.basename filePath).data)) none none
    (s3, Except.ok (batchId, rawRecords.length))

/-! ## `LegacyMigrationService.createMappingRule` -/

/-- The argument of `createMappingRule`; `none` is a property that is `undefined` or `null`. -/
structure RuleData where
  legacy_text_pattern : Option String
  mapped_account_id : Option Nat
  priority : Option Int
  auto_apply : Option Bool
  deriving DecidableEq

/-- The id given to a new row of `legacy_mapping_rules` (AUTOINCREMENT). -/
def newRuleId (s : Store) : Nat :=
  (s.rules.foldl (fun m r => max m r.rule_id) s.ruleSeq) + 1

/-- Model of `LegacyMigrationService.createMappingRule`: the new store and the `rule_id` of
the result; `Except.error msg` is the error the insert throws. The pattern is bound as
it is given: the columns are `NOT NULL`, nothing else is checked. -/
def createMappingRule (s : Store) (data : RuleData) : Store × Except String Nat :=
  match data.legacy_text_pattern, data.mapped_account_id with
  | none, _ =>
    (s, Except.error "NOT NULL constraint failed: legacy_mapping_rules.legacy_text_pattern")
  | some _, none =>
    (s, Except.error "NOT NULL constraint failed: legacy_mapping_rules.mapped_account_id")
  | some pattern, some accountId =>
    let ruleId := newRuleId s
    ({ s with
        rules := s.rules ++
          [{ rule_id := ruleId, legacy_text_pattern := pattern, mapped_account_id := accountId,
             priority := data.priority.getD 0, auto_apply := data.auto_apply != some false }],
        ruleSeq := ruleId },
     Except.ok ruleId)

/-! ## `VoucherService.validateVoucherEntries`, `createVoucher`, `updateVoucher` -/

/-- An element of the `entries` array given to the voucher service; an `account_id`
that is `undefined` or `null` is `none`. -/
structure EntryInput where
  account_id : Option Nat
  debit_amount : JsValue
  credit_amount : JsValue
  deriving DecidableEq

/-- A JavaScript number by its value: `NaN`, an infinity, or a finite double carried
by its exact rational value. The two zeros are one value: the code below does not tell
them apart. -/
inductive Float64 where
  | nan
  | posInf
  | negInf
  | fin (q : ℚ)
  deriving DecidableEq

/-- The power `2 ^ e` for an integer exponent. -/
def pow2 (e : Int) : ℚ :=
  if 0 ≤ e then (2 : ℚ) ^ e.toNat else 1 / (2 : ℚ) ^ (-e).toNat

/-- The number of binary digits of `n`, with `fuel` steps at most. -/
def bitLength : Nat → Nat → Nat
  | 0, _ => 0
  | fuel + 1, n => if n = 0 then 0 else bitLength fuel (n / 2) + 1

/-- The exponent `e` with `2 ^ e ≤ a < 2 ^ (e + 1)`, for a positive number `a`. -/
def floorLog2 (a : ℚ) : Int :=
  let e0 : Int := (bitLength a.num.natAbs a.num.natAbs : Int) - (bitLength a.den a.den : Int)
  if pow2 e0 ≤ a then e0 else e0 - 1

/-- The integer nearest to a number that is not negative, the even one of the two at a
tie. -/
def roundHalfEven (x : ℚ) : Int :=
  let f := ⌊x⌋
  if x - f < 1 / 2 then f
  else if 1 / 2 < x - f then f + 1
  else if f % 2 = 0 then f else f + 1

/-- The double nearest to a number, as the engine rounds the result of every
arithmetic operation and every number it reads (IEEE 754 binary64, round to nearest,
ties to even): 53 binary digits, exponents from -1022 with the subnormal numbers below,
and an infinity when the rounded magnitude reaches 2^1024. -/
def roundToDouble (q : ℚ) : Float64 :=
  if q = 0 then .fin 0
  else
    let a := |q|
    let e := max (floorLog2 a) (-1022)
    let ulp := pow2 (e - 52)
    let r := (roundHalfEven (a / ulp) : ℚ) * ulp
    if pow2 1024 ≤ r then (if q < 0 then .negInf else .posInf)
    else .fin (if q < 0 then -r else r)

/-- Model of `a + b` on numbers. -/
def Float64.add : Float64 → Float64 → Float64
  | .nan, _ => .nan
  | _, .nan => .nan
  | .posInf, .negInf => .nan
  | .negInf, .posInf => .nan
  | .posInf, _ => .posInf
  | _, .posInf => .posInf
  | .negInf, _ => .negInf
  | _, .negInf => .negInf
  | .fin a, .fin b => roundToDouble (a + b)

/-- Model of `-a` on numbers. -/
def Float64.neg : Float64 → Float64
  | .nan => .nan
  | .posInf => .negInf
  | .negInf => .posInf
  | .fin a => .fin (-a)

/-- Model of `a - b` on numbers. -/
def Float64.sub (a b : Float64) : Float64 := a.add b.neg

/-- Model of `Math.abs(a)`. -/
def Float64.abs : Float64 → Float64
  | .nan => .nan
  | .posInf => .posInf
  | .negInf => .posInf
  | .fin a => .fin |a|

/-- Model of `a < b` on numbers (`b > a`); a comparison with `NaN` is false. -/
def Float64.lt : Float64 → Float64 → Bool
  | .fin a, .fin b => decide (a < b)
  | .negInf, .fin _ => true
  | .negInf, .posInf => true
  | .fin _, .posInf => true
  | _, _ => false

/-- Model of `x.toFixed(2)`. -/
def Float64.toFixed2 (rt : Runtime) : Float64 → List Char
  | .nan => "NaN".data
  | .posInf => "Infinity".data
  | .negInf => "-Infinity".data
  | .fin q => rt.toFixed2 q

/-- The literal `0.01` of the balance check. -/
def balanceTolerance : Float64 := roundToDouble (1 / 100)

/-- Model of `parseFloat(x) || 0`: `parseFloat` returns the double nearest to the number
it reads in `String(x)` (a text read as an infinity is carried by a value beyond the
range of the doubles, which rounds to that infinity), and `NaN` and 0 give 0. -/
def amountOrZero (rt : Runtime) (x : JsValue) : Float64 :=
  match rt.parseFloat (x.toStr rt) with
  | none => .fin 0
  | some q => roundToDouble q

/-- The entry loop of `validateVoucherEntries`: the totals, or the error of the first
entry that is refused. -/
def validateEntryLoop (rt : Runtime) :
    List EntryInput → Float64 × Float64 → Except String (Float64 × Float64)
  | [], acc => Except.ok acc
  | entry :: rest, (totalDebit, totalCredit) =>
    if !idTruthy entry.account_id then Except.error "All entries must have an account selected"
    else
      let debit := amountOrZero rt entry.debit_amount
      let credit := amountOrZero rt entry.credit_amount
      if debit.lt (.fin 0) = true ∨ credit.lt (.fin 0) = true then
        Except.error "Amounts cannot be negative"
      else if Float64.lt (.fin 0) debit = true ∧ Float64.lt (.fin 0) credit = true then
        Except.error "An entry cannot have both debit and credit amounts"
      else if debit = .fin 0 ∧ credit = .fin 0 then
        Except.error "Each entry must have either a debit or credit amount"
      else validateEntryLoop rt rest (totalDebit.add debit, totalCredit.add credit)

/-- Model of `VoucherService.validateVoucherEntries`: `Except.ok totalAmount` is
the valid result, `Except.error msg` the invalid one; an `entries` argument that is
`undefined` or `null` is `none`. -/
def validateVoucherEntries (rt : Runtime) (entries : Option (List EntryInput)) :
    Except String Float64 :=
  match entries with
  | none => Except.error "Voucher must have at least 2 entries"
  | some es =>
    if es.length < 2 then Except.error "Voucher must have at least 2 entries"
    else
      match validateEntryLoop rt es (.fin 0, .fin 0) with
      | Except.error msg => Except.error msg
      | Except.ok (totalDebit, totalCredit) =>
        if balanceTolerance.lt (totalDebit.sub totalCredit).abs = true then
          Except.error (String.mk ("Voucher is not balanced. Debit: ".data ++
            totalDebit.toFixed2 rt ++ ", Credit: ".data ++ totalCredit.toFixed2 rt))
        else Except.ok totalDebit

/-- The argument of `createVoucher` and `updateVoucher`. -/
structure VoucherData where
  voucher_number : Option String
  voucher_type : Option String
  voucher_date : Option String
  narration : Option String
  legacy_raw_id : Option Nat
  entries : Option (List EntryInput)
  deriving DecidableEq

/-- The loop `for (const entry of data.entries)` that inserts the rows of
`voucher_entries`. The amounts of the store are finite: the result is `none` when an
amount to be bound is an infinity, a row that the store cannot hold. -/
def insertEntries (rt : Runtime) (voucherId : Nat) :
    List EntryInput → Store → Option (Except String Store)
  | [], s => some (Except.ok s)
  | entry :: rest, s =>
    match entry.account_id with
    | none => some (Except.error "NOT NULL constraint failed: voucher_entries.account_id")
    | some accountId =>
      match amountOrZero rt entry.debit_amount, amountOrZero rt entry.credit_amount with
      | .fin debit, .fin credit =>
        if !entryCheck debit credit then
          some (Except.error "CHECK constraint failed: voucher_entries")
        else
          insertEntries rt voucherId rest
            { s with entries := s.entries ++
                [{ voucher_id := voucherId, account_id := accountId,
                   debit_amount := debit, credit_amount := credit }] }
      | _, _ => none

/-- Model of `x || null` for a nullable string. -/
def orNull (x : Option String) : Option String :=
  if strFalsy x then none else x

/-- The function `createVoucher` passes to `db.transaction`: the new store, id and
number of the voucher, or the error of the statement that fails; `none` when an
infinite amount is to be stored. -/
def createVoucherBody (rt : Runtime) (s : Store) (data : VoucherData) (totalAmount : ℚ) :
    Option (Except String (Store × Nat × String)) :=
  let voucherNumber :=
    if strFalsy data.voucher_number then generateVoucherNumber rt s (data.voucher_type.getD "")
    else data.voucher_number.getD ""
  match data.voucher_type, data.voucher_date with
  | none, _ => some (Except.error "NOT NULL constraint failed: vouchers.voucher_type")
  | some _, none => some (Except.error "NOT NULL constraint failed: vouchers.voucher_date")
  | some type, some date =>
    if !(type = "Debit" ∨ type = "Credit" ∨ type = "Journal") then
      some (Except.error "CHECK constraint failed: vouchers")
    else if s.vouchers.any (fun v => v.voucher_number == voucherNumber) then
      some (Except.error "UNIQUE constraint failed: vouchers.voucher_number")
    else
      let voucherId := newVoucherId s
      let s1 : Store :=
        { s with
            vouchers := s.vouchers ++
              [{ voucher_id := voucherId, voucher_number := voucherNumber, voucher_type := type,
                 voucher_date := date, narration := orNull data.narration,
                 total_amount := totalAmount,
                 legacy_raw_id := if idTruthy data.legacy_raw_id then data.legacy_raw_id else none }],
            voucherSeq := voucherId }
      match insertEntries rt voucherId (data.entries.getD []) s1 with
      | none => none
      | some (Except.error msg) => some (Except.error msg)
      | some (Except.ok s2) => some (Except.ok (s2, voucherId, voucherNumber))

/-- Model of `VoucherService.createVoucher`: the new store and the failure message or the
pair (`voucher_id`, `voucher_number`). A failed transaction is rolled back. The result
is `none` when the entries are valid and an infinite amount is to be stored. -/
def createVoucher (rt : Runtime) (s : Store) (data : VoucherData) :
    Option (Store × Except String (Nat × String)) :=
  match validateVoucherEntries rt data.entries with
  | Except.error msg => some (s, Except.error msg)
  | Except.ok (.fin totalAmount) =>
    match createVoucherBody rt s data totalAmount with
    | none => none
    | some (Except.error msg) => some (s, Except.error msg)
    | some (Except.ok (s1, voucherId, voucherNumber)) =>
      some (s1, Except.ok (voucherId, voucherNumber))
  | Except.ok _ => none

/-- The function `updateVoucher` passes to `db.transaction`; `none` when an infinite
amount is to be stored. -/
def updateVoucherBody (rt : Runtime) (s : Store) (id : Nat) (data : VoucherData)
    (totalAmount : ℚ) : Option (Except String Store) :=
  if s.vouchers.any (fun v => v.voucher_id == id) && data.voucher_date.isNone then
    some (Except.error "NOT NULL constraint failed: vouchers.voucher_date")
  else
    let s1 : Store :=
      { s with
          vouchers := s.vouchers.map (fun v =>
            if v.voucher_id = id then
              { v with voucher_date := data.voucher_date.getD "", narration := orNull data.narration,
                       total_amount := totalAmount }
            else v),
          entries := s.entries.filter (fun e => e.voucher_id ≠ id) }
    insertEntries rt id (data.entries.getD []) s1

/-- Model of `VoucherService.updateVoucher`: the new store and the failure message, if
any. The result is `none` when the entries are valid and an infinite amount is to be
stored. -/
def updateVoucher (rt : Runtime) (s : Store) (id : Nat) (data : VoucherData) :
    Option (Store × Except String Unit) :=
  match validateVoucherEntries rt data.entries with
  | Except.error msg => some (s, Except.error msg)
  | Except.ok (.fin totalAmount) =>
    match updateVoucherBody rt s id data totalAmount with
    | none => none
    | some (Except.error msg) => some (s, Except.error msg)
    | some (Except.ok s1) => some (s1, Except.ok ())
  | Except.ok _ => none

/-! ## `AppDatabase.run` and `AppDatabase.transaction` (`database.js`) -/

/-- The state of an `AppDatabase`: the in-memory database `data`; `txn`, the data at
`BEGIN` while a transaction of the SQL engine is open; the flag `_inTransaction`; the
database file as `save()` last wrote it, and how often it was written. -/
structure AppDatabase where
  data : Store
  txn : Option Store
  inTransaction : Bool
  file : Store
  saves : Nat

/-- Model of `AppDatabase.save`: the in-memory database is written to the file. -/
def AppDatabase.save (db : AppDatabase) : AppDatabase :=
  { db with file := db.data, saves := db.saves + 1 }

/-- Model of `this.db.run('BEGIN TRANSACTION')`; the engine refuses to nest. -/
def AppDatabase.beginTransaction (db : AppDatabase) : Except String AppDatabase :=
  if db.txn.isSome then Except.error "cannot start a transaction within a transaction"
  else Except.ok { db with txn := some db.data }

/-- Model of `this.db.run('COMMIT')`. -/
def AppDatabase.commit (db : AppDatabase) : Except String AppDatabase :=
  if db.txn.isNone then Except.error "cannot commit - no transaction is active"
  else Except.ok { db with txn := none }

/-- Model of `this.db.run('ROLLBACK')`: the data goes back to its value at `BEGIN`. -/
def AppDatabase.rollback (db : AppDatabase) : Except String AppDatabase :=
  match db.txn with
  | none => Except.error "cannot rollback - no transaction is active"
  | some d => Except.ok { db with data := d, txn := none }

/-- Model of `AppDatabase.run(sql, params)`. The statement is carried by its effect on
the data, or the error it throws (the data is then unchanged). -/
def AppDatabase.run (db : AppDatabase) (stmt : Store → Except String Store) :
    AppDatabase × Except String Unit :=
  match stmt db.data with
  | Except.error msg => (db, Except.error msg)
  | Except.ok d =>
    let db1 := { db with data := d }
    (if db1.inTransaction then db1 else db1.save, Except.ok ())

/-- The `catch` block of `transaction`: the flag is reset, `ROLLBACK` is tried and its
own error ignored, and the error is thrown again. -/
def AppDatabase.transactionCatch (db : AppDatabase) (msg : String) :
    AppDatabase × Except String Nat :=
  let db1 := { db with inTransaction := false }
  match db1.rollback with
  | Except.ok db2 => (db2, Except.error msg)
  | Except.error _ => (db1, Except.error msg)

/-- Model of `AppDatabase.transaction(fn)`; `fn` is carried by its effect on the database
object and its return value, or the error it throws. -/
def AppDatabase.transaction (db : AppDatabase)
    (fn : AppDatabase → AppDatabase × Except String Nat) : AppDatabase × Except String Nat :=
  let db1 := { db with inTransaction := true }
  match db1.beginTransaction with
  | Except.error msg => db1.transactionCatch msg
  | Except.ok db2 =>
    match fn db2 with
    | (db3, Except.error msg) => db3.transactionCatch msg
    | (db3, Except.ok result) =>
      match db3.commit with
      | Except.error msg => db3.transactionCatch msg
      | Except.ok db4 => (({ db4 with inTransaction := false } : AppDatabase).save, Except.ok result)

/-- A function body acting on the database through the methods of `AppDatabase`:
it returns a value, throws, calls `run` and goes on, calls `transaction` again with an
inner function and goes on, or runs a block inside `try`/`catch` with an empty handler
and goes on. -/
inductive Prog where
  | ret (value : Nat)
  | throw (msg : String)
  | run (stmt : Store → Except String Store) (next : Prog)
  | transaction (body : Prog) (next : Prog)
  | tryCatch (body : Prog) (next : Prog)

/-- The effect of a function body on the database object, with its return value or
the error it throws. The value of an inner `transaction` call is dropped, and so is the
outcome of a `tryCatch` block, in which `ret` and `throw` end the block. -/
def Prog.exec : Prog → AppDatabase → AppDatabase × Except String Nat
  | .ret value, db => (db, Except.ok value)
  | .throw msg, db => (db, Except.error msg)
  | .run stmt next, db =>
    match db.run stmt with
    | (db1, Except.ok _) => next.exec db1
    | (db1, Except.error msg) => (db1, Except.error msg)
  | .transaction body next, db =>
    match db.transaction body.exec with
    | (db1, Except.ok _) => next.exec db1
    | (db1, Except.error msg) => (db1, Except.error msg)
  | .tryCatch body next, db => next.exec (body.exec db).1

/-- The function body calls `transaction` itself. -/
def Prog.reenters : Prog → Bool
  | .ret _ => false
  | .throw _ => false
  | .run _ next => next.reenters
  | .transaction _ _ => true
  | .tryCatch body next => body.reenters || next.reenters

/-! ## `scripts/reimport-complete-data.js` -/

/-- Model of `parseDate` of the bulk importer: the three groups of the match are
formatted directly; `none` is `null`. -/
def Importer.parseDate (dateStr : String) : Option String :=
  if dateStr.data = [] then none
  else
    match mdyMatch dateStr.data with
    | some (m, d, y) =>
      if 1 ≤ m ∧ m ≤ 12 ∧ 1 ≤ d ∧ d ≤ 31 ∧ 1900 ≤ y ∧ y ≤ 2100 then
        some (String.mk (natToString y ++ '-' :: padStart 2 (natToString m) ++
          '-' :: padStart 2 (natToString d)))
      else none
    | none => none

/-- A row of `Inv1.csv` as `Papa.parse` gives it: the columns the main loop reads. -/
structure Importer.Row where
  VType : String
  Account_Party : String
  Amount : String
  Narration : Option String
  deriving DecidableEq

/-- What the script has built when its main loop starts: the objects `caToCode`,
`dateMap` and `accountMap` read as partial maps (an account is carried by its id),
and the ids of `cashAccount` and `obeAccount`. -/
structure Importer.Maps where
  caToCode : String → Option String
  dateMap : String → Option String
  accountMap : String → Option Nat
  cashAccount : Nat
  obeAccount : Nat

/-- The variables of the main loop: the database, `voucherCounters` keyed by the lead
and the year text, `created`, `errors` and `errorLog`. -/
structure Importer.State where
  db : Store
  counters : List ((String × List Char) × Nat)
  created : Nat
  errors : Nat
  errorLog : List String

/-- Model of `Math.abs(parseFloat(entry.Amount) || 0)`. -/
def Importer.amountOf (rt : Runtime) (entry : Importer.Row) : ℚ :=
  |(rt.parseFloat entry.Amount.data).getD 0|

/-- Model of `parseFloat(entry.Amount) < 0`. -/
def Importer.isNegative (rt : Runtime) (entry : Importer.Row) : Bool :=
  match rt.parseFloat entry.Amount.data with
  | some q => decide (q < 0)
  | none => false

/-- Model of `code ? accountMap[code] : null` for `code = caToCode[entry.Account_Party]`:
the id of the account, `none` when `!account`. -/
def Importer.findAccount (maps : Importer.Maps) (entry : Importer.Row) : Option Nat :=
  match maps.caToCode entry.Account_Party with
  | some code => if code.data = [] then none else maps.accountMap code
  | none => none

/-- One `INSERT INTO voucher_entries`: the `CHECK` constraint of the table decides. -/
def Importer.insertEntry (db : Store) (e : VoucherEntry) : Except String Store :=
  if entryCheck e.debit_amount e.credit_amount then
    Except.ok { db with entries := db.entries ++ [e] }
  else Except.error "CHECK constraint failed: voucher_entries"

/-- The line pushed to `errorLog` for a row whose account is not found. -/
def Importer.accountNotFound (trNo : String) (entry : Importer.Row) : String :=
  String.mk ("TR_No ".data ++ trNo.data ++ ": Account CA ".data ++
    entry.Account_Party.data ++ " not found".data)

/-- The body of the six entry loops of a group, for one source row. `debitId` and
`creditId` give the account of the debit row and of the credit row from the source row
and its account. The second component is the error thrown by an insert. -/
def Importer.entryStep (rt : Runtime) (maps : Importer.Maps) (trNo : String) (voucherId : Nat)
    (debitId creditId : Importer.Row → Nat → Nat) (entry : Importer.Row) (st : Importer.State) :
    Importer.State × Option String :=
  match Importer.findAccount maps entry with
  | none => ({ st with errorLog := st.errorLog ++ [Importer.accountNotFound trNo entry] }, none)
  | some account =>
    let amount := Importer.amountOf rt entry
    match Importer.insertEntry st.db
        { voucher_id := voucherId, account_id := debitId entry account,
          debit_amount := amount, credit_amount := 0 } with
    | Except.error msg => (st, some msg)
    | Except.ok db1 =>
      match Importer.insertEntry db1
          { voucher_id := voucherId, account_id := creditId entry account,
            debit_amount := 0, credit_amount := amount } with
      | Except.error msg => ({ st with db := db1 }, some msg)
      | Except.ok db2 => ({ st with db := db2 }, none)

/-- One of the six entry loops of a group: an error thrown by an insert ends it. -/
def Importer.entryLoop (rt : Runtime) (maps : Importer.Maps) (trNo : String) (voucherId : Nat)
    (debitId creditId : Importer.Row → Nat → Nat) :
    List Importer.Row → Importer.State → Importer.State × Option String
  | [], st => (st, none)
  | entry :: rest, st =>
    match Importer.entryStep rt maps trNo voucherId debitId creditId entry st with
    | (st1, none) => Importer.entryLoop rt maps trNo voucherId debitId creditId rest st1
    | (st1, some msg) => (st1, some msg)

/-- The branch on `vtype` with its entry loop. -/
def Importer.createEntries (rt : Runtime) (maps : Importer.Maps) (trNo vtype : String)
    (voucherId : Nat) (entries : List Importer.Row) (st : Importer.State) :
    Importer.State × Option String :=
  if vtype = "100" then
    Importer.entryLoop rt maps trNo voucherId
      (fun entry account => if Importer.isNegative rt entry then maps.obeAccount else account)
      (fun entry account => if Importer.isNegative rt entry then account else maps.obeAccount)
      entries st
  else if vtype = "101" then
    Importer.entryLoop rt maps trNo voucherId (fun _ _ => maps.cashAccount) (fun _ account => account)
      entries st
  else if vtype = "102" then
    Importer.entryLoop rt maps trNo voucherId (fun _ account => account) (fun _ _ => maps.cashAccount)
      entries st
  else if vtype = "203" then
    Importer.entryLoop rt maps trNo voucherId (fun _ account => account) (fun _ _ => maps.cashAccount)
      entries st
  else if vtype = "204" then
    Importer.entryLoop rt maps trNo voucherId (fun _ _ => maps.cashAccount) (fun _ account => account)
      entries st
  else
    Importer.entryLoop rt maps trNo voucherId (fun _ account => account) (fun _ _ => maps.obeAccount)
      entries st

/-- Model of `String(new Date(date).getFullYear())`. -/
def Importer.yearText (rt : Runtime) (date : String) : List Char :=
  intToString ((rt.dateParse date.data).map (getFullYear rt))

/-- Model of `getNextVoucherNumber(prefix, year)`: the number and the new counters. -/
def Importer.getNextVoucherNumber (counters : List ((String × List Char) × Nat)) (pfx : String)
    (year : List Char) : String × List ((String × List Char) × Nat) :=
  let n := (counters.lookup (pfx, year)).getD 0 + 1
  (String.mk (pfx.data ++ '-' :: year ++ '-' :: padStart 5 (natToString n)),
   ((pfx, year), n) :: counters)

/-- The `catch` block of the main loop. -/
def Importer.groupFailed (st : Importer.State) (trNo msg : String) : Importer.State :=
  { st with errors := st.errors + 1,
            errorLog := st.errorLog ++ [String.mk ("TR_No ".data ++ trNo.data ++ ": ".data ++ msg.data)] }

/-- One iteration of the main loop, for the group `entries` of transaction `trNo`. -/
def Importer.processGroup (rt : Runtime) (maps : Importer.Maps) (st : Importer.State)
    (trNo : String) (entries : List Importer.Row) : Importer.State :=
  match entries with
  | [] => Importer.groupFailed st trNo "Cannot read properties of undefined (reading 'VType')"
  | firstEntry :: _ =>
    let vtype := firstEntry.VType
    let date :=
      if strFalsy (maps.dateMap trNo) then (if vtype = "100" then "2005-01-01" else "2005-07-01")
      else (maps.dateMap trNo).getD ""
    let year := Importer.yearText rt date
    let voucherType := if vtype = "101" then "Credit" else if vtype = "102" then "Debit" else "Journal"
    let pfx := if vtype = "101" then "CRV" else if vtype = "102" then "DBV" else "JRN"
    let totalAmount := entries.foldl (fun total e => total + Importer.amountOf rt e) 0
    let narration := String.mk (trim
      ((if strFalsy firstEntry.Narration then [] else (firstEntry.Narration.getD "").data) ++
        " (TR_No: ".data ++ trNo.data ++ [')']))
    let numbered := Importer.getNextVoucherNumber st.counters pfx year
    let st1 := { st with counters := numbered.2 }
    if st1.db.vouchers.any (fun v => v.voucher_number == numbered.1) then
      Importer.groupFailed st1 trNo "UNIQUE constraint failed: vouchers.voucher_number"
    else
      let voucherId := newVoucherId st1.db
      let st2 : Importer.State :=
        { st1 with db :=
            { st1.db with
                vouchers := st1.db.vouchers ++
                  [{ voucher_id := voucherId, voucher_number := numbered.1,
                     voucher_type := voucherType, voucher_date := date,
                     narration := some narration, total_amount := totalAmount,
                     legacy_raw_id := none }],
                voucherSeq := voucherId } }
      match Importer.createEntries rt maps trNo vtype voucherId entries st2 with
      | (st3, none) => { st3 with created := st3.created + 1 }
      | (st3, some msg) => Importer.groupFailed st3 trNo msg

/-- The main loop over `Object.entries(trGroups)`. -/
def Importer.groupLoop (rt : Runtime) (maps : Importer.Maps) :
    List (String × List Importer.Row) → Importer.State → Importer.State
  | [], st => st
  | (trNo, entries) :: rest, st =>
    Importer.groupLoop rt maps rest (Importer.processGroup rt maps st trNo entries)

/-- Steps 1 and 4 of `main`: the vouchers and their entries are deleted with their
sequence marks, then the groups are processed. The maps and groups that steps 2 and 3
build from the CSV files are parameters. -/
def Importer.main (rt : Runtime) (maps : Importer.Maps) (s : Store)
    (trGroups : List (String × List Importer.Row)) : Importer.State :=
  Importer.groupLoop rt maps trGroups
    { db := { s with vouchers := [], entries := [], voucherSeq := 0 },
      counters := [], created := 0, errors := 0, errorLog := [] }

/-- A runtime in the UTC time zone whose native parser rejects everything; its
`parseFloat` reads decimal literals without an exponent. -/
def utcRuntime : Runtime :=
  { tzaLocal := fun _ => 0, tzaUTC := fun _ => 0, dateParse := fun _ => none,
    toLowerCase := fun cs => cs.map Char.toLower, currentYear := 2024,
    numberToString := fun q => (if q < 0 then ['-'] else []) ++ natToString q.num.natAbs,
    now := "2024-06-01 00:00:00",
    jsonParse := fun _ => Except.ok (some []),
    fuseSearch := fun _ _ _ => [],
    readFileSync := fun _ => Except.error "ENOENT: no such file or directory",
    papaParse := fun _ => [],
    jsonParseDoc := fun _ => Except.error "Unexpected end of JSON input",
    basename := fun p => p,
    parseFloat := fun cs => parseFloatFiltered (cs.dropWhile isJsWhitespace),
    toFixed2 := fun q =>
      let n := (⌊|q| * 100 + 1 / 2⌋).toNat
      (if q < 0 then ['-'] else []) ++ natToString (n / 100) ++ '.' :: padStart 2 (natToString (n % 100)) }

/-- A runtime five hours east of UTC (Asia/Karachi). -/
def karachiRuntime : Runtime :=
  { utcRuntime with tzaLocal := fun _ => 18000000, tzaUTC := fun _ => 18000000 }

/-! ## Specification vocabulary -/

/-- One successful posting: the source record, the voucher created for it, the two
resolved accounts and the amount. -/
structure Posting where
  record : RawRecord
  voucher : Voucher
  debitAccountId : Nat
  creditAccountId : Nat
  amount : ℚ

/-- The debit and credit rows of a posting. -/
def Posting.entries (p : Posting) : List VoucherEntry :=
  [{ voucher_id := p.voucher.voucher_id, account_id := p.debitAccountId,
     debit_amount := p.amount, credit_amount := 0 },
   { voucher_id := p.voucher.voucher_id, account_id := p.creditAccountId,
     debit_amount := 0, credit_amount := p.amount }]

/-- What makes a posting a faithful image of its record under the accounts, rules
and matcher that `postBatch` read at its start. -/
def Posting.Faithful (rt : Runtime) (accounts : List Account) (mappingRules : List MappingRule)
    (fuse : List Char → List (Account × Option ℚ)) (p : Posting) : Prop :=
  p.record.detected_amount = some p.amount ∧
  findAccountMatch rt p.record.detected_debit_account accounts mappingRules fuse
    = some p.debitAccountId ∧
  findAccountMatch rt p.record.detected_credit_account accounts mappingRules fuse
    = some p.creditAccountId ∧
  p.voucher.total_amount = p.amount ∧
  p.voucher.legacy_raw_id = some p.record.raw_id

/-- The identity and payload of every raw record, in table order. -/
def payloads (s : Store) : List (Nat × String) :=
  s.rawRecords.map (fun r => (r.raw_id, r.raw_payload))

/-- The order `pending < normalized < validated < posted` of the pipeline; the
statuses `processing` and `failed` are outside it. -/
def pipelineRank : BatchStatus → Option Nat
  | .pending => some 0
  | .normalized => some 1
  | .validated => some 2
  | .posted => some 3
  | _ => none

/-- Status `a` lies strictly before status `b` in the pipeline order. -/
def statusPrecedes (a b : BatchStatus) : Bool :=
  match pipelineRank a, pipelineRank b with
  | some x, some y => decide (x < y)
  | _, _ => false

/-- Every raw record of the batch that is still `raw` has its id in `ids`. -/
def RawWithin (s : Store) (batchId : Nat) (ids : List Nat) : Prop :=
  ∀ r ∈ s.rawRecords, r.batch_id = batchId → r.status = RecordStatus.raw → r.raw_id ∈ ids

/-- The legacy voucher number of a year with sequence number `k`: `LGC-YEAR-` followed
by `k` zero-padded to five digits. -/
def legacyNumber (year k : Nat) : String :=
  String.mk ("LGC".data ++ '-' :: natToString year ++ ['-'] ++ padStart 5 (natToString k))

/-- The value of the first candidate key, in candidate order, that has a truthy value. -/
def firstValue (payload : List (String × JsValue)) (fields : List String) : Option JsValue :=
  (fields.filterMap (getField payload)).find? JsValue.truthy

/-- Some candidate key has a value that `ok` accepts. -/
def anyField (payload : List (String × JsValue)) (fields : List String)
    (ok : JsValue → Bool) : Bool :=
  fields.any (fun k =>
    match getField payload k with
    | some v => ok v
    | none => false)

/-- A candidate text is blank: no candidate key has a value, or the trimmed text of the
first one is empty. -/
def blankText (rt : Runtime) (x : Option JsValue) : Bool :=
  match x with
  | none => true
  | some v => decide (trim (v.toStr rt) = [])

/-- The confidence in the words of the contract: the sum of 0.25 for a detected date,
0.25 for a detected amount, 0.125 for a debit-specific key, 0.125 for a credit-specific
key, 0.1 for the generic-account fallback (used when both specific texts are blank) and
0.125 for a narration key. -/
def specConfidenceSum (rt : Runtime) (payload : List (String × JsValue)) : ℚ :=
  (if anyField payload dateFields
      (fun v => v.truthy && (parseDateStr rt (v.toStr rt)).isSome) then 1 / 4 else 0) +
  (if anyField payload amountFields
      (fun v => (parseFloatFiltered (filterNumeric (v.toStr rt))).isSome) then 1 / 4 else 0) +
  (if (firstValue payload debitFields).isSome then 1 / 8 else 0) +
  (if (firstValue payload creditFields).isSome then 1 / 8 else 0) +
  (if blankText rt (firstValue payload debitFields) &&
      blankText rt (firstValue payload creditFields) &&
      (firstValue payload accountFields).isSome then 1 / 10 else 0) +
  (if (firstValue payload narrationFields).isSome then 1 / 8 else 0)

/-- The text `key: value` of every field whose value is a non-empty string, in payload
order, joined by `; `. -/
def specNarration (payload : List (String × JsValue)) : String :=
  String.mk (List.intercalate "; ".data
    (payload.filterMap (fun kv =>
      match kv.2 with
      | .str v => if v = "" then none else some (kv.1.data ++ ": ".data ++ v.data)
      | _ => none)))

/-- The narration as the claim words it: `key: value` of every field whose value is a
string, the empty string included. -/
def allStringsNarration (payload : List (String × JsValue)) : String :=
  String.mk (List.intercalate "; ".data
    (payload.filterMap (fun kv =>
      match kv.2 with
      | .str v => some (kv.1.data ++ ": ".data ++ v.data)
      | _ => none)))

/-! ## Sample inputs -/

/-- Native parsing of the ISO date-only form `YYYY-MM-DD` as ECMAScript fixes it: UTC
midnight of a real calendar date, Invalid Date for anything else. -/
def isoDateOnlyParse (cs : List Char) : Option Int :=
  if matchTemplate DateFormat.ymdDash.template cs then
    let y : Int := digitsToNat (cs.take 4)
    let m : Int := digitsToNat ((cs.drop 5).take 2)
    let d : Int := digitsToNat ((cs.drop 8).take 2)
    if civilFromDays (daysFromCivil y m d) = (y, m, d) ∧ 1 ≤ m ∧ m ≤ 12
    then some (daysFromCivil y m d * msPerDay) else none
  else none

/-- The UTC runtime with native parsing of ISO date-only strings. -/
def isoRuntime : Runtime :=
  { utcRuntime with dateParse := isoDateOnlyParse }

/-- The payload of the row `2024-03-15,5000,Office Rent,Q1 rent` under the header
`date,amount,paid_to,notes`. -/
def scenarioPayload : List (String × JsValue) :=
  [("date", .str "2024-03-15"), ("amount", .str "5000"), ("paid_to", .str "Office Rent"),
   ("notes", .str "Q1 rent")]

/-- The same row with the amount 0. -/
def zeroAmountPayload : List (String × JsValue) :=
  [("date", .str "2024-03-15"), ("amount", .str "0"), ("paid_to", .str "Office Rent"),
   ("notes", .str "Q1 rent")]

/-- A payload with a single generic account field. -/
def genericAccountPayload : List (String × JsValue) := [("Account", .str "Cash")]

/-- A payload whose only amount candidate does not parse. -/
def badAmountPayload : List (String × JsValue) := [("amount", .str "abc")]

/-- A payload with an empty string field and no narration key. -/
def emptyFieldPayload : List (String × JsValue) := [("ref", .str ""), ("party", .str "Acme")]

/-- A posted record of batch 1. -/
def postedRecord : RawRecord :=
  { raw_id := 1, batch_id := 1, raw_payload := "\x7b\"date\":\"2024-03-15\"\x7d",
    detected_date := some "2024-03-15", detected_amount := some 5000,
    detected_debit_account := some "Rent Expense", detected_credit_account := some "Cash",
    detected_narration := some "Q1 rent", confidence_score := some 1,
    status := RecordStatus.posted, validation_errors := none, warnings := none }

/-- A store whose batch 1 has been posted. -/
def postedStore : Store :=
  { batches := [{ batch_id := 1, source_file := "legacy.csv", source_type := "CSV",
                  total_records := 1, processed_records := 1, failed_records := 0,
                  status := BatchStatus.posted, completed_at := some "2024-06-01 00:00:00" }],
    rawRecords := [postedRecord],
    accounts := [{ account_id := 1, account_code := some "1000", account_name := "Cash",
                   is_active := true },
                 { account_id := 2, account_code := some "5200", account_name := "Rent Expense",
                   is_active := true }],
    rules := [],
    vouchers := [{ voucher_id := 1, voucher_number := "LGC-2024-00001", voucher_type := "Journal",
                   voucher_date := "2024-03-15", narration := some "Q1 rent",
                   total_amount := 5000, legacy_raw_id := some 1 }],
    entries := [{ voucher_id := 1, account_id := 2, debit_amount := 5000, credit_amount := 0 },
                { voucher_id := 1, account_id := 1, debit_amount := 0, credit_amount := 5000 }],
    auditLog := [],
    voucherSeq := 1 }

/-- The error list of the validator in the words of its contract: "Missing date" for
an empty date, "Invalid or missing amount" for an amount that is missing or not greater
than 0, "No accounts could be mapped" when neither account text resolves (to a
non-null, non-zero id) through `findAccountMatch`. -/
def specErrors (rt : Runtime) (accounts : List Account) (mappingRules : List MappingRule)
    (fuse : List Char → List (Account × Option ℚ)) (r : RawRecord) : List String :=
  (if r.detected_date = none ∨ r.detected_date = some "" then ["Missing date"] else []) ++
  (if r.detected_amount.all (fun a => decide (a ≤ 0)) then ["Invalid or missing amount"] else []) ++
  (if idTruthy (findAccountMatch rt r.detected_debit_account accounts mappingRules fuse) = false ∧
      idTruthy (findAccountMatch rt r.detected_credit_account accounts mappingRules fuse) = false
    then ["No accounts could be mapped"] else [])

/-- A mapping rule with an empty pattern. -/
def emptyPatternRule : MappingRule :=
  { rule_id := 1, legacy_text_pattern := "", mapped_account_id := 1, priority := 0,
    auto_apply := true }

/-- A rule that maps every text containing "rent" to account 7. -/
def rentRule : MappingRule :=
  { rule_id := 2, legacy_text_pattern := "Rent", mapped_account_id := 7, priority := 0,
    auto_apply := true }

/-- An account whose name is exactly "Office Rent". -/
def officeRentAccount : Account :=
  { account_id := 5, account_code := some "5200", account_name := "Office Rent",
    is_active := true }

/-- A normalized record of batch 1 with date, amount and both account texts. -/
def goodRecord : RawRecord :=
  { postedRecord with status := RecordStatus.normalized }

/-- A normalized record of batch 1 whose amount is 0. -/
def zeroAmountRecord : RawRecord :=
  { postedRecord with raw_id := 2, detected_amount := some 0,
                      status := RecordStatus.normalized }

/-- A store whose batch 1 has two normalized records. -/
def normalizedStore : Store :=
  { postedStore with
      batches := [{ batch_id := 1, source_file := "legacy.csv", source_type := "CSV",
                    total_records := 2, processed_records := 2, failed_records := 0,
                    status := BatchStatus.normalized, completed_at := none }],
      rawRecords := [goodRecord, zeroAmountRecord],
      vouchers := [], entries := [], voucherSeq := 0 }

/-- A store whose two Journal vouchers of 2024 were numbered by hand (`createVoucher`
takes a `voucher_number` when one is given): the later one has the lower number. -/
def outOfOrderStore : Store :=
  { postedStore with
      vouchers := [{ voucher_id := 1, voucher_number := "JRN-2024-00007", voucher_type := "Journal",
                     voucher_date := "2024-03-15", narration := none, total_amount := 5000,
                     legacy_raw_id := none },
                   { voucher_id := 2, voucher_number := "JRN-2024-00003", voucher_type := "Journal",
                     voucher_date := "2024-03-16", narration := none, total_amount := 5000,
                     legacy_raw_id := none }],
      entries := [], voucherSeq := 2 }

/-- A store whose only Journal voucher of 2024 carries the sequence number 99999. -/
def fullSequenceStore : Store :=
  { postedStore with
      vouchers := [{ voucher_id := 1, voucher_number := "JRN-2024-99999", voucher_type := "Journal",
                     voucher_date := "2024-03-15", narration := none, total_amount := 5000,
                     legacy_raw_id := none }],
      entries := [], voucherSeq := 1 }

/-- A runtime that reads a CSV file of two rows. -/
def importRuntime : Runtime :=
  { utcRuntime with
      readFileSync := fun _ => Except.ok "date,amount\n2024-03-15,5000\n2024-03-16,700\n",
      papaParse := fun _ =>
        ["\x7b\"date\":\"2024-03-15\",\"amount\":\"5000\"\x7d",
         "\x7b\"date\":\"2024-03-16\",\"amount\":\"700\"\x7d"],
      basename := fun _ => "ledger.csv" }

/-- A second validated record of batch 1. -/
def secondValidatedRecord : RawRecord :=
  { postedRecord with raw_id := 2, detected_date := some "2024-03-16",
                      detected_amount := some 700, status := RecordStatus.validated }

/-- A store whose batch 1 has two validated records and no voucher yet. -/
def validatedStore : Store :=
  { normalizedStore with
      rawRecords := [{ postedRecord with status := RecordStatus.validated },
                     secondValidatedRecord] }

/-! ## Vocabulary for the bulk importer -/

/-- The text starts with `M/D/YYYY`: one or two digits, a slash, one or two digits,
a slash and four digits, which read as the numbers `m`, `d` and `y`. -/
def StartsWithMDY (cs : List Char) (m d y : Nat) : Prop :=
  ∃ g1 g2 g3 rest : List Char,
    cs = g1 ++ '/' :: (g2 ++ '/' :: (g3 ++ rest)) ∧
    (g1.length = 1 ∨ g1.length = 2) ∧ (g2.length = 1 ∨ g2.length = 2) ∧ g3.length = 4 ∧
    (∀ c ∈ g1, isDigit c = true) ∧ (∀ c ∈ g2, isDigit c = true) ∧
    (∀ c ∈ g3, isDigit c = true) ∧
    digitsToNat g1 = m ∧ digitsToNat g2 = d ∧ digitsToNat g3 = y

/-- The text `YYYY-MM-DD` of a year, a month and a day, zero-padded. -/
def isoText (y m d : Nat) : String :=
  String.mk (padStart 4 (natToString y) ++ '-' :: padStart 2 (natToString m) ++
    '-' :: padStart 2 (natToString d))

/-- The sum of `debit_amount` over the entries of voucher `v`. -/
def debitTotal (es : List VoucherEntry) (v : Nat) : ℚ :=
  ((es.filter (fun e => e.voucher_id = v)).map (fun e => e.debit_amount)).sum

/-- The sum of `credit_amount` over the entries of voucher `v`. -/
def creditTotal (es : List VoucherEntry) (v : Nat) : ℚ :=
  ((es.filter (fun e => e.voucher_id = v)).map (fun e => e.credit_amount)).sum

/-- The rows a group of the bulk importer is expected to insert: for each source row
whose account is found, a debit row and a credit row of the amount `|Amount|`; for
the other rows nothing. -/
def Importer.expectedEntries (rt : Runtime) (maps : Importer.Maps) (voucherId : Nat)
    (debitId creditId : Importer.Row → Nat → Nat) (entries : List Importer.Row) :
    List VoucherEntry :=
  entries.flatMap (fun entry =>
    match Importer.findAccount maps entry with
    | none => []
    | some account =>
      [{ voucher_id := voucherId, account_id := debitId entry account,
         debit_amount := Importer.amountOf rt entry, credit_amount := 0 },
       { voucher_id := voucherId, account_id := creditId entry account,
         debit_amount := 0, credit_amount := Importer.amountOf rt entry }])

/-! ## Vocabulary and samples for the voucher service -/

/-- Exactly one of the debit amount and the credit amount of an entry is greater than 0
and the other equals 0; the amounts are the numbers `parseFloat(x) || 0`. -/
def OneSided (rt : Runtime) (e : EntryInput) : Prop :=
  (Float64.lt (.fin 0) (amountOrZero rt e.debit_amount) = true ∧
      amountOrZero rt e.credit_amount = .fin 0) ∨
  (Float64.lt (.fin 0) (amountOrZero rt e.credit_amount) = true ∧
      amountOrZero rt e.debit_amount = .fin 0)

/-- The total of the debit amounts of a list of entries: the amounts added in entry
order, from 0, in the arithmetic of the engine. -/
def totalDebit (rt : Runtime) (es : List EntryInput) : Float64 :=
  es.foldl (fun total e => total.add (amountOrZero rt e.debit_amount)) (.fin 0)

/-- The total of the credit amounts of a list of entries, added likewise. -/
def totalCredit (rt : Runtime) (es : List EntryInput) : Float64 :=
  es.foldl (fun total e => total.add (amountOrZero rt e.credit_amount)) (.fin 0)

/-- The relation `a <= b` on numbers: at most; false when either is `NaN`. -/
def Float64.le : Float64 → Float64 → Bool
  | .fin a, .fin b => decide (a ≤ b)
  | .negInf, .negInf => true
  | .negInf, .fin _ => true
  | .negInf, .posInf => true
  | .fin _, .posInf => true
  | .posInf, .posInf => true
  | _, _ => false

/-- The conditions under which a list of entries is a valid voucher: at least two
entries, each with an account and one-sided, and an absolute difference of the totals,
taken in the arithmetic of the engine, of at most 0.01. -/
def SpecValidEntries (rt : Runtime) (es : List EntryInput) : Prop :=
  2 ≤ es.length ∧ (∀ e ∈ es, idTruthy e.account_id = true) ∧ (∀ e ∈ es, OneSided rt e) ∧
  ((totalDebit rt es).sub (totalCredit rt es)).abs.le (roundToDouble (1 / 100)) = true

/-- Two entries of 5000: a debit of account 2 and a credit of account 1. -/
def balancedEntries : List EntryInput :=
  [{ account_id := some 2, debit_amount := .str "5000", credit_amount := .num 0 },
   { account_id := some 1, debit_amount := .num 0, credit_amount := .str "5000" }]

/-- Two entries that do not balance: a debit of 5000 and a credit of 4000. -/
def unbalancedEntries : List EntryInput :=
  [{ account_id := some 2, debit_amount := .str "5000", credit_amount := .num 0 },
   { account_id := some 1, debit_amount := .num 0, credit_amount := .str "4000" }]

/-- A debit of 1.01 against a credit of 1.00. -/
def centEntries : List EntryInput :=
  [{ account_id := some 2, debit_amount := .str "1.01", credit_amount := .num 0 },
   { account_id := some 1, debit_amount := .num 0, credit_amount := .str "1.00" }]

/-- A debit of 0.02 against a credit of 0.01. -/
def twoCentEntries : List EntryInput :=
  [{ account_id := some 2, debit_amount := .str "0.02", credit_amount := .num 0 },
   { account_id := some 1, debit_amount := .num 0, credit_amount := .str "0.01" }]

/-- A debit of 400 digits 9 against a credit of 400 digits 8: both amounts are beyond
the range of the doubles. -/
def overflowEntries : List EntryInput :=
  [{ account_id := some 2, debit_amount := .str (String.mk (List.replicate 400 '9')),
     credit_amount := .num 0 },
   { account_id := some 1, debit_amount := .num 0,
     credit_amount := .str (String.mk (List.replicate 400 '8')) }]

/-- The message of a failure result, `none` for a success. -/
def errorOf {α : Type} : Except String α → Option String
  | Except.error msg => some msg
  | Except.ok _ => none

/-! ## Vocabulary and samples for the transaction wrapper -/

/-- The database object when `fn` starts in a call of `transaction` on an idle
database: the flag is set and `BEGIN` has recorded the data. -/
def AppDatabase.begun (db : AppDatabase) : AppDatabase :=
  { db with inTransaction := true, txn := some db.data }

/-- An idle database object over the sample store, saved as it is. -/
def idleDatabase : AppDatabase :=
  { data := postedStore, txn := none, inTransaction := false, file := postedStore, saves := 0 }

/-- A statement that inserts one audit row. -/
def insertAuditRow (s : Store) : Except String Store :=
  Except.ok (logAudit s (some 1) none "NOTE" "manual entry" none none)

/-- A function body that calls `transaction` again inside `try`/`catch`, then inserts a
row through `run` and returns 1. -/
def reentrantBody : Prog :=
  Prog.tryCatch (Prog.transaction (Prog.ret 0) (Prog.ret 0)) (Prog.run insertAuditRow (Prog.ret 1))

/-- A function body that inserts a row through `run` and then throws. -/
def failingBody : Prog := Prog.run insertAuditRow (Prog.throw "boom")

/-- A function body that inserts a row through `run` and returns 7. -/
def insertingBody : Prog := Prog.run insertAuditRow (Prog.ret 7)

/-! ## Vocabulary and samples for failures at posting -/

/-- The store without the raw record `rawId` and without the audit entries written
for that record. -/
def withoutRecord (s : Store) (rawId : Nat) : Store :=
  { s with rawRecords := s.rawRecords.filter (fun r => decide (r.raw_id ≠ rawId)),
           auditLog := s.auditLog.filter (fun e => decide (e.raw_id ≠ some rawId)) }

/-- A validated record of batch 1 whose credit text names no account. -/
def unmappedCreditRecord : RawRecord :=
  { postedRecord with raw_id := 3, detected_credit_account := some "Unknown Co",
                      status := RecordStatus.validated }

/-- A store whose batch 1 has three validated records; the middle one has a credit text
that resolves to no account. -/
def mixedStore : Store :=
  { validatedStore with
      rawRecords := [{ postedRecord with status := RecordStatus.validated },
                     unmappedCreditRecord, secondValidatedRecord] }

/-- A normalized record of batch 1 that has a debit text and no credit text, as the
generic account fallback leaves it. -/
def oneAccountRecord : RawRecord :=
  { goodRecord with detected_credit_account := none,
                    warnings := some ["Only one account detected, manual mapping required"] }

/-- A store whose batch 1 has one normalized record with a single account text. -/
def oneAccountStore : Store :=
  { normalizedStore with rawRecords := [oneAccountRecord] }

/-! ## Vocabulary for the states the pipeline reaches -/

/-- Every validated record has a detected amount greater than 0. -/
def ValidatedPositive (s : Store) : Prop :=
  ∀ r ∈ s.rawRecords, r.status = RecordStatus.validated →
    ∃ a, r.detected_amount = some a ∧ 0 < a

/-- The states the pipeline reaches, by its four stages, from a store in which raw ids
are a primary key and no record is validated yet: records become `validated` through
`validateBatch` only. -/
inductive Reachable (rt : Runtime) : Store → Prop
  | start (s : Store) (hpk : (s.rawRecords.map (fun r => r.raw_id)).Nodup)
      (hnone : ∀ r ∈ s.rawRecords, r.status ≠ RecordStatus.validated) : Reachable rt s
  | imported (s : Store) (filePath sourceType : String) (h : Reachable rt s) :
      Reachable rt (importBatch rt s filePath sourceType).1
  | normalized (s : Store) (batchId : Nat) (h : Reachable rt s) :
      Reachable rt (normalizeRecords rt s batchId).1
  | validated (s : Store) (batchId : Nat) (h : Reachable rt s) :
      Reachable rt (validateBatch rt s batchId).1
  | posted (s : Store) (batchId : Nat) (h : Reachable rt s) :
      Reachable rt (postBatch rt s batchId).1

/-! ## The file writes of a posting step -/

/-- The contents of the database file after each write during one iteration of the
record loop of `postBatch`, in order: `db.transaction` writes the file after `COMMIT`,
and each `db.run` outside a transaction writes it (the `UPDATE` of the record and the
`INSERT` of `logAudit`). A transaction that fails writes nothing. -/
def postStepSaves (rt : Runtime) (batchId : Nat) (accounts : List Account)
    (mappingRules : List MappingRule) (fuse : List Char → List (Account × Option ℚ))
    (s : Store) (record : RawRecord) : List Store :=
  match postOne rt s accounts mappingRules fuse record with
  | Except.ok (s1, voucherId, voucherNumber) =>
    let s2 := updateRecord s1 record.raw_id (fun r => { r with status := RecordStatus.posted })
    [s1, s2,
     logAudit s2 (some batchId) (some record.raw_id) "RECORD_POSTED"
       (String.mk ("Created voucher ".data ++ voucherNumber.data)) none (some voucherId)]
  | Except.error msg =>
    let s1 := updateRecord s record.raw_id (applyFailed msg)
    [s1, logAudit s1 (some batchId) (some record.raw_id) "RECORD_FAILED" msg none none]

/-- A runtime whose Fuse.js finds, for the text `Office Rnt`, the indexed accounts named
`Office Rent`, with the score 0.1, and nothing for any other text. -/
def nearHitRuntime : Runtime :=
  { utcRuntime with
    fuseSearch := fun accounts _ text =>
      if text = "Office Rnt".data then
        (accounts.filter (fun a => a.account_name == "Office Rent")).map (fun a => (a, 1 / 10))
      else [] }

/-! ## Lemmas on the store -/

theorem idTruthy_some (x : Option Nat) (h : idTruthy x = true) : x = some (x.getD 0) := by
  cases x with
  | none => simp [idTruthy] at h
  | some n => rfl

theorem postOne_ok (rt : Runtime) (s s1 : Store) (accounts : List Account)
    (mappingRules : List MappingRule) (fuse : List Char → List (Account × Option ℚ))
    (record : RawRecord) (vid : Nat) (num : String)
    (h : postOne rt s accounts mappingRules fuse record = Except.ok (s1, vid, num)) :
    ∃ p : Posting, p.record = record ∧ p.voucher.voucher_id = vid ∧
      p.voucher.voucher_number = num ∧
      Posting.Faithful rt accounts mappingRules fuse p ∧
      s1.vouchers = s.vouchers ++ [p.voucher] ∧ s1.entries = s.entries ++ p.entries ∧
      s1.rawRecords = s.rawRecords ∧ s1.batches = s.batches ∧ s1.auditLog = s.auditLog ∧
      s1.accounts = s.accounts ∧ s1.rules = s.rules := by
  unfold postOne at h
  dsimp only at h
  split at h
  · exact absurd h (by simp)
  · rename_i hids
    simp only [Bool.or_eq_true, Bool.not_eq_true', not_or, Bool.not_eq_false] at hids
    unfold postTransaction at h
    dsimp only at h
    split at h
    · exact absurd h (by simp)
    · exact absurd h (by simp)
    · rename_i date amount hdate hamount
      split at h
      · exact absurd h (by simp)
      · split at h
        · exact absurd h (by simp)
        · simp only [Except.ok.injEq, Prod.mk.injEq] at h
          obtain ⟨hs, hv, hn⟩ := h
          subst hs
          refine ⟨{ record := record,
                    voucher := { voucher_id := newVoucherId s, voucher_number := num,
                                 voucher_type := "Journal", voucher_date := date,
                                 narration := some (if strFalsy record.detected_narration
                                   then "Imported from legacy data"
                                   else record.detected_narration.getD ""),
                                 total_amount := amount, legacy_raw_id := some record.raw_id },
                    debitAccountId := (findAccountMatch rt record.detected_debit_account accounts
                      mappingRules fuse).getD 0,
                    creditAccountId := (findAccountMatch rt record.detected_credit_account accounts
                      mappingRules fuse).getD 0,
                    amount := amount }, rfl, hv, rfl, ?_, ?_, ?_, rfl, rfl, rfl, rfl, rfl⟩
          · exact ⟨hamount, idTruthy_some _ hids.1, idTruthy_some _ hids.2, rfl, rfl⟩
          · simp [hn]
          · simp [Posting.entries]

theorem postStep_spec (rt : Runtime) (batchId : Nat) (accounts : List Account)
    (mappingRules : List MappingRule) (fuse : List Char → List (Account × Option ℚ))
    (s : Store) (record : RawRecord) :
    ((postStep rt batchId accounts mappingRules fuse s record).2 = false ∧
      (postStep rt batchId accounts mappingRules fuse s record).1.vouchers = s.vouchers ∧
      (postStep rt batchId accounts mappingRules fuse s record).1.entries = s.entries) ∨
    ((postStep rt batchId accounts mappingRules fuse s record).2 = true ∧
      ∃ p : Posting, p.record = record ∧ Posting.Faithful rt accounts mappingRules fuse p ∧
        (postStep rt batchId accounts mappingRules fuse s record).1.vouchers
          = s.vouchers ++ [p.voucher] ∧
        (postStep rt batchId accounts mappingRules fuse s record).1.entries
          = s.entries ++ p.entries) := by
  unfold postStep
  split
  · rename_i s1 vid num hok
    obtain ⟨p, hrec, -, -, hf, hv, he, -⟩ := postOne_ok rt s s1 accounts mappingRules fuse record vid num hok
    right
    exact ⟨rfl, p, hrec, hf, by simpa [logAudit, updateRecord] using hv,
      by simpa [logAudit, updateRecord] using he⟩
  · left
    simp [logAudit, updateRecord]

theorem postLoop_postings (rt : Runtime) (batchId : Nat) (accounts : List Account)
    (mappingRules : List MappingRule) (fuse : List Char → List (Account × Option ℚ))
    (records : List RawRecord) :
    ∀ (s : Store) (posted failed : Nat), ∃ posts : List Posting,
      (postLoop rt batchId accounts mappingRules fuse records (s, posted, failed)).1.vouchers
        = s.vouchers ++ posts.map (fun p => p.voucher) ∧
      (postLoop rt batchId accounts mappingRules fuse records (s, posted, failed)).1.entries
        = s.entries ++ posts.flatMap (fun p => p.entries) ∧
      (postLoop rt batchId accounts mappingRules fuse records (s, posted, failed)).2.1
        = posted + posts.length ∧
      ∀ p ∈ posts, p.record ∈ records ∧ Posting.Faithful rt accounts mappingRules fuse p := by
  induction records with
  | nil =>
    intro s posted failed
    exact ⟨[], by simp [postLoop]⟩
  | cons record rest ih =>
    intro s posted failed
    rcases postStep_spec rt batchId accounts mappingRules fuse s record with
      ⟨hb, hv, he⟩ | ⟨hb, p, hrec, hf, hv, he⟩
    · obtain ⟨posts, h1, h2, h3, h4⟩ :=
        ih (postStep rt batchId accounts mappingRules fuse s record).1 posted (failed + 1)
      refine ⟨posts, ?_, ?_, ?_, ?_⟩
      · rw [postLoop]
        generalize hps : postStep rt batchId accounts mappingRules fuse s record = ps at *
        obtain ⟨s1, b⟩ := ps
        simp only at hb hv
        subst hb
        simp only [h1, hv]
      · rw [postLoop]
        generalize hps : postStep rt batchId accounts mappingRules fuse s record = ps at *
        obtain ⟨s1, b⟩ := ps
        simp only at hb he
        subst hb
        simp only [h2, he]
      · rw [postLoop]
        generalize hps : postStep rt batchId accounts mappingRules fuse s record = ps at *
        obtain ⟨s1, b⟩ := ps
        simp only at hb
        subst hb
        simp only [h3]
      · intro q hq
        exact ⟨List.mem_cons_of_mem _ (h4 q hq).1, (h4 q hq).2⟩
    · obtain ⟨posts, h1, h2, h3, h4⟩ :=
        ih (postStep rt batchId accounts mappingRules fuse s record).1 (posted + 1) failed
      refine ⟨p :: posts, ?_, ?_, ?_, ?_⟩
      · rw [postLoop]
        generalize hps : postStep rt batchId accounts mappingRules fuse s record = ps at *
        obtain ⟨s1, b⟩ := ps
        simp only at hb hv
        subst hb
        simp only [h1, hv, List.map_cons, List.append_assoc, List.singleton_append]
      · rw [postLoop]
        generalize hps : postStep rt batchId accounts mappingRules fuse s record = ps at *
        obtain ⟨s1, b⟩ := ps
        simp only at hb he
        subst hb
        simp only [h2, he, List.flatMap_cons, List.append_assoc]
      · rw [postLoop]
        generalize hps : postStep rt batchId accounts mappingRules fuse s record = ps at *
        obtain ⟨s1, b⟩ := ps
        simp only at hb
        subst hb
        simp only [h3, List.length_cons]
        omega
      · intro q hq
        rcases List.mem_cons.mp hq with rfl | hq
        · exact ⟨by rw [hrec]; exact List.mem_cons_self _ _, hf⟩
        · exact ⟨List.mem_cons_of_mem _ (h4 q hq).1, (h4 q hq).2⟩

theorem payloads_updateRecord (s : Store) (rawId : Nat) (f : RawRecord → RawRecord)
    (hf : ∀ r, (f r).raw_id = r.raw_id ∧ (f r).raw_payload = r.raw_payload) :
    payloads (updateRecord s rawId f) = payloads s := by
  simp only [payloads, updateRecord, List.map_map]
  apply List.map_congr_left
  intro r _
  by_cases h : r.raw_id = rawId
  · simp [h, (hf r).1, (hf r).2]
  · simp [h]

theorem payloads_normalizeLoop (rt : Runtime) (records : List RawRecord) :
    ∀ acc : Store × Nat × Nat, payloads (normalizeLoop rt records acc).1 = payloads acc.1 := by
  induction records with
  | nil => intro acc; rfl
  | cons record rest ih =>
    rintro ⟨s, n, f⟩
    rw [normalizeLoop]
    split
    · rw [ih]
      exact payloads_updateRecord _ _ _ (fun r => ⟨rfl, rfl⟩)
    · rw [ih]
      exact payloads_updateRecord _ _ _ (fun r => ⟨rfl, rfl⟩)

theorem payloads_validateLoop (rt : Runtime) (accounts : List Account)
    (mappingRules : List MappingRule) (fuse : List Char → List (Account × Option ℚ))
    (records : List RawRecord) :
    ∀ acc : Store × Nat × Nat,
      payloads (validateLoop rt accounts mappingRules fuse records acc).1 = payloads acc.1 := by
  induction records with
  | nil => intro acc; rfl
  | cons record rest ih =>
    rintro ⟨s, n, f⟩
    rw [validateLoop]
    dsimp only
    split
    · rw [ih]
      exact payloads_updateRecord _ _ _ (fun r => ⟨rfl, rfl⟩)
    · rw [ih]
      exact payloads_updateRecord _ _ _ (fun r => ⟨rfl, rfl⟩)

theorem payloads_postStep (rt : Runtime) (batchId : Nat) (accounts : List Account)
    (mappingRules : List MappingRule) (fuse : List Char → List (Account × Option ℚ))
    (s : Store) (record : RawRecord) :
    payloads (postStep rt batchId accounts mappingRules fuse s record).1 = payloads s := by
  unfold postStep
  split
  · rename_i s1 vid num hok
    obtain ⟨p, -, -, -, -, -, -, hr, -⟩ :=
      postOne_ok rt s s1 accounts mappingRules fuse record vid num hok
    have h1 : payloads s1 = payloads s := by simp [payloads, hr]
    rw [← h1]
    exact payloads_updateRecord _ _ _ (fun r => ⟨rfl, rfl⟩)
  · exact payloads_updateRecord _ _ _ (fun r => ⟨rfl, rfl⟩)

theorem payloads_postLoop (rt : Runtime) (batchId : Nat) (accounts : List Account)
    (mappingRules : List MappingRule) (fuse : List Char → List (Account × Option ℚ))
    (records : List RawRecord) :
    ∀ acc : Store × Nat × Nat,
      payloads (postLoop rt batchId accounts mappingRules fuse records acc).1 = payloads acc.1 := by
  induction records with
  | nil => intro acc; rfl
  | cons record rest ih =>
    rintro ⟨s, n, f⟩
    rw [postLoop]
    have hp := payloads_postStep rt batchId accounts mappingRules fuse s record
    split
    · rename_i s1 heq
      rw [ih]
      rw [heq] at hp
      exact hp
    · rename_i s1 heq
      rw [ih]
      rw [heq] at hp
      exact hp

theorem batchStatus_updateBatch (s : Store) (batchId : Nat) (f : Batch → Batch)
    (st : BatchStatus) (hid : ∀ b, (f b).batch_id = b.batch_id) (hst : ∀ b, (f b).status = st) :
    batchStatus (updateBatch s batchId f) batchId = (batchStatus s batchId).map (fun _ => st) := by
  unfold batchStatus updateBatch
  simp only
  induction s.batches with
  | nil => rfl
  | cons b bs ih =>
    by_cases h : b.batch_id = batchId
    · simp [List.find?, h, hid, hst]
    · have h2 : (b.batch_id == batchId) = false := by simpa using h
      simp only [List.map_cons, h, if_false, List.find?, h2]
      exact ih

theorem batches_normalizeLoop (rt : Runtime) (records : List RawRecord) :
    ∀ acc : Store × Nat × Nat, (normalizeLoop rt records acc).1.batches = acc.1.batches := by
  induction records with
  | nil => intro acc; rfl
  | cons record rest ih =>
    rintro ⟨s, n, f⟩
    rw [normalizeLoop]
    split <;> rw [ih] <;> rfl

theorem batches_validateLoop (rt : Runtime) (accounts : List Account)
    (mappingRules : List MappingRule) (fuse : List Char → List (Account × Option ℚ))
    (records : List RawRecord) :
    ∀ acc : Store × Nat × Nat,
      (validateLoop rt accounts mappingRules fuse records acc).1.batches = acc.1.batches := by
  induction records with
  | nil => intro acc; rfl
  | cons record rest ih =>
    rintro ⟨s, n, f⟩
    rw [validateLoop]
    dsimp only
    split <;> rw [ih] <;> rfl

theorem batches_postStep (rt : Runtime) (batchId : Nat) (accounts : List Account)
    (mappingRules : List MappingRule) (fuse : List Char → List (Account × Option ℚ))
    (s : Store) (record : RawRecord) :
    (postStep rt batchId accounts mappingRules fuse s record).1.batches = s.batches := by
  unfold postStep
  split
  · rename_i s1 vid num hok
    obtain ⟨p, -, -, -, -, -, -, -, hb, -⟩ :=
      postOne_ok rt s s1 accounts mappingRules fuse record vid num hok
    simpa [logAudit, updateRecord] using hb
  · rfl

theorem batches_postLoop (rt : Runtime) (batchId : Nat) (accounts : List Account)
    (mappingRules : List MappingRule) (fuse : List Char → List (Account × Option ℚ))
    (records : List RawRecord) :
    ∀ acc : Store × Nat × Nat,
      (postLoop rt batchId accounts mappingRules fuse records acc).1.batches = acc.1.batches := by
  induction records with
  | nil => intro acc; rfl
  | cons record rest ih =>
    rintro ⟨s, n, f⟩
    rw [postLoop]
    have hp := batches_postStep rt batchId accounts mappingRules fuse s record
    split
    · rename_i s1 heq
      rw [ih]
      rw [heq] at hp
      exact hp
    · rename_i s1 heq
      rw [ih]
      rw [heq] at hp
      exact hp

theorem rawWithin_updateRecord (s : Store) (batchId : Nat) (rawId : Nat) (ids : List Nat)
    (f : RawRecord → RawRecord)
    (hst : ∀ r, (f r).status ≠ RecordStatus.raw)
    (h : RawWithin s batchId (rawId :: ids)) :
    RawWithin (updateRecord s rawId f) batchId ids := by
  intro r' hr' hb hs
  simp only [updateRecord, List.mem_map] at hr'
  obtain ⟨r, hr, rfl⟩ := hr'
  by_cases hx : r.raw_id = rawId
  · simp only [hx, if_true] at hs
    exact absurd hs (hst r)
  · simp only [hx, if_false] at hs hb ⊢
    rcases List.mem_cons.mp (h r hr hb hs) with h1 | h1
    · exact absurd h1 hx
    · exact h1

theorem rawWithin_normalizeLoop (rt : Runtime) (batchId : Nat) (records : List RawRecord) :
    ∀ acc : Store × Nat × Nat,
      RawWithin acc.1 batchId (records.map (fun r => r.raw_id)) →
      RawWithin (normalizeLoop rt records acc).1 batchId [] := by
  induction records with
  | nil => intro acc h; exact h
  | cons record rest ih =>
    rintro ⟨s, n, f⟩ h
    rw [normalizeLoop]
    split
    · apply ih
      exact rawWithin_updateRecord s batchId record.raw_id _ _
        (fun r => by simp [applyNormalized]) h
    · apply ih
      exact rawWithin_updateRecord s batchId record.raw_id _ _
        (fun r => by simp [applyFailed]) h

theorem selectRecords_raw_nil (s : Store) (batchId : Nat) (h : RawWithin s batchId []) :
    selectRecords s batchId (fun st => st == RecordStatus.raw) = [] := by
  unfold selectRecords
  rw [List.filter_eq_nil_iff]
  intro r hr
  simp only [Bool.and_eq_true, decide_eq_true_eq, beq_iff_eq, not_and]
  intro hb hs
  exact absurd (h r hr hb hs) (List.not_mem_nil _)

/-! ## Lemmas on `parseDate` -/

theorem isDigit_ne_slash (c : Char) (h : isDigit c = true) : c ≠ '/' := by
  intro hc
  subst hc
  revert h
  decide

theorem isDigit_ne_dash (c : Char) (h : isDigit c = true) : c ≠ '-' := by
  intro hc
  subst hc
  revert h
  decide

theorem dmySlash_shape (cs : List Char)
    (h : matchTemplate DateFormat.dmySlash.template cs = true) :
    ∃ a b c d e f g k, cs = [a, b, '/', c, d, '/', e, f, g, k] ∧
      isDigit a = true ∧ isDigit b = true ∧ isDigit c = true ∧ isDigit d = true ∧
      isDigit e = true ∧ isDigit f = true ∧ isDigit g = true ∧ isDigit k = true := by
  rcases cs with _ | ⟨a, _ | ⟨b, _ | ⟨x, _ | ⟨c, _ | ⟨d, _ | ⟨y, _ | ⟨e, _ | ⟨f, _ | ⟨g, _ | ⟨k, _ | ⟨z, rest⟩⟩⟩⟩⟩⟩⟩⟩⟩⟩⟩ <;>
    simp [matchTemplate, DateFormat.template] at h
  obtain ⟨ha, hb, rfl, hc, hd, rfl, he, hf, hg, hk⟩ := h
  exact ⟨a, b, c, d, e, f, g, k, rfl, ha, hb, hc, hd, he, hf, hg, hk⟩

theorem digits12Slash_excludes (cs : List Char) (h : (digits12Slash cs).isSome = true) :
    matchTemplate DateFormat.ymdDash.template cs = false ∧
    matchTemplate DateFormat.dmyDash.template cs = false ∧
    matchTemplate DateFormat.ymdSlash.template cs = false := by
  rcases cs with _ | ⟨a, _ | ⟨b, _ | ⟨c, rest⟩⟩⟩
  · simp [digits12Slash] at h
  · simp [digits12Slash] at h
  · simp [matchTemplate, DateFormat.template]
  · have hcases : (isDigit b = true ∧ c = '/') ∨ b = '/' := by
      unfold digits12Slash at h
      by_cases h1 : (isDigit a && isDigit b && c == '/') = true
      · simp only [Bool.and_eq_true, beq_iff_eq] at h1
        exact Or.inl ⟨h1.1.2, h1.2⟩
      · by_cases h2 : (isDigit a && b == '/') = true
        · simp only [Bool.and_eq_true, beq_iff_eq] at h2
          exact Or.inr h2.2
        · simp [h1, h2] at h
    rcases hcases with ⟨hb, rfl⟩ | rfl
    · refine ⟨?_, ?_, ?_⟩ <;>
        simp [matchTemplate, DateFormat.template, show isDigit '/' = false by decide]
    · refine ⟨?_, ?_, ?_⟩ <;>
        simp [matchTemplate, DateFormat.template, show isDigit '/' = false by decide]

theorem splitChar_dmy (a b c d e f g k : Char)
    (ha : isDigit a = true) (hb : isDigit b = true) (hc : isDigit c = true)
    (hd : isDigit d = true) (he : isDigit e = true) (hf : isDigit f = true)
    (hg : isDigit g = true) (hk : isDigit k = true) :
    splitChar '/' [a, b, '/', c, d, '/', e, f, g, k] = [[a, b], [c, d], [e, f, g, k]] := by
  simp [splitChar, isDigit_ne_slash a ha, isDigit_ne_slash b hb, isDigit_ne_slash c hc,
    isDigit_ne_slash d hd, isDigit_ne_slash e he, isDigit_ne_slash f hf,
    isDigit_ne_slash g hg, isDigit_ne_slash k hk]

theorem mdyMatch_dmy (a b c d e f g k : Char)
    (ha : isDigit a = true) (hb : isDigit b = true) (hc : isDigit c = true)
    (hd : isDigit d = true) (he : isDigit e = true) (hf : isDigit f = true)
    (hg : isDigit g = true) (hk : isDigit k = true) :
    mdyMatch [a, b, '/', c, d, '/', e, f, g, k]
      = some (digitsToNat [a, b], digitsToNat [c, d], digitsToNat [e, f, g, k]) := by
  simp [mdyMatch, digits12Slash, digits4, ha, hb, hc, hd, he, hf, hg, hk]

theorem slashDate_dmy (rt : Runtime) (a b c d e f g k : Char)
    (ha : isDigit a = true) (hb : isDigit b = true) (hc : isDigit c = true)
    (hd : isDigit d = true) (he : isDigit e = true) (hf : isDigit f = true)
    (hg : isDigit g = true) (hk : isDigit k = true) :
    slashDate rt [a, b, '/', c, d, '/', e, f, g, k]
      = newDateLocal rt (digitsToNat [e, f, g, k]) ((digitsToNat [c, d] : Int) - 1)
          (digitsToNat [a, b]) := by
  simp [slashDate, splitChar_dmy a b c d e f g k ha hb hc hd he hf hg hk, partToNumber,
    ha, hb, hc, hd, he, hf, hg, hk]

/-! ## Lemmas on `validateBatch` -/

theorem mapAccount_eq (rt : Runtime) (text : Option String) (accounts : List Account)
    (mappingRules : List MappingRule) (fuse : List Char → List (Account × Option ℚ)) :
    mapAccount rt text accounts mappingRules fuse
      = findAccountMatch rt text accounts mappingRules fuse := by
  unfold mapAccount
  split
  · rename_i h
    cases text with
    | none => rfl
    | some t =>
      simp only [strFalsy, decide_eq_true_eq] at h
      simp [findAccountMatch, h]
  · rfl

theorem validationErrors_eq_spec (rt : Runtime) (accounts : List Account)
    (mappingRules : List MappingRule) (fuse : List Char → List (Account × Option ℚ)) (r : RawRecord) :
    validationErrors rt accounts mappingRules fuse r = specErrors rt accounts mappingRules fuse r := by
  unfold validationErrors specErrors
  simp only [mapAccount_eq]
  congr 1
  · congr 1
    · cases hd : r.detected_date with
      | none => simp [strFalsy]
      | some d =>
        by_cases h : d.data = []
        · have : d = "" := by
            cases d
            simp_all
          simp [strFalsy, this]
        · have : d ≠ "" := by
            intro hc
            subst hc
            exact h rfl
          simp [strFalsy, h, this]
    · cases ha : r.detected_amount with
      | none => simp [numFalsy]
      | some a =>
        by_cases h : a ≤ 0
        · simp [numFalsy, h]
        · have h0 : a ≠ 0 := by
            intro hc
            subst hc
            exact h (le_refl 0)
          simp [numFalsy, h, h0]
  · cases idTruthy (findAccountMatch rt r.detected_debit_account accounts mappingRules fuse) <;>
      cases idTruthy (findAccountMatch rt r.detected_credit_account accounts mappingRules fuse) <;>
      simp

theorem validateLoop_keeps (rt : Runtime) (accounts : List Account)
    (mappingRules : List MappingRule) (fuse : List Char → List (Account × Option ℚ))
    (records : List RawRecord) :
    ∀ (acc : Store × Nat × Nat) (x : RawRecord), x ∈ acc.1.rawRecords →
      x.raw_id ∉ records.map (fun r => r.raw_id) →
      x ∈ (validateLoop rt accounts mappingRules fuse records acc).1.rawRecords := by
  induction records with
  | nil => intro acc x hx _; exact hx
  | cons record rest ih =>
    rintro ⟨s, n, f⟩ x hx hnot
    simp only [List.map_cons, List.mem_cons, not_or] at hnot
    rw [validateLoop]
    have hx1 : x ∈ (updateRecord s record.raw_id
        (applyValidation (validationErrors rt accounts mappingRules fuse record)
          (validationWarnings rt accounts mappingRules fuse record))).rawRecords := by
      simp only [updateRecord, List.mem_map]
      exact ⟨x, hx, by simp [hnot.1]⟩
    split
    · exact ih _ x hx1 hnot.2
    · exact ih _ x hx1 hnot.2

theorem validateLoop_record (rt : Runtime) (accounts : List Account)
    (mappingRules : List MappingRule) (fuse : List Char → List (Account × Option ℚ))
    (records : List RawRecord) :
    ∀ (acc : Store × Nat × Nat), (records.map (fun r => r.raw_id)).Nodup →
      ∀ r ∈ records, (∃ x ∈ acc.1.rawRecords, x.raw_id = r.raw_id) →
      ∃ r2 ∈ (validateLoop rt accounts mappingRules fuse records acc).1.rawRecords,
        r2.raw_id = r.raw_id ∧
        r2.status = validationStatus (validationErrors rt accounts mappingRules fuse r) ∧
        r2.validation_errors =
          (if (validationErrors rt accounts mappingRules fuse r).length > 0
            then some (validationErrors rt accounts mappingRules fuse r) else none) := by
  induction records with
  | nil => intro acc _ r hr; exact absurd hr (List.not_mem_nil _)
  | cons record rest ih =>
    rintro ⟨s, n, f⟩ hnd r hr ⟨x, hx, hxid⟩
    simp only [List.map_cons, List.nodup_cons] at hnd
    have key : ∀ acc2 : Nat × Nat,
        ∃ r2 ∈ (validateLoop rt accounts mappingRules fuse rest
            (updateRecord s record.raw_id
              (applyValidation (validationErrors rt accounts mappingRules fuse record)
                (validationWarnings rt accounts mappingRules fuse record)), acc2)).1.rawRecords,
          r2.raw_id = r.raw_id ∧
          r2.status = validationStatus (validationErrors rt accounts mappingRules fuse r) ∧
          r2.validation_errors =
            (if (validationErrors rt accounts mappingRules fuse r).length > 0
              then some (validationErrors rt accounts mappingRules fuse r) else none) := by
      intro acc2
      rcases List.mem_cons.mp hr with rfl | hrest
      · refine ⟨applyValidation (validationErrors rt accounts mappingRules fuse r)
            (validationWarnings rt accounts mappingRules fuse r) x, ?_, ?_, rfl, rfl⟩
        · apply validateLoop_keeps
          · simp only [updateRecord, List.mem_map]
            exact ⟨x, hx, by simp [hxid]⟩
          · simpa [applyValidation, hxid] using hnd.1
        · simpa [applyValidation] using hxid
      · apply ih _ hnd.2 r hrest
        by_cases hsame : x.raw_id = record.raw_id
        · refine ⟨applyValidation (validationErrors rt accounts mappingRules fuse record)
            (validationWarnings rt accounts mappingRules fuse record) x, ?_, ?_⟩
          · simp only [updateRecord, List.mem_map]
            exact ⟨x, hx, by simp [hsame]⟩
          · simpa [applyValidation] using hxid
        · refine ⟨x, ?_, hxid⟩
          simp only [updateRecord, List.mem_map]
          exact ⟨x, hx, by simp [hsame]⟩
    rw [validateLoop]
    split
    · exact key _
    · exact key _

theorem validateBatch_record (rt : Runtime) (s : Store) (batchId : Nat)
    (hpk : (s.rawRecords.map (fun r => r.raw_id)).Nodup)
    (r : RawRecord) (hr : r ∈ s.rawRecords) (hb : r.batch_id = batchId)
    (hs : r.status = RecordStatus.normalized ∨ r.status = RecordStatus.mapped) :
    ∃ r2 ∈ (validateBatch rt s batchId).1.rawRecords,
      r2.raw_id = r.raw_id ∧
      r2.status = validationStatus (specErrors rt (activeAccounts s) (getMappingRules s)
        (newFuse rt (activeAccounts s)) r) ∧
      r2.validation_errors =
        (if (specErrors rt (activeAccounts s) (getMappingRules s)
            (newFuse rt (activeAccounts s)) r).length > 0
          then some (specErrors rt (activeAccounts s) (getMappingRules s)
            (newFuse rt (activeAccounts s)) r) else none) := by
  have hsel : r ∈ selectRecords s batchId
      (fun st => st == RecordStatus.normalized || st == RecordStatus.mapped) := by
    simp only [selectRecords, List.mem_filter, Bool.and_eq_true, decide_eq_true_eq,
      Bool.or_eq_true, beq_iff_eq]
    exact ⟨hr, hb, hs⟩
  have hnd : ((selectRecords s batchId
      (fun st => st == RecordStatus.normalized || st == RecordStatus.mapped)).map
        (fun r => r.raw_id)).Nodup :=
    List.Nodup.sublist (List.Sublist.map _ (List.filter_sublist _)) hpk
  obtain ⟨r2, hr2, h1, h2, h3⟩ := validateLoop_record rt (activeAccounts s) (getMappingRules s)
    (newFuse rt (activeAccounts s)) _ (s, 0, 0) hnd r hsel ⟨r, hr, rfl⟩
  rw [validationErrors_eq_spec] at h2 h3
  refine ⟨r2, ?_, h1, h2, h3⟩
  simpa [validateBatch, updateBatch, logAudit] using hr2

/-! ## Lemmas on voucher numbering -/

theorem digitChar_spec (n : Nat) :
    isDigit (digitChar n) = true ∧ digitVal (digitChar n) = n % 10 := by
  unfold digitChar
  have h : n % 10 < 10 := Nat.mod_lt _ (by decide)
  generalize n % 10 = k at h
  interval_cases k <;> exact ⟨by decide, by decide⟩

theorem natDigits_all_digit (fuel : Nat) :
    ∀ n, ∀ c ∈ natDigits fuel n, isDigit c = true := by
  induction fuel with
  | zero => intro n c hc; simp [natDigits] at hc
  | succ fuel ih =>
    intro n c hc
    rw [natDigits] at hc
    split at hc
    · simp only [List.mem_singleton] at hc
      rw [hc]
      exact (digitChar_spec n).1
    · rcases List.mem_append.mp hc with h | h
      · exact ih _ c h
      · simp only [List.mem_singleton] at h
        rw [h]
        exact (digitChar_spec n).1

theorem natDigits_ne_nil (fuel n : Nat) : natDigits (fuel + 1) n ≠ [] := by
  rw [natDigits]
  split <;> simp

theorem digitsToNat_append_single (ds : List Char) (c : Char) :
    digitsToNat (ds ++ [c]) = 10 * digitsToNat ds + digitVal c := by
  simp [digitsToNat, List.foldl_append]

theorem digitsToNat_natDigits (fuel : Nat) :
    ∀ n, n < fuel → digitsToNat (natDigits fuel n) = n := by
  induction fuel with
  | zero => intro n h; omega
  | succ fuel ih =>
    intro n h
    rw [natDigits]
    split
    · rename_i hlt
      simp only [digitsToNat, List.foldl_cons, List.foldl_nil, (digitChar_spec n).2]
      omega
    · rename_i hge
      rw [digitsToNat_append_single, ih (n / 10) (by omega), (digitChar_spec n).2]
      omega

theorem digitsToNat_natToString (n : Nat) : digitsToNat (natToString n) = n :=
  digitsToNat_natDigits (n + 1) n (Nat.lt_succ_self n)

theorem digitsToNat_zeros_append (k : Nat) (ds : List Char) :
    digitsToNat (List.replicate k '0' ++ ds) = digitsToNat ds := by
  induction k with
  | zero => simp
  | succ k ih =>
    have h0 : 10 * 0 + digitVal '0' = 0 := by decide
    simp only [digitsToNat, List.replicate_succ, List.cons_append, List.foldl_cons, h0] at ih ⊢
    exact ih

theorem padStart_all_digit (w : Nat) (ds : List Char) (h : ∀ c ∈ ds, isDigit c = true) :
    ∀ c ∈ padStart w ds, isDigit c = true := by
  intro c hc
  rcases List.mem_append.mp hc with h1 | h1
  · rw [(List.mem_replicate.mp h1).2]
    decide
  · exact h c h1

theorem isDigit_not_whitespace (c : Char) (h : isDigit c = true) : isJsWhitespace c = false := by
  simp only [isDigit, Bool.and_eq_true, decide_eq_true_eq] at h
  simp only [isJsWhitespace, Bool.or_eq_false_iff, Bool.and_eq_false_iff, beq_eq_false_iff_ne,
    decide_eq_false_iff_not]
  omega

theorem isDigit_ne_char (c x : Char) (h : isDigit c = true) (hx : isDigit x = false) : c ≠ x := by
  intro hc
  rw [hc, hx] at h
  exact absurd h (by decide)

theorem jsParseInt_digits (ds : List Char) (hne : ds ≠ [])
    (h : ∀ c ∈ ds, isDigit c = true) : jsParseInt ds = some (digitsToNat ds : Int) := by
  obtain ⟨a, rest, rfl⟩ := List.exists_cons_of_ne_nil hne
  have ha : isDigit a = true := h a (List.mem_cons_self _ _)
  have hw : isJsWhitespace a = false := isDigit_not_whitespace a ha
  have hminus : a ≠ '-' := isDigit_ne_char a '-' ha (by decide)
  have hplus : a ≠ '+' := isDigit_ne_char a '+' ha (by decide)
  have htake : (a :: rest).takeWhile isDigit = a :: rest :=
    List.takeWhile_eq_self_iff.mpr h
  have hhex : (((a :: rest).take 2 == ['0', 'x']) || ((a :: rest).take 2 == ['0', 'X'])) = false := by
    cases rest with
    | nil => simp
    | cons b rest2 =>
      have hb : isDigit b = true := h b (List.mem_cons_of_mem _ (List.mem_cons_self _ _))
      have h1 : b ≠ 'x' := isDigit_ne_char b 'x' hb (by decide)
      have h2 : b ≠ 'X' := isDigit_ne_char b 'X' hb (by decide)
      simp [h1, h2]
  have hd : (a :: rest).dropWhile isJsWhitespace = a :: rest := by
    simp [List.dropWhile_cons, hw]
  have h1 : ((a :: rest).head? == some '-') = false := by simp [hminus]
  have h2 : ((a :: rest).head? == some '+') = false := by simp [hplus]
  unfold jsParseInt
  simp only [hd, h1, h2, Bool.or_false, Bool.false_eq_true, if_false, hhex, htake]
  simp

theorem splitChar_no_sep (sep : Char) (xs : List Char) (h : sep ∉ xs) :
    splitChar sep xs = [xs] := by
  induction xs with
  | nil => rfl
  | cons c cs ih =>
    simp only [List.mem_cons, not_or] at h
    have hc : c ≠ sep := fun e => h.1 e.symm
    simp [splitChar, hc, ih h.2]

theorem splitChar_append_sep (sep : Char) (xs ys : List Char) (h : sep ∉ xs) :
    splitChar sep (xs ++ sep :: ys) = xs :: splitChar sep ys := by
  induction xs with
  | nil => simp [splitChar]
  | cons c cs ih =>
    simp only [List.mem_cons, not_or] at h
    have hc : c ≠ sep := fun e => h.1 e.symm
    simp [splitChar, hc, ih h.2]

theorem lastVoucherLike_fold (v : Voucher) (l : List Voucher) :
    ∀ init : Option Voucher,
      (∀ w ∈ l, w = v ∨ w.voucher_id < v.voucher_id) →
      (init = some v ∨ (v ∈ l ∧ (init = none ∨ ∃ b, init = some b ∧ b.voucher_id < v.voucher_id))) →
      l.foldl (fun best w =>
        match best with
        | none => some w
        | some b => if b.voucher_id < w.voucher_id then some w else some b) init = some v := by
  induction l with
  | nil =>
    intro init _ h
    rcases h with h | ⟨h, _⟩
    · simpa using h
    · exact absurd h (List.not_mem_nil _)
  | cons w l ih =>
    intro init hall h
    have hw := hall w (List.mem_cons_self _ _)
    have hall2 : ∀ x ∈ l, x = v ∨ x.voucher_id < v.voucher_id :=
      fun x hx => hall x (List.mem_cons_of_mem _ hx)
    simp only [List.foldl_cons]
    apply ih _ hall2
    rcases h with h | ⟨hv, h⟩
    · left
      subst h
      rcases hw with rfl | hlt
      · simp
      · have : ¬ v.voucher_id < w.voucher_id := by omega
        simp [this]
    · rcases hw with rfl | hlt
      · left
        rcases h with rfl | ⟨b, rfl, hb⟩
        · rfl
        · simp [hb]
      · right
        have hvl : v ∈ l := by
          rcases List.mem_cons.mp hv with rfl | h2
          · omega
          · exact h2
        refine ⟨hvl, Or.inr ?_⟩
        rcases h with rfl | ⟨b, rfl, hb⟩
        · exact ⟨w, rfl, hlt⟩
        · by_cases hbw : b.voucher_id < w.voucher_id
          · exact ⟨w, by simp [hbw], hlt⟩
          · exact ⟨b, by simp [hbw], hb⟩

theorem lastVoucherLike_most_recent (vouchers : List Voucher) (lead : List Char) (v : Voucher)
    (hv : v ∈ vouchers) (hlike : likeStart lead v.voucher_number = true)
    (hmax : ∀ w ∈ vouchers, likeStart lead w.voucher_number = true → w ≠ v →
      w.voucher_id < v.voucher_id) :
    lastVoucherLike vouchers lead = some v := by
  unfold lastVoucherLike
  apply lastVoucherLike_fold
  · intro w hw
    rw [List.mem_filter] at hw
    by_cases h : w = v
    · exact Or.inl h
    · exact Or.inr (hmax w hw.1 hw.2 h)
  · right
    exact ⟨List.mem_filter.mpr ⟨hv, hlike⟩, Or.inl rfl⟩

theorem lastVoucherLike_none (vouchers : List Voucher) (lead : List Char)
    (h : ∀ w ∈ vouchers, likeStart lead w.voucher_number = false) :
    lastVoucherLike vouchers lead = none := by
  unfold lastVoucherLike
  have : vouchers.filter (fun v => likeStart lead v.voucher_number) = [] := by
    rw [List.filter_eq_nil_iff]
    intro w hw
    simp [h w hw]
  rw [this]
  rfl

theorem natDigits_length_le (fuel : Nat) :
    ∀ n d, 1 ≤ d → n < 10 ^ d → (natDigits fuel n).length ≤ d := by
  induction fuel with
  | zero => intro n d _ _; simp [natDigits]
  | succ fuel ih =>
    intro n d hd hn
    rw [natDigits]
    split
    · simpa using hd
    · rename_i hge
      obtain ⟨e, rfl⟩ : ∃ e, d = e + 1 := ⟨d - 1, by omega⟩
      have he : 1 ≤ e := by
        rcases Nat.eq_zero_or_pos e with h0 | h0
        · subst h0
          simp at hn
          omega
        · exact h0
      have hn2 : n / 10 < 10 ^ e := by
        rw [Nat.div_lt_iff_lt_mul (by decide)]
        rw [pow_succ] at hn
        exact hn
      have := ih (n / 10) e he hn2
      simp only [List.length_append, List.length_singleton]
      omega

theorem padStart_five_length (n : Nat) (h : n ≤ 99999) :
    (padStart 5 (natToString n)).length = 5 := by
  have h1 : (natToString n).length ≤ 5 :=
    natDigits_length_le (n + 1) n 5 (by decide) (by norm_num; omega)
  simp only [padStart, List.length_append, List.length_replicate]
  omega

theorem nextVoucherNumber_after (vouchers : List Voucher) (pfx : String) (year : Nat)
    (v : Voucher) (a b : List Char) (k : Nat)
    (hlast : lastVoucherLike vouchers (pfx.data ++ '-' :: natToString year ++ ['-']) = some v)
    (ha : '-' ∉ a) (hb : '-' ∉ b)
    (hnum : v.voucher_number = String.mk (a ++ '-' :: (b ++ '-' :: padStart 5 (natToString k)))) :
    nextVoucherNumber vouchers pfx year
      = String.mk (pfx.data ++ '-' :: natToString year ++ ['-'] ++
          padStart 5 (natToString (k + 1))) := by
  have hdig : ∀ c ∈ padStart 5 (natToString k), isDigit c = true :=
    padStart_all_digit 5 _ (natDigits_all_digit _ _)
  have hnodash : '-' ∉ padStart 5 (natToString k) := by
    intro hc
    exact isDigit_ne_dash _ (hdig _ hc) rfl
  have hne : padStart 5 (natToString k) ≠ [] := by
    have : natToString k ≠ [] := natDigits_ne_nil k k
    simp [padStart, this]
  have hsplit : splitChar '-' v.voucher_number.data = [a, b, padStart 5 (natToString k)] := by
    rw [hnum]
    simp only []
    rw [splitChar_append_sep '-' a _ ha, splitChar_append_sep '-' b _ hb,
      splitChar_no_sep '-' _ hnodash]
  have hval : digitsToNat (padStart 5 (natToString k)) = k := by
    unfold padStart
    rw [digitsToNat_zeros_append, digitsToNat_natToString]
  have hparse := jsParseInt_digits _ hne hdig
  rw [hval] at hparse
  unfold nextVoucherNumber
  simp only [hlast, hsplit, List.getD_cons_succ, List.getD_cons_zero, hparse, Option.map_some']
  have hint : intToString (some ((k : Int) + 1)) = natToString (k + 1) := by
    have h1 : ¬ ((k : Int) + 1 < 0) := by omega
    have h2 : ((k : Int) + 1).natAbs = k + 1 := by omega
    simp only [intToString, h1, if_false, h2]
  rw [hint]

/-! ## Lemmas on `attemptNormalization` -/

theorem detectText_eq_firstValue (rt : Runtime) (payload : List (String × JsValue))
    (fields : List String) :
    detectText rt payload fields
      = (firstValue payload fields).map (fun v => String.mk (trim (v.toStr rt))) := by
  induction fields with
  | nil => rfl
  | cons k rest ih =>
    unfold firstValue at ih ⊢
    rw [detectText]
    cases hk : getField payload k with
    | none => simpa [List.filterMap_cons, hk] using ih
    | some v =>
      by_cases hv : v.truthy = true
      · simp [List.filterMap_cons, hk, hv, List.find?_cons]
      · simp only [Bool.not_eq_true] at hv
        simpa [List.filterMap_cons, hk, hv, List.find?_cons] using ih

theorem firstValue_first (payload : List (String × JsValue)) (before after : List String)
    (k : String) (v : JsValue)
    (hbefore : ∀ k2 ∈ before, ∀ v2, getField payload k2 = some v2 → v2.truthy = false)
    (hk : getField payload k = some v) (hv : v.truthy = true) :
    firstValue payload (before ++ k :: after) = some v := by
  induction before with
  | nil => simp [firstValue, List.filterMap_cons, hk, List.find?_cons, hv]
  | cons k2 rest ih =>
    have ih2 := ih (fun k3 h3 => hbefore k3 (List.mem_cons_of_mem _ h3))
    unfold firstValue at ih2 ⊢
    cases h2 : getField payload k2 with
    | none => simpa [List.filterMap_cons, h2] using ih2
    | some v2 =>
      have hf := hbefore k2 (List.mem_cons_self _ _) v2 h2
      simpa [List.filterMap_cons, h2, List.find?_cons, hf] using ih2

theorem firstValue_absent (payload : List (String × JsValue)) (fields : List String)
    (h : ∀ k ∈ fields, ∀ v, getField payload k = some v → v.truthy = false) :
    firstValue payload fields = none := by
  induction fields with
  | nil => rfl
  | cons k rest ih =>
    have ih2 := ih (fun k3 h3 => h k3 (List.mem_cons_of_mem _ h3))
    unfold firstValue at ih2 ⊢
    cases h2 : getField payload k with
    | none => simpa [List.filterMap_cons, h2] using ih2
    | some v2 =>
      have hf := h k (List.mem_cons_self _ _) v2 h2
      simpa [List.filterMap_cons, h2, List.find?_cons, hf] using ih2

theorem firstValue_isSome (payload : List (String × JsValue)) (fields : List String) :
    (firstValue payload fields).isSome = anyField payload fields JsValue.truthy := by
  induction fields with
  | nil => rfl
  | cons k rest ih =>
    unfold firstValue anyField at ih ⊢
    cases h2 : getField payload k with
    | none => simpa [List.filterMap_cons, h2] using ih
    | some v2 =>
      by_cases hv : v2.truthy = true
      · simp [List.filterMap_cons, h2, List.find?_cons, hv]
      · simp only [Bool.not_eq_true] at hv
        simpa [List.filterMap_cons, h2, List.find?_cons, hv] using ih

theorem detectDate_isSome (rt : Runtime) (payload : List (String × JsValue))
    (fields : List String) :
    (detectDate rt payload fields).isSome
      = anyField payload fields (fun v => v.truthy && (parseDateStr rt (v.toStr rt)).isSome) := by
  induction fields with
  | nil => rfl
  | cons k rest ih =>
    unfold anyField at ih ⊢
    rw [detectDate]
    cases h2 : getField payload k with
    | none => simpa [h2] using ih
    | some v =>
      by_cases hv : v.truthy = true
      · cases hp : parseDateStr rt (v.toStr rt) with
        | none => simpa [h2, hv, hp] using ih
        | some d => simp [h2, hv, hp]
      · simp only [Bool.not_eq_true] at hv
        simpa [h2, hv] using ih

theorem detectDate_first (rt : Runtime) (payload : List (String × JsValue))
    (before after : List String) (k : String) (v : JsValue) (d : String)
    (hbefore : ∀ k2 ∈ before, getField payload k2 = none)
    (hk : getField payload k = some v) (hv : v.truthy = true)
    (hd : parseDateStr rt (v.toStr rt) = some d) :
    detectDate rt payload (before ++ k :: after) = some d := by
  induction before with
  | nil => simp [detectDate, hk, hv, hd]
  | cons k2 rest ih =>
    have h2 := hbefore k2 (List.mem_cons_self _ _)
    simp only [List.cons_append, detectDate, h2]
    exact ih (fun k3 h3 => hbefore k3 (List.mem_cons_of_mem _ h3))

theorem detectAmount_snd (rt : Runtime) (payload : List (String × JsValue))
    (fields : List String) :
    ∀ acc, (detectAmount rt payload fields acc).2
      = anyField payload fields
          (fun v => (parseFloatFiltered (filterNumeric (v.toStr rt))).isSome) := by
  induction fields with
  | nil => intro acc; rfl
  | cons k rest ih =>
    intro acc
    unfold anyField at ih ⊢
    rw [detectAmount]
    cases h2 : getField payload k with
    | none => simpa [h2] using ih acc
    | some v =>
      cases hp : parseFloatFiltered (filterNumeric (v.toStr rt)) with
      | none => simpa [h2, hp] using ih JsNumber.nan
      | some q => simp [h2, hp]

theorem detectAmount_first (rt : Runtime) (payload : List (String × JsValue))
    (before after : List String) (k : String) (v : JsValue) (q : ℚ)
    (hbefore : ∀ k2 ∈ before, ∀ v2, getField payload k2 = some v2 →
      parseFloatFiltered (filterNumeric (v2.toStr rt)) = none)
    (hk : getField payload k = some v)
    (hq : parseFloatFiltered (filterNumeric (v.toStr rt)) = some q) :
    ∀ acc, detectAmount rt payload (before ++ k :: after) acc = (JsNumber.num q, true) := by
  induction before with
  | nil => intro acc; simp [detectAmount, hk, hq]
  | cons k2 rest ih =>
    intro acc
    have ih2 := ih (fun k3 h3 => hbefore k3 (List.mem_cons_of_mem _ h3))
    simp only [List.cons_append, detectAmount]
    cases h2 : getField payload k2 with
    | none => exact ih2 acc
    | some v2 =>
      have hf := hbefore k2 (List.mem_cons_self _ _) v2 h2
      simp only [hf]
      exact ih2 JsNumber.nan

theorem joinWith_eq_intercalate (sep : List Char) (parts : List (List Char)) :
    joinWith sep parts = List.intercalate sep parts := by
  induction parts with
  | nil => rfl
  | cons p rest ih =>
    cases rest with
    | nil => simp [joinWith, List.intercalate]
    | cons q rest2 =>
      rw [joinWith, ih]
      simp [List.intercalate, List.intersperse]

theorem synthNarration_eq_spec (payload : List (String × JsValue)) :
    synthNarration payload = specNarration payload := by
  unfold synthNarration specNarration
  rw [joinWith_eq_intercalate]
  congr 2
  apply List.filterMap_congr
  intro kv _
  cases kv.2 with
  | str v =>
    by_cases h : v = ""
    · subst h
      simp
    · have : v.data ≠ [] := by
        intro hc
        apply h
        cases v
        simp_all
      simp [h, this]
  | _ => rfl

theorem firstValue_unique (payload : List (String × JsValue)) (fields : List String)
    (k : String) (v : JsValue) (hmem : k ∈ fields)
    (hother : ∀ k2 ∈ fields, k2 ≠ k → getField payload k2 = none)
    (hk : getField payload k = some v) (hv : v.truthy = true) :
    firstValue payload fields = some v := by
  induction fields with
  | nil => exact absurd hmem (List.not_mem_nil _)
  | cons k2 rest ih =>
    by_cases h : k2 = k
    · subst h
      simp [firstValue, List.filterMap_cons, hk, List.find?_cons, hv]
    · have hmem2 : k ∈ rest := by
        rcases List.mem_cons.mp hmem with h1 | h1
        · exact absurd h1.symm h
        · exact h1
      have ih2 := ih hmem2 (fun k3 h3 => hother k3 (List.mem_cons_of_mem _ h3))
      have h2 := hother k2 (List.mem_cons_self _ _) h
      unfold firstValue at ih2 ⊢
      simpa [List.filterMap_cons, h2] using ih2

theorem detectDate_unique (rt : Runtime) (payload : List (String × JsValue))
    (fields : List String) (k : String) (v : JsValue) (d : String) (hmem : k ∈ fields)
    (hother : ∀ k2 ∈ fields, k2 ≠ k → getField payload k2 = none)
    (hk : getField payload k = some v) (hv : v.truthy = true)
    (hd : parseDateStr rt (v.toStr rt) = some d) :
    detectDate rt payload fields = some d := by
  induction fields with
  | nil => exact absurd hmem (List.not_mem_nil _)
  | cons k2 rest ih =>
    by_cases h : k2 = k
    · subst h
      simp [detectDate, hk, hv, hd]
    · have hmem2 : k ∈ rest := by
        rcases List.mem_cons.mp hmem with h1 | h1
        · exact absurd h1.symm h
        · exact h1
      have h2 := hother k2 (List.mem_cons_self _ _) h
      simp only [detectDate, h2]
      exact ih hmem2 (fun k3 h3 => hother k3 (List.mem_cons_of_mem _ h3))

theorem detectAmount_unique (rt : Runtime) (payload : List (String × JsValue))
    (fields : List String) (k : String) (v : JsValue) (q : ℚ) (hmem : k ∈ fields)
    (hother : ∀ k2 ∈ fields, k2 ≠ k → getField payload k2 = none)
    (hk : getField payload k = some v)
    (hq : parseFloatFiltered (filterNumeric (v.toStr rt)) = some q) :
    ∀ acc, detectAmount rt payload fields acc = (JsNumber.num q, true) := by
  induction fields with
  | nil => exact absurd hmem (List.not_mem_nil _)
  | cons k2 rest ih =>
    intro acc
    by_cases h : k2 = k
    · subst h
      simp [detectAmount, hk, hq]
    · have hmem2 : k ∈ rest := by
        rcases List.mem_cons.mp hmem with h1 | h1
        · exact absurd h1.symm h
        · exact h1
      have h2 := hother k2 (List.mem_cons_self _ _) h
      simp only [detectAmount, h2]
      exact ih hmem2 (fun k3 h3 => hother k3 (List.mem_cons_of_mem _ h3)) acc

theorem strFalsy_detectText (rt : Runtime) (payload : List (String × JsValue))
    (fields : List String) :
    strFalsy (detectText rt payload fields) = blankText rt (firstValue payload fields) := by
  rw [detectText_eq_firstValue]
  cases firstValue payload fields with
  | none => rfl
  | some v => simp [strFalsy, blankText]

theorem candidate_keys_disjoint :
    (∀ k ∈ dateFields, k ∉ amountFields ∧ k ∉ debitFields ∧ k ∉ creditFields ∧
      k ∉ accountFields ∧ k ∉ narrationFields) ∧
    (∀ k ∈ amountFields, k ∉ debitFields ∧ k ∉ creditFields ∧ k ∉ accountFields ∧
      k ∉ narrationFields) ∧
    (∀ k ∈ debitFields, k ∉ creditFields ∧ k ∉ accountFields ∧ k ∉ narrationFields) ∧
    (∀ k ∈ creditFields, k ∉ accountFields ∧ k ∉ narrationFields) ∧
    (∀ k ∈ accountFields, k ∉ narrationFields) := by
  decide

theorem getField_some_mem (payload : List (String × JsValue)) (k : String) (v : JsValue)
    (h : getField payload k = some v) : (k, v) ∈ payload := by
  unfold getField at h
  cases hf : payload.find? (fun kv => kv.1 == k) with
  | none => simp [hf] at h
  | some kv =>
    simp only [hf, Option.map_some', Option.some.injEq] at h
    have h1 := List.find?_some hf
    have h2 := List.mem_of_find?_eq_some hf
    simp only [beq_iff_eq] at h1
    obtain ⟨a, b⟩ := kv
    simp only at h h1
    subst h h1
    exact h2

/-! ## Lemmas on `importBatch` -/

theorem insertRawRecords_spec (batchId : Nat) (rows : List String) :
    ∀ s : Store, ∃ news : List RawRecord,
      (insertRawRecords batchId rows s).rawRecords = s.rawRecords ++ news ∧
      news.map (fun r => (r.batch_id, r.status, r.raw_payload))
        = rows.map (fun payload => (batchId, RecordStatus.raw, payload)) ∧
      (insertRawRecords batchId rows s).batches = s.batches ∧
      (insertRawRecords batchId rows s).auditLog = s.auditLog ∧
      (insertRawRecords batchId rows s).vouchers = s.vouchers ∧
      (insertRawRecords batchId rows s).entries = s.entries := by
  induction rows with
  | nil => intro s; exact ⟨[], by simp [insertRawRecords]⟩
  | cons payload rest ih =>
    intro s
    obtain ⟨news, h1, h2, h3, h4, h5, h6⟩ := ih
      { s with rawRecords := s.rawRecords ++ [freshRecord (newRawId s) batchId payload],
               rawSeq := newRawId s }
    refine ⟨freshRecord (newRawId s) batchId payload :: news, ?_, ?_, ?_, ?_, ?_, ?_⟩
    · rw [insertRawRecords, h1]
      simp
    · simp [h2, freshRecord]
    · rw [insertRawRecords, h3]
    · rw [insertRawRecords, h4]
    · rw [insertRawRecords, h5]
    · rw [insertRawRecords, h6]

theorem newBatchId_fresh (s : Store) : ∀ b ∈ s.batches, b.batch_id < newBatchId s := by
  have key : ∀ (l : List Batch) (init : Nat),
      init ≤ l.foldl (fun m b => max m b.batch_id) init ∧
      ∀ b ∈ l, b.batch_id ≤ l.foldl (fun m b => max m b.batch_id) init := by
    intro l
    induction l with
    | nil => intro init; simp
    | cons x xs ih =>
      intro init
      obtain ⟨h1, h2⟩ := ih (max init x.batch_id)
      refine ⟨le_trans (le_max_left _ _) h1, ?_⟩
      intro b hb
      rcases List.mem_cons.mp hb with rfl | hb
      · exact le_trans (le_max_right _ _) h1
      · exact h2 b hb
  intro b hb
  have := (key s.batches s.batchSeq).2 b hb
  unfold newBatchId
  omega

/-! ## Lemmas on consecutive numbering -/

theorem newVoucherId_gt (s : Store) : ∀ w ∈ s.vouchers, w.voucher_id < newVoucherId s := by
  have key : ∀ (l : List Voucher) (init : Nat),
      init ≤ l.foldl (fun m v => max m v.voucher_id) init ∧
      ∀ w ∈ l, w.voucher_id ≤ l.foldl (fun m v => max m v.voucher_id) init := by
    intro l
    induction l with
    | nil => intro init; simp
    | cons x xs ih =>
      intro init
      obtain ⟨h1, h2⟩ := ih (max init x.voucher_id)
      refine ⟨le_trans (le_max_left _ _) h1, ?_⟩
      intro w hw
      rcases List.mem_cons.mp hw with rfl | hw
      · exact le_trans (le_max_right _ _) h1
      · exact h2 w hw
  intro w hw
  have := (key s.vouchers s.voucherSeq).2 w hw
  unfold newVoucherId
  omega

theorem likeStart_lead (lead rest : List Char) :
    likeStart lead (String.mk (lead ++ rest)) = true := by
  unfold likeStart
  rw [List.isPrefixOf_iff_prefix]
  simp only [List.map_append]
  exact List.prefix_append _ _

theorem postOne_ok_number (rt : Runtime) (s s1 : Store) (accounts : List Account)
    (mappingRules : List MappingRule) (fuse : List Char → List (Account × Option ℚ))
    (record : RawRecord) (vid : Nat) (num : String)
    (h : postOne rt s accounts mappingRules fuse record = Except.ok (s1, vid, num)) :
    ∃ v : Voucher, s1.vouchers = s.vouchers ++ [v] ∧ v.voucher_id = newVoucherId s ∧
      v.voucher_number = nextVoucherNumber s.vouchers "LGC" rt.currentYear := by
  unfold postOne at h
  dsimp only at h
  split at h
  · exact absurd h (by simp)
  · unfold postTransaction at h
    dsimp only at h
    split at h
    · exact absurd h (by simp)
    · exact absurd h (by simp)
    · split at h
      · exact absurd h (by simp)
      · split at h
        · exact absurd h (by simp)
        · simp only [Except.ok.injEq, Prod.mk.injEq] at h
          obtain ⟨hs, -, -⟩ := h
          subst hs
          exact ⟨_, rfl, rfl, rfl⟩

theorem postStep_voucher (rt : Runtime) (batchId : Nat) (accounts : List Account)
    (mappingRules : List MappingRule) (fuse : List Char → List (Account × Option ℚ))
    (s : Store) (record : RawRecord) :
    ((postStep rt batchId accounts mappingRules fuse s record).2 = false ∧
      (postStep rt batchId accounts mappingRules fuse s record).1.vouchers = s.vouchers) ∨
    ((postStep rt batchId accounts mappingRules fuse s record).2 = true ∧
      ∃ v : Voucher,
        (postStep rt batchId accounts mappingRules fuse s record).1.vouchers
          = s.vouchers ++ [v] ∧
        v.voucher_id = newVoucherId s ∧
        v.voucher_number = nextVoucherNumber s.vouchers "LGC" rt.currentYear) := by
  unfold postStep
  split
  · rename_i s1 vid num hok
    obtain ⟨v, hv, hid, hnum⟩ := postOne_ok_number rt s s1 accounts mappingRules fuse record vid num hok
    right
    exact ⟨rfl, v, by simpa [logAudit, updateRecord] using hv, hid, hnum⟩
  · left
    simp [logAudit, updateRecord]

theorem nextVoucherNumber_append (s : Store) (year j : Nat) (v : Voucher)
    (hid : v.voucher_id = newVoucherId s)
    (hnum : v.voucher_number = legacyNumber year (j + 1)) :
    nextVoucherNumber (s.vouchers ++ [v]) "LGC" year = legacyNumber year (j + 1 + 1) := by
  have hlast : lastVoucherLike (s.vouchers ++ [v])
      ("LGC".data ++ '-' :: natToString year ++ ['-']) = some v := by
    apply lastVoucherLike_most_recent
    · simp
    · rw [hnum]
      exact likeStart_lead _ _
    · intro w hw _ hne
      rcases List.mem_append.mp hw with h1 | h1
      · rw [hid]
        exact newVoucherId_gt s w h1
      · simp only [List.mem_singleton] at h1
        exact absurd h1 hne
  have hyear : '-' ∉ natToString year := by
    intro hc
    exact isDigit_ne_dash _ (natDigits_all_digit _ _ _ hc) rfl
  have := nextVoucherNumber_after (s.vouchers ++ [v]) "LGC" year v "LGC".data
    (natToString year) (j + 1) hlast (by decide) hyear
    (by rw [hnum]; simp [legacyNumber])
  rw [this]
  rfl

theorem postLoop_numbers (rt : Runtime) (batchId : Nat) (accounts : List Account)
    (mappingRules : List MappingRule) (fuse : List Char → List (Account × Option ℚ))
    (records : List RawRecord) :
    ∀ (s : Store) (posted failed j : Nat),
      nextVoucherNumber s.vouchers "LGC" rt.currentYear = legacyNumber rt.currentYear (j + 1) →
      ∃ news : List Voucher,
        (postLoop rt batchId accounts mappingRules fuse records (s, posted, failed)).1.vouchers
          = s.vouchers ++ news ∧
        (postLoop rt batchId accounts mappingRules fuse records (s, posted, failed)).2.1
          = posted + news.length ∧
        news.map (fun v => v.voucher_number)
          = (List.range news.length).map (fun i => legacyNumber rt.currentYear (j + 1 + i)) := by
  induction records with
  | nil =>
    intro s posted failed j _
    exact ⟨[], by simp [postLoop]⟩
  | cons record rest ih =>
    intro s posted failed j hnext
    have hstep := postStep_voucher rt batchId accounts mappingRules fuse s record
    rw [postLoop]
    generalize postStep rt batchId accounts mappingRules fuse s record = ps at hstep
    obtain ⟨s1, b⟩ := ps
    rcases hstep with ⟨hb, hv⟩ | ⟨hb, v, hv, hid, hnum⟩
    · simp only at hb hv
      subst hb
      simp only
      have hnext1 : nextVoucherNumber s1.vouchers "LGC" rt.currentYear
          = legacyNumber rt.currentYear (j + 1) := by rw [hv]; exact hnext
      obtain ⟨news, h1, h2, h3⟩ := ih s1 posted (failed + 1) j hnext1
      exact ⟨news, by rw [h1, hv], h2, h3⟩
    · simp only at hb hv
      subst hb
      simp only
      rw [hnext] at hnum
      have hnext1 : nextVoucherNumber s1.vouchers "LGC" rt.currentYear
          = legacyNumber rt.currentYear (j + 1 + 1) := by
        rw [hv]
        exact nextVoucherNumber_append s rt.currentYear j v hid hnum
      obtain ⟨news, h1, h2, h3⟩ := ih s1 (posted + 1) failed (j + 1) hnext1
      refine ⟨v :: news, ?_, ?_, ?_⟩
      · rw [h1, hv]
        simp
      · rw [h2]
        simp only [List.length_cons]
        omega
      · simp only [List.map_cons, List.length_cons, List.range_succ_eq_map, List.map_map,
          h3, hnum, Nat.add_zero]
        congr 1
        apply List.map_congr_left
        intro i _
        simp only [Function.comp]
        congr 1
        omega

/-! ## Lemmas on the bulk importer -/

theorem digits12Slash_iff (cs g r : List Char) :
    digits12Slash cs = some (g, r) ↔
      (g.length = 1 ∨ g.length = 2) ∧ (∀ c ∈ g, isDigit c = true) ∧ cs = g ++ '/' :: r := by
  have hs : isDigit '/' = false := by decide
  constructor
  · intro h
    rcases cs with _ | ⟨a, _ | ⟨b, _ | ⟨c, rest⟩⟩⟩
    · simp [digits12Slash] at h
    · simp [digits12Slash] at h
    · simp only [digits12Slash] at h
      split at h
      · rename_i hc
        simp only [Bool.and_eq_true, beq_iff_eq] at hc
        simp only [Option.some.injEq, Prod.mk.injEq] at h
        obtain ⟨rfl, rfl⟩ := h
        refine ⟨Or.inl rfl, ?_, by simp [hc.2]⟩
        intro x hx
        simp only [List.mem_singleton] at hx
        rw [hx]
        exact hc.1
      · exact absurd h (by simp)
    · simp only [digits12Slash] at h
      split at h
      · rename_i hc
        simp only [Bool.and_eq_true, beq_iff_eq] at hc
        simp only [Option.some.injEq, Prod.mk.injEq] at h
        obtain ⟨rfl, rfl⟩ := h
        refine ⟨Or.inr rfl, ?_, by simp [hc.2]⟩
        intro x hx
        simp only [List.mem_cons, List.mem_singleton, List.not_mem_nil, or_false] at hx
        rcases hx with rfl | rfl
        · exact hc.1.1
        · exact hc.1.2
      · split at h
        · rename_i hc
          simp only [Bool.and_eq_true, beq_iff_eq] at hc
          simp only [Option.some.injEq, Prod.mk.injEq] at h
          obtain ⟨rfl, rfl⟩ := h
          refine ⟨Or.inl rfl, ?_, by simp [hc.2]⟩
          intro x hx
          simp only [List.mem_singleton] at hx
          rw [hx]
          exact hc.1
        · exact absurd h (by simp)
  · rintro ⟨hlen, hdig, rfl⟩
    rcases g with _ | ⟨a, _ | ⟨b, _ | ⟨c, g⟩⟩⟩
    · simp at hlen
    · have ha := hdig a (by simp)
      rcases r with _ | ⟨c, rest⟩
      · simp [digits12Slash, ha]
      · simp [digits12Slash, ha, hs]
    · have ha := hdig a (by simp)
      have hb := hdig b (by simp)
      simp [digits12Slash, ha, hb]
    · simp at hlen

theorem digits4_iff (cs g : List Char) :
    digits4 cs = some g ↔
      g.length = 4 ∧ (∀ c ∈ g, isDigit c = true) ∧ ∃ rest, cs = g ++ rest := by
  constructor
  · intro h
    rcases cs with _ | ⟨a, _ | ⟨b, _ | ⟨c, _ | ⟨d, rest⟩⟩⟩⟩
    · simp [digits4] at h
    · simp [digits4] at h
    · simp [digits4] at h
    · simp [digits4] at h
    · simp only [digits4] at h
      split at h
      · rename_i hc
        simp only [Bool.and_eq_true] at hc
        simp only [Option.some.injEq] at h
        subst h
        refine ⟨rfl, ?_, rest, rfl⟩
        intro x hx
        simp only [List.mem_cons, List.mem_singleton, List.not_mem_nil, or_false] at hx
        rcases hx with rfl | rfl | rfl | rfl
        · exact hc.1.1.1
        · exact hc.1.1.2
        · exact hc.1.2
        · exact hc.2
      · exact absurd h (by simp)
  · rintro ⟨hlen, hdig, rest, rfl⟩
    rcases g with _ | ⟨a, _ | ⟨b, _ | ⟨c, _ | ⟨d, _ | ⟨e, g⟩⟩⟩⟩⟩
    · simp at hlen
    · simp at hlen
    · simp at hlen
    · simp at hlen
    · simp [digits4, hdig a (by simp), hdig b (by simp), hdig c (by simp), hdig d (by simp)]
    · simp at hlen

theorem mdyMatch_iff (cs : List Char) (m d y : Nat) :
    mdyMatch cs = some (m, d, y) ↔ StartsWithMDY cs m d y := by
  unfold mdyMatch StartsWithMDY
  constructor
  · intro h
    split at h
    · exact absurd h (by simp)
    · rename_i g1 r1 h1
      split at h
      · exact absurd h (by simp)
      · rename_i g2 r2 h2
        split at h
        · exact absurd h (by simp)
        · rename_i g3 h3
          simp only [Option.some.injEq, Prod.mk.injEq] at h
          obtain ⟨l1, d1, e1⟩ := (digits12Slash_iff _ _ _).mp h1
          obtain ⟨l2, d2, e2⟩ := (digits12Slash_iff _ _ _).mp h2
          obtain ⟨l3, d3, rest, e3⟩ := (digits4_iff _ _).mp h3
          exact ⟨g1, g2, g3, rest, by rw [e1, e2, e3], l1, l2, l3, d1, d2, d3, h.1, h.2.1, h.2.2⟩
  · rintro ⟨g1, g2, g3, rest, rfl, l1, l2, l3, d1, d2, d3, rfl, rfl, rfl⟩
    rw [(digits12Slash_iff _ g1 _).mpr ⟨l1, d1, rfl⟩]
    simp only
    rw [(digits12Slash_iff _ g2 _).mpr ⟨l2, d2, rfl⟩]
    simp only
    rw [(digits4_iff _ g3).mpr ⟨l3, d3, rest, rfl⟩]
theorem natDigits_length_ge (fuel : Nat) :
    ∀ n d, n < fuel → 10 ^ d ≤ n → d + 1 ≤ (natDigits fuel n).length := by
  induction fuel with
  | zero => intro n d h _; omega
  | succ fuel ih =>
    intro n d hn hd
    rw [natDigits]
    split
    · rename_i hlt
      rcases d with _ | e
      · simp
      · have : 10 ≤ 10 ^ (e + 1) := by
          calc 10 = 10 ^ 1 := by norm_num
            _ ≤ 10 ^ (e + 1) := Nat.pow_le_pow_right (by decide) (by omega)
        omega
    · rename_i hge
      rcases d with _ | e
      · simp
      · have h1 : 10 ^ e ≤ n / 10 := by
          rw [Nat.le_div_iff_mul_le (by decide)]
          rw [pow_succ] at hd
          exact hd
        have h2 : n / 10 < fuel := by omega
        have := ih (n / 10) e h2 h1
        simp only [List.length_append, List.length_singleton]
        omega

theorem natToString_length_four (y : Nat) (h1 : 1000 ≤ y) (h2 : y ≤ 9999) :
    (natToString y).length = 4 := by
  have hle := natDigits_length_le (y + 1) y 4 (by decide) (by omega)
  have hge := natDigits_length_ge (y + 1) y 3 (by omega) (by norm_num; omega)
  unfold natToString
  omega

theorem padStart_two_length (n : Nat) (h : n ≤ 99) : (padStart 2 (natToString n)).length = 2 := by
  have hle := natDigits_length_le (n + 1) n 2 (by decide) (by omega)
  unfold padStart natToString
  simp only [List.length_append, List.length_replicate]
  omega

theorem entryCheck_nonneg (a : ℚ) (h : 0 ≤ a) : entryCheck a 0 = true ∧ entryCheck 0 a = true := by
  rcases h.lt_or_eq with hpos | hzero
  · simp [entryCheck, hpos]
  · subst hzero
    simp [entryCheck]

theorem importer_amountOf_nonneg (rt : Runtime) (entry : Importer.Row) :
    0 ≤ Importer.amountOf rt entry := abs_nonneg _

theorem importer_entryStep_spec (rt : Runtime) (maps : Importer.Maps) (trNo : String)
    (voucherId : Nat) (debitId creditId : Importer.Row → Nat → Nat)
    (entry : Importer.Row) (st : Importer.State) :
    (Importer.entryStep rt maps trNo voucherId debitId creditId entry st).2 = none ∧
    (Importer.entryStep rt maps trNo voucherId debitId creditId entry st).1.db.entries
      = st.db.entries ++ Importer.expectedEntries rt maps voucherId debitId creditId [entry] ∧
    (Importer.entryStep rt maps trNo voucherId debitId creditId entry st).1.db.vouchers
      = st.db.vouchers := by
  have hc := entryCheck_nonneg _ (importer_amountOf_nonneg rt entry)
  unfold Importer.entryStep
  cases hf : Importer.findAccount maps entry with
  | none => simp [Importer.expectedEntries, hf]
  | some account => simp [Importer.insertEntry, hc.1, hc.2, Importer.expectedEntries, hf]

theorem importer_expectedEntries_cons (rt : Runtime) (maps : Importer.Maps) (voucherId : Nat)
    (debitId creditId : Importer.Row → Nat → Nat) (entry : Importer.Row)
    (rest : List Importer.Row) :
    Importer.expectedEntries rt maps voucherId debitId creditId (entry :: rest)
      = Importer.expectedEntries rt maps voucherId debitId creditId [entry] ++
        Importer.expectedEntries rt maps voucherId debitId creditId rest := by
  simp [Importer.expectedEntries]

theorem importer_entryLoop_spec (rt : Runtime) (maps : Importer.Maps) (trNo : String)
    (voucherId : Nat) (debitId creditId : Importer.Row → Nat → Nat)
    (entries : List Importer.Row) :
    ∀ st : Importer.State,
      (Importer.entryLoop rt maps trNo voucherId debitId creditId entries st).2 = none ∧
      (Importer.entryLoop rt maps trNo voucherId debitId creditId entries st).1.db.entries
        = st.db.entries ++ Importer.expectedEntries rt maps voucherId debitId creditId entries ∧
      (Importer.entryLoop rt maps trNo voucherId debitId creditId entries st).1.db.vouchers
        = st.db.vouchers := by
  induction entries with
  | nil =>
    intro st
    exact ⟨rfl, by simp [Importer.entryLoop, Importer.expectedEntries], rfl⟩
  | cons entry rest ih =>
    intro st
    obtain ⟨h1, h2, h3⟩ := importer_entryStep_spec rt maps trNo voucherId debitId creditId entry st
    rw [Importer.entryLoop]
    generalize Importer.entryStep rt maps trNo voucherId debitId creditId entry st = r at h1 h2 h3
    obtain ⟨st1, e⟩ := r
    simp only at h1 h2 h3
    subst h1
    simp only
    obtain ⟨i1, i2, i3⟩ := ih st1
    refine ⟨i1, ?_, ?_⟩
    · rw [i2, h2, List.append_assoc]
      congr 1
      exact (importer_expectedEntries_cons rt maps voucherId debitId creditId entry rest).symm
    · rw [i3, h3]

theorem importer_createEntries_spec (rt : Runtime) (maps : Importer.Maps) (trNo vtype : String)
    (voucherId : Nat) (entries : List Importer.Row) (st : Importer.State) :
    ∃ debitId creditId : Importer.Row → Nat → Nat,
      (Importer.createEntries rt maps trNo vtype voucherId entries st).2 = none ∧
      (Importer.createEntries rt maps trNo vtype voucherId entries st).1.db.entries
        = st.db.entries ++ Importer.expectedEntries rt maps voucherId debitId creditId entries ∧
      (Importer.createEntries rt maps trNo vtype voucherId entries st).1.db.vouchers
        = st.db.vouchers := by
  unfold Importer.createEntries
  split_ifs
  all_goals exact ⟨_, _, importer_entryLoop_spec rt maps trNo voucherId _ _ entries st⟩

theorem debitTotal_append (es fs : List VoucherEntry) (v : Nat) :
    debitTotal (es ++ fs) v = debitTotal es v + debitTotal fs v := by
  simp [debitTotal]

theorem creditTotal_append (es fs : List VoucherEntry) (v : Nat) :
    creditTotal (es ++ fs) v = creditTotal es v + creditTotal fs v := by
  simp [creditTotal]

theorem importer_expectedEntries_balanced (rt : Runtime) (maps : Importer.Maps) (voucherId : Nat)
    (debitId creditId : Importer.Row → Nat → Nat) (entries : List Importer.Row) (v : Nat) :
    debitTotal (Importer.expectedEntries rt maps voucherId debitId creditId entries) v
      = creditTotal (Importer.expectedEntries rt maps voucherId debitId creditId entries) v := by
  induction entries with
  | nil => simp [Importer.expectedEntries, debitTotal, creditTotal]
  | cons entry rest ih =>
    rw [importer_expectedEntries_cons, debitTotal_append, creditTotal_append, ih]
    congr 1
    cases hf : Importer.findAccount maps entry with
    | none => simp [Importer.expectedEntries, hf, debitTotal, creditTotal]
    | some account =>
      by_cases hv : voucherId = v
      · simp [Importer.expectedEntries, hf, debitTotal, creditTotal, hv]
      · simp [Importer.expectedEntries, hf, debitTotal, creditTotal, hv]

theorem importer_processGroup_balanced (rt : Runtime) (maps : Importer.Maps) (st : Importer.State)
    (trNo : String) (entries : List Importer.Row)
    (h : ∀ v, debitTotal st.db.entries v = creditTotal st.db.entries v) :
    ∀ v, debitTotal (Importer.processGroup rt maps st trNo entries).db.entries v
      = creditTotal (Importer.processGroup rt maps st trNo entries).db.entries v := by
  intro v
  unfold Importer.processGroup
  split
  · exact h v
  · rename_i firstEntry tail
    dsimp only
    generalize Importer.getNextVoucherNumber st.counters _ _ = numbered
    by_cases hu : (st.db.vouchers.any fun w => w.voucher_number == numbered.1) = true
    · rw [if_pos hu]
      exact h v
    · rw [if_neg hu]
      split
      · rename_i st3 hce
        obtain ⟨debitId, creditId, -, h2, -⟩ := importer_createEntries_spec rt maps trNo
          firstEntry.VType _ (firstEntry :: tail) _
        rw [hce] at h2
        simp only at h2 ⊢
        rw [h2, debitTotal_append, creditTotal_append, h v,
          importer_expectedEntries_balanced]
      · rename_i st3 msg hce
        obtain ⟨debitId, creditId, h1, -, -⟩ := importer_createEntries_spec rt maps trNo
          firstEntry.VType _ (firstEntry :: tail) _
        rw [hce] at h1
        exact absurd h1 (by simp)

theorem importer_groupLoop_balanced (rt : Runtime) (maps : Importer.Maps)
    (trGroups : List (String × List Importer.Row)) :
    ∀ st : Importer.State, (∀ v, debitTotal st.db.entries v = creditTotal st.db.entries v) →
      ∀ v, debitTotal (Importer.groupLoop rt maps trGroups st).db.entries v
        = creditTotal (Importer.groupLoop rt maps trGroups st).db.entries v := by
  induction trGroups with
  | nil => intro st h; exact h
  | cons g rest ih =>
    intro st h
    obtain ⟨trNo, entries⟩ := g
    rw [Importer.groupLoop]
    exact ih _ (importer_processGroup_balanced rt maps st trNo entries h)

/-! ## Lemmas on mapping rules -/

theorem mem_getMappingRules (s : Store) (r : MappingRule) :
    r ∈ getMappingRules s ↔
      r ∈ s.rules ∧ ∃ a ∈ s.accounts, a.account_id = r.mapped_account_id := by
  unfold getMappingRules
  rw [(List.perm_insertionSort _ _).mem_iff]
  simp [List.mem_filter]

/-! ## Lemmas on the voucher service -/

theorem errorOf_eq_some {α : Type} (x : Except String α) (msg : String)
    (h : errorOf x = some msg) : x = Except.error msg := by
  cases x with
  | error m => simp only [errorOf, Option.some.injEq] at h; rw [h]
  | ok a => simp [errorOf] at h

theorem pow2_pos (e : Int) : 0 < pow2 e := by
  unfold pow2
  split
  · positivity
  · positivity

theorem roundHalfEven_nonneg (x : ℚ) (h : 0 ≤ x) : 0 ≤ roundHalfEven x := by
  have hf : (0 : Int) ≤ ⌊x⌋ := Int.floor_nonneg.mpr h
  unfold roundHalfEven
  dsimp only
  split
  · exact hf
  · split
    · omega
    · split
      · exact hf
      · omega

theorem roundToDouble_ne_nan (q : ℚ) : roundToDouble q ≠ Float64.nan := by
  unfold roundToDouble
  dsimp only
  split
  · simp
  · split
    · split <;> simp
    · simp

/-- Rounding a number that is not negative gives the positive infinity or a finite
value from 0 on. -/
theorem roundToDouble_nonneg (q : ℚ) (h : 0 ≤ q) :
    roundToDouble q = Float64.posInf ∨ ∃ r, 0 ≤ r ∧ roundToDouble q = Float64.fin r := by
  unfold roundToDouble
  dsimp only
  split
  · exact Or.inr ⟨0, le_refl 0, rfl⟩
  · have hq : ¬ q < 0 := not_lt.mpr h
    simp only [hq, if_false]
    split
    · left
      rfl
    · right
      refine ⟨_, ?_, rfl⟩
      apply mul_nonneg
      · exact_mod_cast roundHalfEven_nonneg _
          (div_nonneg (abs_nonneg q) (pow2_pos _).le)
      · exact (pow2_pos _).le

/-- The rounding at known values: 0.1 + 0.2 is 0.30000000000000004, the integer
2^53 + 1 rounds to 2^53 and 2^53 + 3 to 2^53 + 4 (ties to even), 10^400 overflows to
the infinity and 10^-400 underflows to 0. -/
theorem roundToDouble_examples :
    (roundToDouble (1 / 10)).add (roundToDouble (2 / 10))
      = Float64.fin (5404319552844596 / 18014398509481984) ∧
    roundToDouble 9007199254740993 = Float64.fin 9007199254740992 ∧
    roundToDouble 9007199254740995 = Float64.fin 9007199254740996 ∧
    roundToDouble (10 ^ 400) = Float64.posInf ∧
    roundToDouble (1 / 10 ^ 400) = Float64.fin 0 := by
  refine ⟨?_, ?_, ?_, ?_, ?_⟩ <;> decide!

theorem amountOrZero_ne_nan (rt : Runtime) (x : JsValue) : amountOrZero rt x ≠ Float64.nan := by
  unfold amountOrZero
  split
  · simp
  · exact roundToDouble_ne_nan _

theorem Float64.lt_zero_cases (d : Float64) (h : d ≠ Float64.nan) :
    d.lt (Float64.fin 0) = true ∨ d = Float64.fin 0 ∨ Float64.lt (Float64.fin 0) d = true := by
  cases d with
  | nan => exact absurd rfl h
  | posInf => right; right; rfl
  | negInf => left; rfl
  | fin q =>
    rcases lt_trichotomy q 0 with hq | hq | hq
    · left; simp [Float64.lt, hq]
    · right; left; rw [hq]
    · right; right; simp [Float64.lt, hq]

theorem Float64.lt_zero_asymm (d : Float64) (h : Float64.lt (Float64.fin 0) d = true) :
    d.lt (Float64.fin 0) = false ∧ d ≠ Float64.fin 0 := by
  cases d with
  | nan => simp [Float64.lt] at h
  | posInf => simp [Float64.lt]
  | negInf => simp [Float64.lt] at h
  | fin q =>
    simp only [Float64.lt, decide_eq_true_eq] at h
    refine ⟨by simp [Float64.lt, h.le], ?_⟩
    intro hc
    simp only [Float64.fin.injEq] at hc
    rw [hc] at h
    exact lt_irrefl 0 h

theorem Float64.le_iff_not_lt (x : Float64) (t : ℚ) (hx : x ≠ Float64.nan) :
    x.le (Float64.fin t) = true ↔ ¬ (Float64.lt (Float64.fin t) x = true) := by
  cases x with
  | nan => exact absurd rfl hx
  | posInf => simp [Float64.le, Float64.lt]
  | negInf => simp [Float64.le, Float64.lt]
  | fin q => simp [Float64.le, Float64.lt]

/-- The sum of two numbers that are not negative (the positive infinity or a finite
value from 0 on) is not negative. -/
theorem Float64.add_nonnegative (a b : Float64)
    (ha : a = Float64.posInf ∨ ∃ r, 0 ≤ r ∧ a = Float64.fin r)
    (hb : b = Float64.posInf ∨ ∃ r, 0 ≤ r ∧ b = Float64.fin r) :
    a.add b = Float64.posInf ∨ ∃ r, 0 ≤ r ∧ a.add b = Float64.fin r := by
  rcases ha with rfl | ⟨x, hx, rfl⟩ <;> rcases hb with rfl | ⟨y, hy, rfl⟩
  · left; rfl
  · left; rfl
  · left; rfl
  · exact roundToDouble_nonneg (x + y) (add_nonneg hx hy)

theorem Float64.nonneg_of_zero_lt (d : Float64) (h : Float64.lt (Float64.fin 0) d = true) :
    d = Float64.posInf ∨ ∃ r, 0 ≤ r ∧ d = Float64.fin r := by
  cases d with
  | nan => simp [Float64.lt] at h
  | posInf => left; rfl
  | negInf => simp [Float64.lt] at h
  | fin q =>
    simp only [Float64.lt, decide_eq_true_eq] at h
    exact Or.inr ⟨q, h.le, rfl⟩

theorem oneSided_nonneg (rt : Runtime) (e : EntryInput) (h : OneSided rt e) :
    (amountOrZero rt e.debit_amount = Float64.posInf ∨
      ∃ r, 0 ≤ r ∧ amountOrZero rt e.debit_amount = Float64.fin r) ∧
    (amountOrZero rt e.credit_amount = Float64.posInf ∨
      ∃ r, 0 ≤ r ∧ amountOrZero rt e.credit_amount = Float64.fin r) := by
  rcases h with ⟨h1, h2⟩ | ⟨h1, h2⟩
  · exact ⟨Float64.nonneg_of_zero_lt _ h1, Or.inr ⟨0, le_refl 0, h2⟩⟩
  · exact ⟨Or.inr ⟨0, le_refl 0, h2⟩, Float64.nonneg_of_zero_lt _ h1⟩

theorem totals_nonneg (rt : Runtime) (es : List EntryInput) :
    ∀ d c : Float64, (∀ e ∈ es, OneSided rt e) →
      (d = Float64.posInf ∨ ∃ r, 0 ≤ r ∧ d = Float64.fin r) →
      (c = Float64.posInf ∨ ∃ r, 0 ≤ r ∧ c = Float64.fin r) →
      (es.foldl (fun total e => total.add (amountOrZero rt e.debit_amount)) d = Float64.posInf ∨
        ∃ r, 0 ≤ r ∧
          es.foldl (fun total e => total.add (amountOrZero rt e.debit_amount)) d = Float64.fin r) ∧
      (es.foldl (fun total e => total.add (amountOrZero rt e.credit_amount)) c = Float64.posInf ∨
        ∃ r, 0 ≤ r ∧
          es.foldl (fun total e => total.add (amountOrZero rt e.credit_amount)) c
            = Float64.fin r) := by
  induction es with
  | nil => intro d c _ hd hc; exact ⟨hd, hc⟩
  | cons e rest ih =>
    intro d c hone hd hc
    have ho := oneSided_nonneg rt e (hone e (List.mem_cons_self _ _))
    simp only [List.foldl_cons]
    exact ih _ _ (fun x hx => hone x (List.mem_cons_of_mem _ hx))
      (Float64.add_nonnegative d _ hd ho.1) (Float64.add_nonnegative c _ hc ho.2)

theorem Float64.abs_sub_ne_nan (a b : Float64)
    (ha : a = Float64.posInf ∨ ∃ r, 0 ≤ r ∧ a = Float64.fin r)
    (hb : b = Float64.posInf ∨ ∃ r, 0 ≤ r ∧ b = Float64.fin r)
    (hinf : ¬ (a = Float64.posInf ∧ b = Float64.posInf)) :
    (a.sub b).abs ≠ Float64.nan := by
  rcases ha with rfl | ⟨x, _, rfl⟩ <;> rcases hb with rfl | ⟨y, _, rfl⟩
  · exact absurd ⟨rfl, rfl⟩ hinf
  · simp [Float64.sub, Float64.neg, Float64.add, Float64.abs]
  · simp [Float64.sub, Float64.neg, Float64.add, Float64.abs]
  · simp only [Float64.sub, Float64.neg, Float64.add]
    have h := roundToDouble_ne_nan (x + -y)
    cases hr : roundToDouble (x + -y) with
    | nan => exact absurd hr h
    | posInf => simp [Float64.abs]
    | negInf => simp [Float64.abs]
    | fin q => simp [Float64.abs]

theorem balanceTolerance_eq :
    roundToDouble (1 / 100) = Float64.fin (5764607523034235 / 576460752303423488) := by
  decide!

theorem validateEntryLoop_ok (rt : Runtime) (es : List EntryInput) :
    ∀ d c : Float64, (∀ e ∈ es, idTruthy e.account_id = true) → (∀ e ∈ es, OneSided rt e) →
      validateEntryLoop rt es (d, c) = Except.ok
        (es.foldl (fun total e => total.add (amountOrZero rt e.debit_amount)) d,
         es.foldl (fun total e => total.add (amountOrZero rt e.credit_amount)) c) := by
  induction es with
  | nil => intro d c _ _; simp [validateEntryLoop]
  | cons e rest ih =>
    intro d c hacc hone
    have ha := hacc e (List.mem_cons_self _ _)
    have ho := hone e (List.mem_cons_self _ _)
    have hrest := ih (d.add (amountOrZero rt e.debit_amount))
      (c.add (amountOrZero rt e.credit_amount))
      (fun x hx => hacc x (List.mem_cons_of_mem _ hx))
      (fun x hx => hone x (List.mem_cons_of_mem _ hx))
    rw [validateEntryLoop]
    simp only [ha, Bool.not_true, Bool.false_eq_true, if_false]
    have h1 : ¬ ((amountOrZero rt e.debit_amount).lt (Float64.fin 0) = true ∨
        (amountOrZero rt e.credit_amount).lt (Float64.fin 0) = true) := by
      rcases ho with ⟨h, h0⟩ | ⟨h, h0⟩
      · rw [h0, (Float64.lt_zero_asymm _ h).1]
        simp [Float64.lt]
      · rw [h0, (Float64.lt_zero_asymm _ h).1]
        simp [Float64.lt]
    have h2 : ¬ (Float64.lt (Float64.fin 0) (amountOrZero rt e.debit_amount) = true ∧
        Float64.lt (Float64.fin 0) (amountOrZero rt e.credit_amount) = true) := by
      rcases ho with ⟨_, h0⟩ | ⟨_, h0⟩
      · rw [h0]; simp [Float64.lt]
      · rw [h0]; simp [Float64.lt]
    have h3 : ¬ (amountOrZero rt e.debit_amount = Float64.fin 0 ∧
        amountOrZero rt e.credit_amount = Float64.fin 0) := by
      rcases ho with ⟨h, _⟩ | ⟨h, _⟩
      · exact fun hc => (Float64.lt_zero_asymm _ h).2 hc.1
      · exact fun hc => (Float64.lt_zero_asymm _ h).2 hc.2
    rw [if_neg h1, if_neg h2, if_neg h3, hrest]
    simp only [List.foldl_cons]

theorem validateEntryLoop_ok_inv (rt : Runtime) (es : List EntryInput) :
    ∀ (d c : Float64) (acc : Float64 × Float64),
      validateEntryLoop rt es (d, c) = Except.ok acc →
      (∀ e ∈ es, idTruthy e.account_id = true) ∧ (∀ e ∈ es, OneSided rt e) := by
  induction es with
  | nil => intro d c acc _; simp
  | cons e rest ih =>
    intro d c acc h
    rw [validateEntryLoop] at h
    split at h
    · exact absurd h (by simp)
    · rename_i ha
      dsimp only at h
      split at h
      · exact absurd h (by simp)
      · rename_i h1
        split at h
        · exact absurd h (by simp)
        · rename_i h2
          split at h
          · exact absurd h (by simp)
          · rename_i h3
            obtain ⟨i1, i2⟩ := ih _ _ acc h
            have hacc : idTruthy e.account_id = true := by simpa using ha
            have hone : OneSided rt e := by
              unfold OneSided
              simp only [not_or] at h1
              rcases Float64.lt_zero_cases _ (amountOrZero_ne_nan rt e.debit_amount)
                with hd | hd | hd
              · exact absurd hd h1.1
              · rcases Float64.lt_zero_cases _ (amountOrZero_ne_nan rt e.credit_amount)
                  with hc | hc | hc
                · exact absurd hc h1.2
                · exact absurd ⟨hd, hc⟩ h3
                · exact Or.inr ⟨hc, hd⟩
              · rcases Float64.lt_zero_cases _ (amountOrZero_ne_nan rt e.credit_amount)
                  with hc | hc | hc
                · exact absurd hc h1.2
                · exact Or.inl ⟨hd, hc⟩
                · exact absurd ⟨hd, hc⟩ h2
            constructor
            · intro x hx
              rcases List.mem_cons.mp hx with rfl | hx
              · exact hacc
              · exact i1 x hx
            · intro x hx
              rcases List.mem_cons.mp hx with rfl | hx
              · exact hone
              · exact i2 x hx

theorem validateVoucherEntries_total (rt : Runtime) (es : List EntryInput) (total : Float64)
    (h : validateVoucherEntries rt (some es) = Except.ok total) :
    2 ≤ es.length ∧ (∀ e ∈ es, idTruthy e.account_id = true) ∧ (∀ e ∈ es, OneSided rt e) ∧
    ¬ (balanceTolerance.lt ((totalDebit rt es).sub (totalCredit rt es)).abs = true) ∧
    total = totalDebit rt es := by
  unfold validateVoucherEntries at h
  dsimp only at h
  split at h
  · exact absurd h (by simp)
  · rename_i hlen
    split at h
    · exact absurd h (by simp)
    · rename_i td tc hloop
      obtain ⟨i1, i2⟩ := validateEntryLoop_ok_inv rt es _ _ _ hloop
      rw [validateEntryLoop_ok rt es _ _ i1 i2] at hloop
      simp only [Except.ok.injEq, Prod.mk.injEq] at hloop
      split at h
      · exact absurd h (by simp)
      · rename_i hbal
        simp only [Except.ok.injEq] at h
        rw [← hloop.1, ← hloop.2] at hbal
        exact ⟨by omega, i1, i2, hbal, by rw [← h, ← hloop.1]; rfl⟩

theorem validateVoucherEntries_of_spec (rt : Runtime) (es : List EntryInput)
    (hlen : 2 ≤ es.length) (i1 : ∀ e ∈ es, idTruthy e.account_id = true)
    (i2 : ∀ e ∈ es, OneSided rt e)
    (hbal : ¬ (balanceTolerance.lt ((totalDebit rt es).sub (totalCredit rt es)).abs = true)) :
    validateVoucherEntries rt (some es) = Except.ok (totalDebit rt es) := by
  unfold totalDebit totalCredit at hbal
  unfold validateVoucherEntries
  dsimp only
  rw [if_neg (by omega), validateEntryLoop_ok rt es _ _ i1 i2]
  dsimp only
  rw [if_neg hbal]
  rfl

theorem validateVoucherEntries_ok_iff (rt : Runtime) (es : List EntryInput) (total : Float64)
    (hinf : ¬ (totalDebit rt es = Float64.posInf ∧ totalCredit rt es = Float64.posInf)) :
    validateVoucherEntries rt (some es) = Except.ok total ↔
      SpecValidEntries rt es ∧ total = totalDebit rt es := by
  unfold SpecValidEntries
  constructor
  · intro h
    obtain ⟨hlen, i1, i2, hbal, htot⟩ := validateVoucherEntries_total rt es total h
    refine ⟨⟨hlen, i1, i2, ?_⟩, htot⟩
    have hnn : (totalDebit rt es = Float64.posInf ∨
          ∃ r, 0 ≤ r ∧ totalDebit rt es = Float64.fin r) ∧
        (totalCredit rt es = Float64.posInf ∨
          ∃ r, 0 ≤ r ∧ totalCredit rt es = Float64.fin r) :=
      totals_nonneg rt es (Float64.fin 0) (Float64.fin 0) i2
        (Or.inr ⟨0, le_refl 0, rfl⟩) (Or.inr ⟨0, le_refl 0, rfl⟩)
    rw [balanceTolerance_eq]
    rw [Float64.le_iff_not_lt _ _
      (Float64.abs_sub_ne_nan (totalDebit rt es) (totalCredit rt es) hnn.1 hnn.2 hinf)]
    rw [← balanceTolerance_eq]
    exact hbal
  · rintro ⟨⟨hlen, i1, i2, hbal⟩, rfl⟩
    apply validateVoucherEntries_of_spec rt es hlen i1 i2
    have hnn : (totalDebit rt es = Float64.posInf ∨
          ∃ r, 0 ≤ r ∧ totalDebit rt es = Float64.fin r) ∧
        (totalCredit rt es = Float64.posInf ∨
          ∃ r, 0 ≤ r ∧ totalCredit rt es = Float64.fin r) :=
      totals_nonneg rt es (Float64.fin 0) (Float64.fin 0) i2
        (Or.inr ⟨0, le_refl 0, rfl⟩) (Or.inr ⟨0, le_refl 0, rfl⟩)
    rw [balanceTolerance_eq] at hbal
    rw [Float64.le_iff_not_lt _ _
      (Float64.abs_sub_ne_nan (totalDebit rt es) (totalCredit rt es) hnn.1 hnn.2 hinf)] at hbal
    unfold balanceTolerance
    rw [balanceTolerance_eq]
    exact hbal

/-! ## Lemmas on the transaction wrapper -/

theorem exec_inside_transaction (body : Prog) :
    ∀ (db : AppDatabase) (d0 : Store), body.reenters = false → db.inTransaction = true →
      db.txn = some d0 →
      (body.exec db).1.inTransaction = true ∧ (body.exec db).1.txn = some d0 ∧
      (body.exec db).1.file = db.file ∧ (body.exec db).1.saves = db.saves := by
  induction body with
  | ret value => intro db d0 _ h1 h2; exact ⟨h1, h2, rfl, rfl⟩
  | throw msg => intro db d0 _ h1 h2; exact ⟨h1, h2, rfl, rfl⟩
  | run stmt next ih =>
    intro db d0 hr h1 h2
    simp only [Prog.reenters] at hr
    rw [Prog.exec]
    unfold AppDatabase.run
    cases hs : stmt db.data with
    | error msg => exact ⟨h1, h2, rfl, rfl⟩
    | ok d =>
      simp only [h1, if_true]
      exact ih { db with data := d, inTransaction := true } d0 hr rfl h2
  | transaction body next _ _ =>
    intro db d0 hr
    simp [Prog.reenters] at hr
  | tryCatch body next ihb ihn =>
    intro db d0 hr h1 h2
    simp only [Prog.reenters, Bool.or_eq_false_iff] at hr
    rw [Prog.exec]
    obtain ⟨b1, b2, b3, b4⟩ := ihb db d0 hr.1 h1 h2
    obtain ⟨n1, n2, n3, n4⟩ := ihn (body.exec db).1 d0 hr.2 b1 b2
    exact ⟨n1, n2, n3.trans b3, n4.trans b4⟩

/-! ## Lemmas on the audit log -/

theorem auditLog_normalizeLoop (rt : Runtime) (records : List RawRecord) :
    ∀ acc : Store × Nat × Nat, (normalizeLoop rt records acc).1.auditLog = acc.1.auditLog := by
  induction records with
  | nil => intro acc; rfl
  | cons record rest ih =>
    rintro ⟨s, n, f⟩
    rw [normalizeLoop]
    split <;> rw [ih] <;> rfl

theorem auditLog_validateLoop (rt : Runtime) (accounts : List Account)
    (mappingRules : List MappingRule) (fuse : List Char → List (Account × Option ℚ))
    (records : List RawRecord) :
    ∀ acc : Store × Nat × Nat,
      (validateLoop rt accounts mappingRules fuse records acc).1.auditLog = acc.1.auditLog := by
  induction records with
  | nil => intro acc; rfl
  | cons record rest ih =>
    rintro ⟨s, n, f⟩
    rw [validateLoop]
    dsimp only
    split <;> rw [ih] <;> rfl

theorem postStep_auditLog (rt : Runtime) (batchId : Nat) (accounts : List Account)
    (mappingRules : List MappingRule) (fuse : List Char → List (Account × Option ℚ))
    (s : Store) (record : RawRecord) :
    ∃ e : AuditEntry,
      (postStep rt batchId accounts mappingRules fuse s record).1.auditLog = s.auditLog ++ [e] ∧
      e.raw_id = some record.raw_id ∧ e.batch_id = some batchId ∧
      (e.action_taken = "RECORD_POSTED" ∨ e.action_taken = "RECORD_FAILED") := by
  unfold postStep
  split
  · rename_i s1 vid num hok
    obtain ⟨p, -, -, -, -, -, -, -, -, ha, -⟩ :=
      postOne_ok rt s s1 accounts mappingRules fuse record vid num hok
    exact ⟨{ batch_id := some batchId, raw_id := some record.raw_id,
             action_taken := "RECORD_POSTED",
             details := String.mk ("Created voucher ".data ++ num.data), warnings := none,
             final_voucher_id := some vid },
      by simp only [logAudit, updateRecord, ha], rfl, rfl, Or.inl rfl⟩
  · rename_i msg _
    exact ⟨{ batch_id := some batchId, raw_id := some record.raw_id,
             action_taken := "RECORD_FAILED", details := msg, warnings := none,
             final_voucher_id := none },
      by simp only [logAudit, updateRecord], rfl, rfl, Or.inr rfl⟩

theorem postLoop_auditLog (rt : Runtime) (batchId : Nat) (accounts : List Account)
    (mappingRules : List MappingRule) (fuse : List Char → List (Account × Option ℚ))
    (records : List RawRecord) :
    ∀ acc : Store × Nat × Nat, ∃ added : List AuditEntry,
      (postLoop rt batchId accounts mappingRules fuse records acc).1.auditLog
        = acc.1.auditLog ++ added ∧
      added.map (fun e => e.raw_id) = records.map (fun r => some r.raw_id) ∧
      ∀ e ∈ added, e.batch_id = some batchId ∧
        (e.action_taken = "RECORD_POSTED" ∨ e.action_taken = "RECORD_FAILED") := by
  induction records with
  | nil => intro acc; exact ⟨[], by simp [postLoop]⟩
  | cons record rest ih =>
    rintro ⟨s, n, f⟩
    obtain ⟨e, h1, h2, h3, h4⟩ := postStep_auditLog rt batchId accounts mappingRules fuse s record
    rw [postLoop]
    generalize postStep rt batchId accounts mappingRules fuse s record = ps at h1
    obtain ⟨s1, b⟩ := ps
    simp only at h1
    have key : ∀ acc2 : Nat × Nat, ∃ added : List AuditEntry,
        (postLoop rt batchId accounts mappingRules fuse rest (s1, acc2)).1.auditLog
          = s.auditLog ++ added ∧
        added.map (fun e => e.raw_id) = (record :: rest).map (fun r => some r.raw_id) ∧
        ∀ e ∈ added, e.batch_id = some batchId ∧
          (e.action_taken = "RECORD_POSTED" ∨ e.action_taken = "RECORD_FAILED") := by
      intro acc2
      obtain ⟨added, i1, i2, i3⟩ := ih (s1, acc2)
      refine ⟨e :: added, ?_, ?_, ?_⟩
      · rw [i1]
        simp only [h1, List.append_assoc, List.singleton_append]
      · simp only [List.map_cons, h2, i2]
      · intro x hx
        rcases List.mem_cons.mp hx with rfl | hx
        · exact ⟨h3, h4⟩
        · exact i3 x hx
    cases b with
    | true => exact key _
    | false => exact key _

/-! ## Lemmas on failures at posting -/

theorem postOne_unresolved (rt : Runtime) (s : Store) (accounts : List Account)
    (mappingRules : List MappingRule) (fuse : List Char → List (Account × Option ℚ)) (record : RawRecord)
    (h : idTruthy (findAccountMatch rt record.detected_debit_account accounts mappingRules fuse)
          = false ∨
        idTruthy (findAccountMatch rt record.detected_credit_account accounts mappingRules fuse)
          = false) :
    postOne rt s accounts mappingRules fuse record = Except.error "Account mapping incomplete" := by
  unfold postOne
  dsimp only
  rw [if_pos]
  rcases h with h | h <;> simp [h]

theorem postOne_withoutRecord (rt : Runtime) (s : Store) (rawId : Nat) (accounts : List Account)
    (mappingRules : List MappingRule) (fuse : List Char → List (Account × Option ℚ))
    (record : RawRecord) :
    postOne rt (withoutRecord s rawId) accounts mappingRules fuse record
      = match postOne rt s accounts mappingRules fuse record with
        | Except.ok (s1, vid, num) => Except.ok (withoutRecord s1 rawId, vid, num)
        | Except.error msg => Except.error msg := by
  unfold postOne
  dsimp only
  split
  · rfl
  · unfold postTransaction
    dsimp only
    have hv : (withoutRecord s rawId).vouchers = s.vouchers := rfl
    have hn : newVoucherId (withoutRecord s rawId) = newVoucherId s := rfl
    rw [hv, hn]
    split
    · rfl
    · rfl
    · split
      · rfl
      · split
        · rfl
        · rfl

theorem withoutRecord_updateRecord_ne (s : Store) (rawId other : Nat) (f : RawRecord → RawRecord)
    (hf : ∀ r, (f r).raw_id = r.raw_id) :
    withoutRecord (updateRecord s other f) rawId = updateRecord (withoutRecord s rawId) other f := by
  unfold withoutRecord updateRecord
  simp only [List.filter_map]
  congr 2
  apply List.filter_congr
  intro r _
  simp only [Function.comp]
  by_cases h : r.raw_id = other
  · simp [h, hf r]
  · simp [h]

theorem withoutRecord_updateRecord_self (s : Store) (rawId : Nat) (f : RawRecord → RawRecord)
    (hf : ∀ r, (f r).raw_id = r.raw_id) :
    withoutRecord (updateRecord s rawId f) rawId = withoutRecord s rawId := by
  rw [withoutRecord_updateRecord_ne s rawId rawId f hf]
  unfold withoutRecord updateRecord
  simp only
  congr 1
  conv_rhs => rw [← List.map_id (s.rawRecords.filter (fun r => decide (r.raw_id ≠ rawId)))]
  apply List.map_congr_left
  intro r hr
  have := (List.mem_filter.mp hr).2
  simp only [ne_eq, decide_not, Bool.not_eq_true', decide_eq_false_iff_not] at this
  simp [this]

theorem withoutRecord_logAudit_ne (s : Store) (rawId other : Nat) (batchId : Option Nat)
    (action details : String) (warnings : Option String) (voucherId : Option Nat)
    (hne : other ≠ rawId) :
    withoutRecord (logAudit s batchId (some other) action details warnings voucherId) rawId
      = logAudit (withoutRecord s rawId) batchId (some other) action details warnings voucherId := by
  simp [withoutRecord, logAudit, hne]

theorem withoutRecord_logAudit_self (s : Store) (rawId : Nat) (batchId : Option Nat)
    (action details : String) (warnings : Option String) (voucherId : Option Nat) :
    withoutRecord (logAudit s batchId (some rawId) action details warnings voucherId) rawId
      = withoutRecord s rawId := by
  simp [withoutRecord, logAudit]

theorem postStep_withoutRecord_ne (rt : Runtime) (batchId : Nat) (accounts : List Account)
    (mappingRules : List MappingRule) (fuse : List Char → List (Account × Option ℚ))
    (s : Store) (rawId : Nat) (record : RawRecord) (hne : record.raw_id ≠ rawId) :
    postStep rt batchId accounts mappingRules fuse (withoutRecord s rawId) record
      = (withoutRecord (postStep rt batchId accounts mappingRules fuse s record).1 rawId,
         (postStep rt batchId accounts mappingRules fuse s record).2) := by
  unfold postStep
  rw [postOne_withoutRecord]
  cases postOne rt s accounts mappingRules fuse record with
  | error msg =>
    simp only
    rw [withoutRecord_logAudit_ne _ _ _ _ _ _ _ _ hne,
      withoutRecord_updateRecord_ne s rawId record.raw_id (applyFailed msg) (fun r => rfl)]
  | ok res =>
    obtain ⟨s1, vid, num⟩ := res
    simp only
    rw [withoutRecord_logAudit_ne _ _ _ _ _ _ _ _ hne,
      withoutRecord_updateRecord_ne s1 rawId record.raw_id
        (fun r => { r with status := RecordStatus.posted }) (fun r => rfl)]

theorem postStep_withoutRecord_self (rt : Runtime) (batchId : Nat) (accounts : List Account)
    (mappingRules : List MappingRule) (fuse : List Char → List (Account × Option ℚ))
    (s : Store) (record : RawRecord) (msg : String)
    (hfail : postOne rt s accounts mappingRules fuse record = Except.error msg) :
    withoutRecord (postStep rt batchId accounts mappingRules fuse s record).1 record.raw_id
      = withoutRecord s record.raw_id ∧
    (postStep rt batchId accounts mappingRules fuse s record).2 = false := by
  unfold postStep
  rw [hfail]
  simp only [and_true]
  rw [withoutRecord_logAudit_self,
    withoutRecord_updateRecord_self s record.raw_id (applyFailed msg) (fun r => rfl)]

theorem postLoop_withoutRecord (rt : Runtime) (batchId : Nat) (accounts : List Account)
    (mappingRules : List MappingRule) (fuse : List Char → List (Account × Option ℚ))
    (rawId : Nat) (records : List RawRecord) :
    ∀ (s : Store) (posted failed : Nat), (∀ x ∈ records, x.raw_id ≠ rawId) →
      postLoop rt batchId accounts mappingRules fuse records (withoutRecord s rawId, posted, failed)
        = (withoutRecord
            (postLoop rt batchId accounts mappingRules fuse records (s, posted, failed)).1 rawId,
           (postLoop rt batchId accounts mappingRules fuse records (s, posted, failed)).2) := by
  induction records with
  | nil => intro s posted failed _; rfl
  | cons record rest ih =>
    intro s posted failed hne
    have h1 := postStep_withoutRecord_ne rt batchId accounts mappingRules fuse s rawId record
      (hne record (List.mem_cons_self _ _))
    have hrest : ∀ x ∈ rest, x.raw_id ≠ rawId := fun x hx => hne x (List.mem_cons_of_mem _ hx)
    rw [postLoop, postLoop, h1]
    generalize postStep rt batchId accounts mappingRules fuse s record = ps
    obtain ⟨s1, b⟩ := ps
    cases b with
    | true => exact ih s1 (posted + 1) failed hrest
    | false => exact ih s1 posted (failed + 1) hrest

theorem postLoop_failed_shift (rt : Runtime) (batchId : Nat) (accounts : List Account)
    (mappingRules : List MappingRule) (fuse : List Char → List (Account × Option ℚ))
    (records : List RawRecord) :
    ∀ (s : Store) (posted failed : Nat),
      postLoop rt batchId accounts mappingRules fuse records (s, posted, failed + 1)
        = ((postLoop rt batchId accounts mappingRules fuse records (s, posted, failed)).1,
           (postLoop rt batchId accounts mappingRules fuse records (s, posted, failed)).2.1,
           (postLoop rt batchId accounts mappingRules fuse records (s, posted, failed)).2.2 + 1) := by
  induction records with
  | nil => intro s posted failed; rfl
  | cons record rest ih =>
    intro s posted failed
    rw [postLoop, postLoop]
    generalize postStep rt batchId accounts mappingRules fuse s record = ps
    obtain ⟨s1, b⟩ := ps
    cases b with
    | true => exact ih s1 (posted + 1) failed
    | false => exact ih s1 posted (failed + 1)

theorem postLoop_append (rt : Runtime) (batchId : Nat) (accounts : List Account)
    (mappingRules : List MappingRule) (fuse : List Char → List (Account × Option ℚ))
    (pre post : List RawRecord) :
    ∀ acc : Store × Nat × Nat,
      postLoop rt batchId accounts mappingRules fuse (pre ++ post) acc
        = postLoop rt batchId accounts mappingRules fuse post
            (postLoop rt batchId accounts mappingRules fuse pre acc) := by
  induction pre with
  | nil => intro acc; rfl
  | cons record rest ih =>
    rintro ⟨s, posted, failed⟩
    rw [List.cons_append, postLoop, postLoop]
    generalize postStep rt batchId accounts mappingRules fuse s record = ps
    obtain ⟨s1, b⟩ := ps
    cases b with
    | true => exact ih _
    | false => exact ih _

theorem postLoop_counts (rt : Runtime) (batchId : Nat) (accounts : List Account)
    (mappingRules : List MappingRule) (fuse : List Char → List (Account × Option ℚ))
    (records : List RawRecord) :
    ∀ (s : Store) (posted failed : Nat),
      (postLoop rt batchId accounts mappingRules fuse records (s, posted, failed)).2.1 +
      (postLoop rt batchId accounts mappingRules fuse records (s, posted, failed)).2.2
        = posted + failed + records.length := by
  induction records with
  | nil => intro s posted failed; simp [postLoop]
  | cons record rest ih =>
    intro s posted failed
    rw [postLoop]
    generalize postStep rt batchId accounts mappingRules fuse s record = ps
    obtain ⟨s1, b⟩ := ps
    cases b with
    | true =>
      simp only
      rw [ih s1 (posted + 1) failed, List.length_cons]
      omega
    | false =>
      simp only
      rw [ih s1 posted (failed + 1), List.length_cons]
      omega

theorem postLoop_skip_failed (rt : Runtime) (batchId : Nat) (accounts : List Account)
    (mappingRules : List MappingRule) (fuse : List Char → List (Account × Option ℚ))
    (s : Store) (pre post : List RawRecord) (r : RawRecord)
    (hne : ∀ x ∈ pre ++ post, x.raw_id ≠ r.raw_id)
    (hun : idTruthy (findAccountMatch rt r.detected_debit_account accounts mappingRules fuse)
          = false ∨
        idTruthy (findAccountMatch rt r.detected_credit_account accounts mappingRules fuse)
          = false) :
    postLoop rt batchId accounts mappingRules fuse (pre ++ post) (withoutRecord s r.raw_id, 0, 0)
      = (withoutRecord
          (postLoop rt batchId accounts mappingRules fuse (pre ++ r :: post) (s, 0, 0)).1 r.raw_id,
         (postLoop rt batchId accounts mappingRules fuse (pre ++ r :: post) (s, 0, 0)).2.1,
         (postLoop rt batchId accounts mappingRules fuse (pre ++ r :: post) (s, 0, 0)).2.2 - 1) ∧
    1 ≤ (postLoop rt batchId accounts mappingRules fuse (pre ++ r :: post) (s, 0, 0)).2.2 := by
  have hpre : ∀ x ∈ pre, x.raw_id ≠ r.raw_id := fun x hx => hne x (List.mem_append_left _ hx)
  have hpost : ∀ x ∈ post, x.raw_id ≠ r.raw_id := fun x hx => hne x (List.mem_append_right _ hx)
  rw [postLoop_append, postLoop_append,
    postLoop_withoutRecord rt batchId accounts mappingRules fuse r.raw_id pre s 0 0 hpre]
  generalize postLoop rt batchId accounts mappingRules fuse pre (s, 0, 0) = A
  obtain ⟨sA, pA, fA⟩ := A
  simp only
  have hstep := postStep_withoutRecord_self rt batchId accounts mappingRules fuse sA r _
    (postOne_unresolved rt sA accounts mappingRules fuse r hun)
  rw [postLoop]
  generalize postStep rt batchId accounts mappingRules fuse sA r = ps at hstep
  obtain ⟨sB, b⟩ := ps
  simp only at hstep
  obtain ⟨hB, hb⟩ := hstep
  subst hb
  simp only
  rw [← hB, postLoop_withoutRecord rt batchId accounts mappingRules fuse r.raw_id post sB pA fA hpost,
    postLoop_failed_shift]
  simp

theorem postStep_keeps (rt : Runtime) (batchId : Nat) (accounts : List Account)
    (mappingRules : List MappingRule) (fuse : List Char → List (Account × Option ℚ))
    (s : Store) (record y : RawRecord) (hy : y ∈ s.rawRecords) (hne : y.raw_id ≠ record.raw_id) :
    y ∈ (postStep rt batchId accounts mappingRules fuse s record).1.rawRecords := by
  unfold postStep
  split
  · rename_i s1 vid num hok
    obtain ⟨p, -, -, -, -, -, -, hr, -⟩ :=
      postOne_ok rt s s1 accounts mappingRules fuse record vid num hok
    simp only [logAudit, updateRecord, hr, List.mem_map]
    exact ⟨y, hy, by simp [hne]⟩
  · simp only [logAudit, updateRecord, List.mem_map]
    exact ⟨y, hy, by simp [hne]⟩

theorem postLoop_keeps (rt : Runtime) (batchId : Nat) (accounts : List Account)
    (mappingRules : List MappingRule) (fuse : List Char → List (Account × Option ℚ))
    (records : List RawRecord) :
    ∀ (acc : Store × Nat × Nat) (y : RawRecord), y ∈ acc.1.rawRecords →
      (∀ x ∈ records, x.raw_id ≠ y.raw_id) →
      y ∈ (postLoop rt batchId accounts mappingRules fuse records acc).1.rawRecords := by
  induction records with
  | nil => intro acc y hy _; exact hy
  | cons record rest ih =>
    rintro ⟨s, posted, failed⟩ y hy hne
    have h1 := postStep_keeps rt batchId accounts mappingRules fuse s record y hy
      (fun hc => hne record (List.mem_cons_self _ _) hc.symm)
    have hrest : ∀ x ∈ rest, x.raw_id ≠ y.raw_id := fun x hx => hne x (List.mem_cons_of_mem _ hx)
    rw [postLoop]
    generalize postStep rt batchId accounts mappingRules fuse s record = ps at h1
    obtain ⟨s1, b⟩ := ps
    cases b with
    | true => exact ih (s1, posted + 1, failed) y h1 hrest
    | false => exact ih (s1, posted, failed + 1) y h1 hrest

theorem postLoop_failed_mem (rt : Runtime) (batchId : Nat) (accounts : List Account)
    (mappingRules : List MappingRule) (fuse : List Char → List (Account × Option ℚ))
    (s : Store) (pre post : List RawRecord) (r x : RawRecord)
    (hne : ∀ y ∈ pre ++ post, y.raw_id ≠ r.raw_id)
    (hun : idTruthy (findAccountMatch rt r.detected_debit_account accounts mappingRules fuse)
          = false ∨
        idTruthy (findAccountMatch rt r.detected_credit_account accounts mappingRules fuse)
          = false)
    (hx : x ∈ s.rawRecords) (hid : x.raw_id = r.raw_id) :
    applyFailed "Account mapping incomplete" x ∈
      (postLoop rt batchId accounts mappingRules fuse (pre ++ r :: post) (s, 0, 0)).1.rawRecords := by
  have hpre : ∀ y ∈ pre, y.raw_id ≠ x.raw_id :=
    fun y hy => hid ▸ hne y (List.mem_append_left _ hy)
  have hpost : ∀ y ∈ post, y.raw_id ≠ (applyFailed "Account mapping incomplete" x).raw_id :=
    fun y hy => by
      show y.raw_id ≠ x.raw_id
      exact hid ▸ hne y (List.mem_append_right _ hy)
  have hA := postLoop_keeps rt batchId accounts mappingRules fuse pre (s, 0, 0) x hx hpre
  rw [postLoop_append]
  generalize postLoop rt batchId accounts mappingRules fuse pre (s, 0, 0) = A at hA
  obtain ⟨sA, pA, fA⟩ := A
  simp only at hA
  have hstep : applyFailed "Account mapping incomplete" x ∈
      (postStep rt batchId accounts mappingRules fuse sA r).1.rawRecords := by
    unfold postStep
    rw [postOne_unresolved rt sA accounts mappingRules fuse r hun]
    simp only [logAudit, updateRecord, List.mem_map]
    exact ⟨x, hA, by simp [hid]⟩
  rw [postLoop]
  generalize postStep rt batchId accounts mappingRules fuse sA r = ps at hstep
  obtain ⟨sB, b⟩ := ps
  cases b with
  | true => exact postLoop_keeps rt batchId accounts mappingRules fuse post _ _ hstep hpost
  | false => exact postLoop_keeps rt batchId accounts mappingRules fuse post _ _ hstep hpost

theorem split_ids_ne (l pre post : List RawRecord) (r : RawRecord)
    (hnd : (l.map (fun x => x.raw_id)).Nodup) (hsplit : l = pre ++ r :: post) :
    ∀ y ∈ pre ++ post, y.raw_id ≠ r.raw_id := by
  subst hsplit
  simp only [List.map_append, List.map_cons] at hnd
  have h1 := List.nodup_append.mp hnd
  have h2 := List.nodup_cons.mp h1.2.1
  intro y hy hc
  rcases List.mem_append.mp hy with hy | hy
  · exact h1.2.2 (List.mem_map_of_mem _ hy) (by rw [hc]; exact List.mem_cons_self _ _)
  · exact h2.1 (by rw [← hc]; exact List.mem_map_of_mem _ hy)

theorem selectRecords_nodup (s : Store) (batchId : Nat) (p : RecordStatus → Bool)
    (hpk : (s.rawRecords.map (fun r => r.raw_id)).Nodup) :
    ((selectRecords s batchId p).map (fun r => r.raw_id)).Nodup :=
  List.Nodup.sublist (List.Sublist.map _ (List.filter_sublist _)) hpk

theorem selectRecords_withoutRecord (s : Store) (batchId : Nat) (p : RecordStatus → Bool)
    (pre post : List RawRecord) (r : RawRecord)
    (hsplit : selectRecords s batchId p = pre ++ r :: post)
    (hne : ∀ y ∈ pre ++ post, y.raw_id ≠ r.raw_id) :
    selectRecords (withoutRecord s r.raw_id) batchId p = pre ++ post := by
  have h : selectRecords (withoutRecord s r.raw_id) batchId p
      = (selectRecords s batchId p).filter (fun x => decide (x.raw_id ≠ r.raw_id)) := by
    simp only [selectRecords, withoutRecord, List.filter_filter]
    apply List.filter_congr
    intro x _
    exact Bool.and_comm _ _
  rw [h, hsplit, List.filter_append, List.filter_cons]
  simp only [ne_eq, not_true_eq_false, decide_False, Bool.false_eq_true, if_false]
  rw [List.filter_eq_self.mpr, List.filter_eq_self.mpr]
  · intro y hy
    simpa using hne y (List.mem_append_right _ hy)
  · intro y hy
    simpa using hne y (List.mem_append_left _ hy)

theorem postLoop_auditLog_failed (rt : Runtime) (batchId : Nat) (accounts : List Account)
    (mappingRules : List MappingRule) (fuse : List Char → List (Account × Option ℚ))
    (s : Store) (pre post : List RawRecord) (r : RawRecord)
    (hne : ∀ y ∈ pre ++ post, y.raw_id ≠ r.raw_id)
    (hun : idTruthy (findAccountMatch rt r.detected_debit_account accounts mappingRules fuse)
          = false ∨
        idTruthy (findAccountMatch rt r.detected_credit_account accounts mappingRules fuse)
          = false) :
    ∃ a1 a2 : List AuditEntry,
      (postLoop rt batchId accounts mappingRules fuse (pre ++ r :: post) (s, 0, 0)).1.auditLog
        = s.auditLog ++ (a1 ++
            { batch_id := some batchId, raw_id := some r.raw_id, action_taken := "RECORD_FAILED",
              details := "Account mapping incomplete", warnings := none,
              final_voucher_id := none } :: a2) ∧
      ∀ e ∈ a1 ++ a2, e.raw_id ≠ some r.raw_id := by
  obtain ⟨a1, h1, m1, -⟩ := postLoop_auditLog rt batchId accounts mappingRules fuse pre (s, 0, 0)
  rw [postLoop_append]
  generalize postLoop rt batchId accounts mappingRules fuse pre (s, 0, 0) = A at h1
  obtain ⟨sA, pA, fA⟩ := A
  simp only at h1
  have hstep : (postStep rt batchId accounts mappingRules fuse sA r).1.auditLog
      = sA.auditLog ++
          [{ batch_id := some batchId, raw_id := some r.raw_id, action_taken := "RECORD_FAILED",
             details := "Account mapping incomplete", warnings := none,
             final_voucher_id := none }] := by
    unfold postStep
    rw [postOne_unresolved rt sA accounts mappingRules fuse r hun]
    simp only [logAudit, updateRecord]
  have key : ∀ (sB : Store) (acc2 : Nat × Nat),
      sB.auditLog = sA.auditLog ++
          [{ batch_id := some batchId, raw_id := some r.raw_id, action_taken := "RECORD_FAILED",
             details := "Account mapping incomplete", warnings := none,
             final_voucher_id := none }] →
      ∃ a1 a2 : List AuditEntry,
        (postLoop rt batchId accounts mappingRules fuse post (sB, acc2)).1.auditLog
          = s.auditLog ++ (a1 ++
              { batch_id := some batchId, raw_id := some r.raw_id,
                action_taken := "RECORD_FAILED", details := "Account mapping incomplete",
                warnings := none, final_voucher_id := none } :: a2) ∧
        ∀ e ∈ a1 ++ a2, e.raw_id ≠ some r.raw_id := by
    intro sB acc2 hB
    obtain ⟨a2, h2, m2, -⟩ :=
      postLoop_auditLog rt batchId accounts mappingRules fuse post (sB, acc2)
    refine ⟨a1, a2, ?_, ?_⟩
    · rw [h2]
      simp only [hB, h1, List.append_assoc, List.singleton_append]
    · intro e he hc
      rcases List.mem_append.mp he with he | he
      · have hmem : e.raw_id ∈ a1.map (fun e => e.raw_id) := List.mem_map_of_mem _ he
        rw [m1, hc] at hmem
        obtain ⟨y, hy, hyid⟩ := List.mem_map.mp hmem
        exact hne y (List.mem_append_left _ hy) (Option.some.inj hyid)
      · have hmem : e.raw_id ∈ a2.map (fun e => e.raw_id) := List.mem_map_of_mem _ he
        rw [m2, hc] at hmem
        obtain ⟨y, hy, hyid⟩ := List.mem_map.mp hmem
        exact hne y (List.mem_append_right _ hy) (Option.some.inj hyid)
  rw [postLoop]
  generalize postStep rt batchId accounts mappingRules fuse sA r = ps at hstep
  obtain ⟨sB, b⟩ := ps
  cases b with
  | true => exact key sB _ hstep
  | false => exact key sB _ hstep

theorem postBatch_loop (rt : Runtime) (s : Store) (batchId : Nat) :
    (postBatch rt s batchId).1.vouchers
      = (postLoop rt batchId (activeAccounts s) (getMappingRules s)
          (newFuse rt (activeAccounts s))
          (selectRecords s batchId (fun st => st == RecordStatus.validated)) (s, 0, 0)).1.vouchers ∧
    (postBatch rt s batchId).1.entries
      = (postLoop rt batchId (activeAccounts s) (getMappingRules s)
          (newFuse rt (activeAccounts s))
          (selectRecords s batchId (fun st => st == RecordStatus.validated)) (s, 0, 0)).1.entries ∧
    (postBatch rt s batchId).1.rawRecords
      = (postLoop rt batchId (activeAccounts s) (getMappingRules s)
          (newFuse rt (activeAccounts s))
          (selectRecords s batchId (fun st => st == RecordStatus.validated)) (s, 0, 0)).1.rawRecords ∧
    (∃ e : AuditEntry, e.raw_id = none ∧ (postBatch rt s batchId).1.auditLog
      = (postLoop rt batchId (activeAccounts s) (getMappingRules s)
          (newFuse rt (activeAccounts s))
          (selectRecords s batchId (fun st => st == RecordStatus.validated))
          (s, 0, 0)).1.auditLog ++ [e]) ∧
    (postBatch rt s batchId).2.processed
      = (postLoop rt batchId (activeAccounts s) (getMappingRules s)
          (newFuse rt (activeAccounts s))
          (selectRecords s batchId (fun st => st == RecordStatus.validated)) (s, 0, 0)).2.1 ∧
    (postBatch rt s batchId).2.failed
      = (postLoop rt batchId (activeAccounts s) (getMappingRules s)
          (newFuse rt (activeAccounts s))
          (selectRecords s batchId (fun st => st == RecordStatus.validated)) (s, 0, 0)).2.2 := by
  unfold postBatch
  dsimp only
  generalize postLoop rt batchId (activeAccounts s) (getMappingRules s)
          (newFuse rt (activeAccounts s))
          (selectRecords s batchId (fun st => st == RecordStatus.validated)) (s, 0, 0) = L
  obtain ⟨s1, posted, failed⟩ := L
  exact ⟨rfl, rfl, rfl,
    ⟨{ batch_id := some batchId, raw_id := none, action_taken := "BATCH_POSTED",
       details := String.mk ("Posted ".data ++ natToString posted ++ " vouchers, ".data ++
         natToString failed ++ " failed".data),
       warnings := none, final_voucher_id := none }, rfl, rfl⟩, rfl, rfl⟩

/-! ## Lemmas on validation followed by posting -/

theorem postBatch_unresolved (rt : Runtime) (s : Store) (batchId : Nat) (r : RawRecord)
    (hpk : (s.rawRecords.map (fun x => x.raw_id)).Nodup)
    (hmem : r ∈ selectRecords s batchId (fun st => st == RecordStatus.validated))
    (hun : idTruthy (findAccountMatch rt r.detected_debit_account (activeAccounts s)
        (getMappingRules s) (newFuse rt (activeAccounts s))) = false ∨
      idTruthy (findAccountMatch rt r.detected_credit_account (activeAccounts s)
        (getMappingRules s) (newFuse rt (activeAccounts s))) = false) :
    applyFailed "Account mapping incomplete" r ∈ (postBatch rt s batchId).1.rawRecords ∧
    ∃ posts : List Posting,
      (postBatch rt s batchId).1.vouchers = s.vouchers ++ posts.map (fun p => p.voucher) ∧
      ∀ p ∈ posts, p.voucher.legacy_raw_id ≠ some r.raw_id := by
  obtain ⟨pre, post, hsel⟩ := List.append_of_mem hmem
  have hne := split_ids_ne _ pre post r (selectRecords_nodup s batchId _ hpk) hsel
  have hr : r ∈ s.rawRecords := (List.mem_filter.mp hmem).1
  obtain ⟨v1, -, r1, -, -, -⟩ := postBatch_loop rt s batchId
  rw [hsel] at v1 r1
  obtain ⟨hskip, -⟩ := postLoop_skip_failed rt batchId (activeAccounts s) (getMappingRules s)
    (newFuse rt (activeAccounts s)) s pre post r hne hun
  constructor
  · rw [r1]
    exact postLoop_failed_mem rt batchId _ _ _ s pre post r r hne hun hr rfl
  · obtain ⟨posts, h1, -, -, h4⟩ := postLoop_postings rt batchId (activeAccounts s)
      (getMappingRules s) (newFuse rt (activeAccounts s)) (pre ++ post)
      (withoutRecord s r.raw_id) 0 0
    rw [hskip] at h1
    refine ⟨posts, ?_, ?_⟩
    · rw [v1]
      exact h1
    · intro p hp hc
      obtain ⟨hm, -, -, -, -, hleg⟩ := h4 p hp
      rw [hleg] at hc
      exact hne _ hm (Option.some.inj hc)

theorem validateLoop_record_eq (rt : Runtime) (accounts : List Account)
    (mappingRules : List MappingRule) (fuse : List Char → List (Account × Option ℚ))
    (records : List RawRecord) :
    ∀ (acc : Store × Nat × Nat), (records.map (fun r => r.raw_id)).Nodup →
      ∀ r ∈ records, ∀ x ∈ acc.1.rawRecords, x.raw_id = r.raw_id →
      applyValidation (validationErrors rt accounts mappingRules fuse r)
          (validationWarnings rt accounts mappingRules fuse r) x
        ∈ (validateLoop rt accounts mappingRules fuse records acc).1.rawRecords := by
  induction records with
  | nil => intro acc _ r hr; exact absurd hr (List.not_mem_nil _)
  | cons record rest ih =>
    rintro ⟨s, n, f⟩ hnd r hr x hx hxid
    simp only [List.map_cons, List.nodup_cons] at hnd
    have key : ∀ acc2 : Nat × Nat,
        applyValidation (validationErrors rt accounts mappingRules fuse r)
            (validationWarnings rt accounts mappingRules fuse r) x
          ∈ (validateLoop rt accounts mappingRules fuse rest
              (updateRecord s record.raw_id
                (applyValidation (validationErrors rt accounts mappingRules fuse record)
                  (validationWarnings rt accounts mappingRules fuse record)), acc2)).1.rawRecords := by
      intro acc2
      rcases List.mem_cons.mp hr with rfl | hrest
      · apply validateLoop_keeps
        · simp only [updateRecord, List.mem_map]
          exact ⟨x, hx, by simp [hxid]⟩
        · simpa [applyValidation, hxid] using hnd.1
      · have hdiff : x.raw_id ≠ record.raw_id := by
          intro hc
          apply hnd.1
          rw [← hc, hxid]
          exact List.mem_map_of_mem _ hrest
        apply ih _ hnd.2 r hrest x _ hxid
        simp only [updateRecord, List.mem_map]
        exact ⟨x, hx, by simp [hdiff]⟩
    rw [validateLoop]
    split
    · exact key _
    · exact key _

theorem validateLoop_accounts_rules (rt : Runtime) (accounts : List Account)
    (mappingRules : List MappingRule) (fuse : List Char → List (Account × Option ℚ))
    (records : List RawRecord) :
    ∀ acc : Store × Nat × Nat,
      (validateLoop rt accounts mappingRules fuse records acc).1.accounts = acc.1.accounts ∧
      (validateLoop rt accounts mappingRules fuse records acc).1.rules = acc.1.rules ∧
      (validateLoop rt accounts mappingRules fuse records acc).1.vouchers = acc.1.vouchers ∧
      (validateLoop rt accounts mappingRules fuse records acc).1.entries = acc.1.entries := by
  induction records with
  | nil => intro acc; exact ⟨rfl, rfl, rfl, rfl⟩
  | cons record rest ih =>
    rintro ⟨s, n, f⟩
    rw [validateLoop]
    dsimp only
    split
    · exact ih _
    · exact ih _

theorem validateBatch_frame (rt : Runtime) (s : Store) (batchId : Nat) :
    (validateBatch rt s batchId).1.rawRecords
      = (validateLoop rt (activeAccounts s) (getMappingRules s)
          (newFuse rt (activeAccounts s))
          (selectRecords s batchId
            (fun st => st == RecordStatus.normalized || st == RecordStatus.mapped))
          (s, 0, 0)).1.rawRecords ∧
    activeAccounts (validateBatch rt s batchId).1 = activeAccounts s ∧
    getMappingRules (validateBatch rt s batchId).1 = getMappingRules s ∧
    (validateBatch rt s batchId).1.vouchers = s.vouchers ∧
    (validateBatch rt s batchId).1.entries = s.entries ∧
    (validateBatch rt s batchId).1.rawRecords.map (fun r => r.raw_id)
      = s.rawRecords.map (fun r => r.raw_id) := by
  obtain ⟨h1, h2, h3, h4⟩ := validateLoop_accounts_rules rt (activeAccounts s) (getMappingRules s)
    (newFuse rt (activeAccounts s))
    (selectRecords s batchId
      (fun st => st == RecordStatus.normalized || st == RecordStatus.mapped)) (s, 0, 0)
  have hp := payloads_validateLoop rt (activeAccounts s) (getMappingRules s)
    (newFuse rt (activeAccounts s))
    (selectRecords s batchId
      (fun st => st == RecordStatus.normalized || st == RecordStatus.mapped)) (s, 0, 0)
  have hids : ∀ t : Store, t.rawRecords.map (fun r => r.raw_id) = (payloads t).map Prod.fst := by
    intro t
    simp [payloads]
  unfold validateBatch
  dsimp only
  generalize validateLoop rt (activeAccounts s) (getMappingRules s)
    (newFuse rt (activeAccounts s))
    (selectRecords s batchId
      (fun st => st == RecordStatus.normalized || st == RecordStatus.mapped)) (s, 0, 0) = L
    at h1 h2 h3 h4 hp
  obtain ⟨s1, validated, failed⟩ := L
  simp only at h1 h2 h3 h4 hp
  refine ⟨rfl, ?_, ?_, h3, h4, ?_⟩
  · simp only [activeAccounts, logAudit, updateBatch, h1]
  · simp only [getMappingRules, logAudit, updateBatch, h1, h2]
  · simp only [logAudit, updateBatch]
    rw [hids, hids, hp]

theorem findAccountMatch_falsy (rt : Runtime) (text : Option String) (accounts : List Account)
    (mappingRules : List MappingRule) (fuse : List Char → List (Account × Option ℚ))
    (h : strFalsy text = true) :
    findAccountMatch rt text accounts mappingRules fuse = none := by
  cases text with
  | none => rfl
  | some t =>
    simp only [strFalsy, decide_eq_true_eq] at h
    simp [findAccountMatch, h]

/-! ## Lemmas on the states the pipeline reaches -/

theorem newRawId_fresh (s : Store) : ∀ r ∈ s.rawRecords, r.raw_id < newRawId s := by
  have key : ∀ (l : List RawRecord) (init : Nat),
      init ≤ l.foldl (fun m r => max m r.raw_id) init ∧
      ∀ r ∈ l, r.raw_id ≤ l.foldl (fun m r => max m r.raw_id) init := by
    intro l
    induction l with
    | nil => intro init; simp
    | cons x xs ih =>
      intro init
      obtain ⟨h1, h2⟩ := ih (max init x.raw_id)
      refine ⟨le_trans (le_max_left _ _) h1, ?_⟩
      intro r hr
      rcases List.mem_cons.mp hr with rfl | hr
      · exact le_trans (le_max_right _ _) h1
      · exact h2 r hr
  intro r hr
  have := (key s.rawRecords s.rawSeq).2 r hr
  unfold newRawId
  omega

theorem insertRawRecords_inv (batchId : Nat) (rows : List String) :
    ∀ s : Store, (s.rawRecords.map (fun r => r.raw_id)).Nodup → ValidatedPositive s →
      ((insertRawRecords batchId rows s).rawRecords.map (fun r => r.raw_id)).Nodup ∧
      ValidatedPositive (insertRawRecords batchId rows s) := by
  induction rows with
  | nil => intro s h1 h2; exact ⟨h1, h2⟩
  | cons payload rest ih =>
    intro s h1 h2
    rw [insertRawRecords]
    apply ih
    · simp only [List.map_append, List.map_cons, List.map_nil]
      rw [List.nodup_append]
      refine ⟨h1, List.nodup_singleton _, ?_⟩
      intro a ha hb
      simp only [List.mem_singleton] at hb
      obtain ⟨r, hr, hra⟩ := List.mem_map.mp ha
      have := newRawId_fresh s r hr
      simp only [freshRecord] at hb
      omega
    · intro r hr hst
      simp only [List.mem_append, List.mem_singleton] at hr
      rcases hr with hr | rfl
      · exact h2 r hr hst
      · simp [freshRecord] at hst

theorem normalizeLoop_status (rt : Runtime) (records : List RawRecord) :
    ∀ (acc : Store × Nat × Nat), ∀ r ∈ (normalizeLoop rt records acc).1.rawRecords,
      r ∈ acc.1.rawRecords ∨ r.status = RecordStatus.normalized ∨ r.status = RecordStatus.failed := by
  induction records with
  | nil => intro acc r hr; exact Or.inl hr
  | cons record rest ih =>
    rintro ⟨s, n, f⟩ r hr
    rw [normalizeLoop] at hr
    split at hr
    · rename_i norm _
      rcases ih _ r hr with h | h
      · simp only [updateRecord, List.mem_map] at h
        obtain ⟨y, hy, hyr⟩ := h
        split at hyr
        · right; left; rw [← hyr]; rfl
        · left; rw [← hyr]; exact hy
      · exact Or.inr h
    · rename_i msg _
      rcases ih _ r hr with h | h
      · simp only [updateRecord, List.mem_map] at h
        obtain ⟨y, hy, hyr⟩ := h
        split at hyr
        · right; right; rw [← hyr]; rfl
        · left; rw [← hyr]; exact hy
      · exact Or.inr h

theorem postStep_status (rt : Runtime) (batchId : Nat) (accounts : List Account)
    (mappingRules : List MappingRule) (fuse : List Char → List (Account × Option ℚ))
    (s : Store) (record : RawRecord) :
    ∀ r ∈ (postStep rt batchId accounts mappingRules fuse s record).1.rawRecords,
      r ∈ s.rawRecords ∨ r.status = RecordStatus.posted ∨ r.status = RecordStatus.failed := by
  intro r hr
  unfold postStep at hr
  split at hr
  · rename_i s1 vid num hok
    obtain ⟨p, -, -, -, -, -, -, hraw, -⟩ :=
      postOne_ok rt s s1 accounts mappingRules fuse record vid num hok
    simp only [logAudit, updateRecord, hraw, List.mem_map] at hr
    obtain ⟨y, hy, hyr⟩ := hr
    split at hyr
    · right; left; rw [← hyr]
    · left; rw [← hyr]; exact hy
  · simp only [logAudit, updateRecord, List.mem_map] at hr
    obtain ⟨y, hy, hyr⟩ := hr
    split at hyr
    · right; right; rw [← hyr]; rfl
    · left; rw [← hyr]; exact hy

theorem postLoop_status (rt : Runtime) (batchId : Nat) (accounts : List Account)
    (mappingRules : List MappingRule) (fuse : List Char → List (Account × Option ℚ))
    (records : List RawRecord) :
    ∀ (acc : Store × Nat × Nat),
      ∀ r ∈ (postLoop rt batchId accounts mappingRules fuse records acc).1.rawRecords,
      r ∈ acc.1.rawRecords ∨ r.status = RecordStatus.posted ∨ r.status = RecordStatus.failed := by
  induction records with
  | nil => intro acc r hr; exact Or.inl hr
  | cons record rest ih =>
    rintro ⟨s, n, f⟩ r hr
    have hstep := postStep_status rt batchId accounts mappingRules fuse s record
    rw [postLoop] at hr
    generalize postStep rt batchId accounts mappingRules fuse s record = ps at hstep hr
    obtain ⟨s1, b⟩ := ps
    have key : ∀ acc2 : Nat × Nat,
        r ∈ (postLoop rt batchId accounts mappingRules fuse rest (s1, acc2)).1.rawRecords →
        r ∈ s.rawRecords ∨ r.status = RecordStatus.posted ∨ r.status = RecordStatus.failed := by
      intro acc2 h
      rcases ih _ r h with h | h
      · exact hstep r h
      · exact Or.inr h
    cases b with
    | true => exact key _ hr
    | false => exact key _ hr

theorem validateLoop_origin (rt : Runtime) (accounts : List Account)
    (mappingRules : List MappingRule) (fuse : List Char → List (Account × Option ℚ))
    (s0 : Store) (all : List RawRecord) (records : List RawRecord) :
    (∀ x ∈ records, x ∈ all) →
    ∀ (acc : Store × Nat × Nat),
      (∀ r ∈ acc.1.rawRecords, ∃ y ∈ s0.rawRecords, r.raw_id = y.raw_id ∧
        r.detected_amount = y.detected_amount ∧
        (r = y ∨ ∃ x ∈ all, x.raw_id = y.raw_id ∧
          r.status = validationStatus (validationErrors rt accounts mappingRules fuse x))) →
      ∀ r ∈ (validateLoop rt accounts mappingRules fuse records acc).1.rawRecords,
        ∃ y ∈ s0.rawRecords, r.raw_id = y.raw_id ∧
          r.detected_amount = y.detected_amount ∧
          (r = y ∨ ∃ x ∈ all, x.raw_id = y.raw_id ∧
            r.status = validationStatus (validationErrors rt accounts mappingRules fuse x)) := by
  induction records with
  | nil => intro _ acc h; exact h
  | cons record rest ih =>
    rintro hsub ⟨s, n, f⟩ hacc
    have hrest : ∀ x ∈ rest, x ∈ all := fun x hx => hsub x (List.mem_cons_of_mem _ hx)
    have hstep : ∀ r ∈ (updateRecord s record.raw_id
          (applyValidation (validationErrors rt accounts mappingRules fuse record)
            (validationWarnings rt accounts mappingRules fuse record))).rawRecords,
        ∃ y ∈ s0.rawRecords, r.raw_id = y.raw_id ∧
          r.detected_amount = y.detected_amount ∧
          (r = y ∨ ∃ x ∈ all, x.raw_id = y.raw_id ∧
            r.status = validationStatus (validationErrors rt accounts mappingRules fuse x)) := by
      intro r hr
      simp only [updateRecord, List.mem_map] at hr
      obtain ⟨z, hz, hzr⟩ := hr
      obtain ⟨y, hy, hid, hamt, hrest2⟩ := hacc z hz
      split at hzr
      · rename_i hsame
        refine ⟨y, hy, ?_, ?_, Or.inr ⟨record, hsub record (List.mem_cons_self _ _), ?_, ?_⟩⟩
        · rw [← hzr]; exact hid
        · rw [← hzr]; exact hamt
        · rw [← hid, hsame]
        · rw [← hzr]; rfl
      · rw [← hzr]
        exact ⟨y, hy, hid, hamt, hrest2⟩
    rw [validateLoop]
    split
    · exact ih hrest _ hstep
    · exact ih hrest _ hstep

theorem validationErrors_nil_amount (rt : Runtime) (accounts : List Account)
    (mappingRules : List MappingRule) (fuse : List Char → List (Account × Option ℚ)) (r : RawRecord)
    (h : validationStatus (validationErrors rt accounts mappingRules fuse r)
      = RecordStatus.validated) :
    ∃ a, r.detected_amount = some a ∧ 0 < a := by
  have hnil : validationErrors rt accounts mappingRules fuse r = [] := by
    unfold validationStatus at h
    split at h
    · exact absurd h (by simp)
    · rename_i hlen
      exact List.length_eq_zero.mp (by omega)
  unfold validationErrors at hnil
  simp only [List.append_eq_nil] at hnil
  have h2 := hnil.1.2
  split at h2
  · exact absurd h2 (by simp)
  · rename_i hc
    simp only [Bool.or_eq_true, decide_eq_true_eq, not_or, not_le] at hc
    cases ha : r.detected_amount with
    | none => rw [ha] at hc; exact absurd rfl hc.1
    | some a =>
      rw [ha] at hc
      exact ⟨a, rfl, by simpa using hc.2⟩

theorem ids_injective (l : List RawRecord) (hnd : (l.map (fun r => r.raw_id)).Nodup)
    (x y : RawRecord) (hx : x ∈ l) (hy : y ∈ l) (h : x.raw_id = y.raw_id) : x = y :=
  List.inj_on_of_nodup_map hnd hx hy h

theorem validateBatch_inv (rt : Runtime) (s : Store) (batchId : Nat)
    (hpk : (s.rawRecords.map (fun r => r.raw_id)).Nodup) (hpos : ValidatedPositive s) :
    ((validateBatch rt s batchId).1.rawRecords.map (fun r => r.raw_id)).Nodup ∧
    ValidatedPositive (validateBatch rt s batchId).1 := by
  obtain ⟨f1, -, -, -, -, f6⟩ := validateBatch_frame rt s batchId
  refine ⟨by rw [f6]; exact hpk, ?_⟩
  intro r hr hst
  rw [f1] at hr
  obtain ⟨y, hy, -, hamt, hcase⟩ := validateLoop_origin rt (activeAccounts s) (getMappingRules s)
    (newFuse rt (activeAccounts s)) s _ _ (fun x hx => hx) (s, 0, 0)
    (fun r hr => ⟨r, hr, rfl, rfl, Or.inl rfl⟩) r hr
  rcases hcase with rfl | ⟨x, hx, hxid, hstatus⟩
  · exact hpos r hy hst
  · have hxs : x ∈ s.rawRecords := (List.mem_filter.mp hx).1
    have hxy : x = y := ids_injective s.rawRecords hpk x y hxs hy hxid
    rw [hst] at hstatus
    obtain ⟨a, ha, hapos⟩ := validationErrors_nil_amount rt _ _ _ x hstatus.symm
    exact ⟨a, by rw [hamt, ← hxy, ha], hapos⟩

theorem normalizeRecords_inv (rt : Runtime) (s : Store) (batchId : Nat)
    (hpk : (s.rawRecords.map (fun r => r.raw_id)).Nodup) (hpos : ValidatedPositive s) :
    ((normalizeRecords rt s batchId).1.rawRecords.map (fun r => r.raw_id)).Nodup ∧
    ValidatedPositive (normalizeRecords rt s batchId).1 := by
  have hp := payloads_normalizeLoop rt
    (selectRecords s batchId (fun st => st == RecordStatus.raw)) (s, 0, 0)
  have hst := normalizeLoop_status rt
    (selectRecords s batchId (fun st => st == RecordStatus.raw)) (s, 0, 0)
  have hids : ∀ t : Store, t.rawRecords.map (fun r => r.raw_id) = (payloads t).map Prod.fst := by
    intro t
    simp [payloads]
  unfold normalizeRecords
  dsimp only
  generalize normalizeLoop rt
    (selectRecords s batchId (fun st => st == RecordStatus.raw)) (s, 0, 0) = L at hp hst
  obtain ⟨s1, n, f⟩ := L
  simp only at hp hst
  constructor
  · simp only [logAudit, updateBatch]
    rw [hids, hp, ← hids]
    exact hpk
  · intro r hr hv
    simp only [logAudit, updateBatch] at hr
    rcases hst r hr with h | h | h
    · exact hpos r h hv
    · rw [hv] at h; exact absurd h (by simp)
    · rw [hv] at h; exact absurd h (by simp)

theorem postBatch_inv (rt : Runtime) (s : Store) (batchId : Nat)
    (hpk : (s.rawRecords.map (fun r => r.raw_id)).Nodup) (hpos : ValidatedPositive s) :
    ((postBatch rt s batchId).1.rawRecords.map (fun r => r.raw_id)).Nodup ∧
    ValidatedPositive (postBatch rt s batchId).1 := by
  obtain ⟨-, -, r1, -, -, -⟩ := postBatch_loop rt s batchId
  have hp := payloads_postLoop rt batchId (activeAccounts s) (getMappingRules s)
    (newFuse rt (activeAccounts s))
    (selectRecords s batchId (fun st => st == RecordStatus.validated)) (s, 0, 0)
  have hst := postLoop_status rt batchId (activeAccounts s) (getMappingRules s)
    (newFuse rt (activeAccounts s))
    (selectRecords s batchId (fun st => st == RecordStatus.validated)) (s, 0, 0)
  have hids : ∀ t : Store, t.rawRecords.map (fun r => r.raw_id) = (payloads t).map Prod.fst := by
    intro t
    simp [payloads]
  constructor
  · rw [r1, hids, hp, ← hids]
    exact hpk
  · intro r hr hv
    rw [r1] at hr
    rcases hst r hr with h | h | h
    · exact hpos r h hv
    · rw [hv] at h; exact absurd h (by simp)
    · rw [hv] at h; exact absurd h (by simp)

theorem importBatch_inv (rt : Runtime) (s : Store) (filePath sourceType : String)
    (hpk : (s.rawRecords.map (fun r => r.raw_id)).Nodup) (hpos : ValidatedPositive s) :
    ((importBatch rt s filePath sourceType).1.rawRecords.map (fun r => r.raw_id)).Nodup ∧
    ValidatedPositive (importBatch rt s filePath sourceType).1 := by
  unfold importBatch
  split
  · exact ⟨hpk, hpos⟩
  · rename_i rows _
    dsimp only
    exact insertRawRecords_inv (newBatchId s) rows _ hpk hpos

theorem reachable_inv (rt : Runtime) (s : Store) (h : Reachable rt s) :
    (s.rawRecords.map (fun r => r.raw_id)).Nodup ∧ ValidatedPositive s := by
  induction h with
  | start s hpk hnone => exact ⟨hpk, fun r hr hst => absurd hst (hnone r hr)⟩
  | imported s filePath sourceType _ ih => exact importBatch_inv rt s filePath sourceType ih.1 ih.2
  | normalized s batchId _ ih => exact normalizeRecords_inv rt s batchId ih.1 ih.2
  | validated s batchId _ ih => exact validateBatch_inv rt s batchId ih.1 ih.2
  | posted s batchId _ ih => exact postBatch_inv rt s batchId ih.1 ih.2

/-! ## Lemmas on the file writes of a posting step -/

theorem postStepSaves_last (rt : Runtime) (batchId : Nat) (accounts : List Account)
    (mappingRules : List MappingRule) (fuse : List Char → List (Account × Option ℚ))
    (s : Store) (record : RawRecord) :
    (postStepSaves rt batchId accounts mappingRules fuse s record).getLast?
      = some (postStep rt batchId accounts mappingRules fuse s record).1 := by
  unfold postStepSaves postStep
  split <;> rfl

/-- With an index built as in `validateBatch` and `postBatch`, the fuzzy tier of
`findAccountMatch` accepts nothing. -/
theorem findAccountMatch_newFuse (rt : Runtime) (text : Option String)
    (accounts indexed : List Account) (mappingRules : List MappingRule) :
    findAccountMatch rt text accounts mappingRules (newFuse rt indexed)
      = findAccountMatch rt text accounts mappingRules (fun _ => []) := by
  cases text with
  | none => rfl
  | some t =>
    unfold findAccountMatch
    dsimp only
    split
    · rfl
    · cases mappingRules.find? (ruleMatches rt t) with
      | some rule => rfl
      | none =>
        cases accounts.find? (exactMatches rt t) with
        | some a => rfl
        | none =>
          dsimp only [newFuse]
          cases rt.fuseSearch indexed (4 / 10) t.data with
          | nil => rfl
          | cons hit rest => simp [scoreBelow]

/-- The fuzzy tier of `findAccountMatch` for an index whose hits carry a score: for a
non-empty text that no auto-apply rule and no account matches exactly, the best
candidate is accepted when its score is below 0.3, and the result is `null` when there
is no candidate, when the best candidate has no score, or when its score is not below
0.3. -/
theorem findAccountMatch_fuzzy_tier (rt : Runtime) (text : String) (accounts : List Account)
    (mappingRules : List MappingRule) (fuse : List Char → List (Account × Option ℚ))
    (hne : text.data ≠ [])
    (hrules : ∀ r ∈ mappingRules, ruleMatches rt text r = false)
    (hexact : ∀ a ∈ accounts, exactMatches rt text a = false) :
    (fuse text.data = [] →
      findAccountMatch rt (some text) accounts mappingRules fuse = none) ∧
    (∀ a rest, fuse text.data = (a, none) :: rest →
      findAccountMatch rt (some text) accounts mappingRules fuse = none) ∧
    (∀ a score rest, fuse text.data = (a, some score) :: rest → score < 3 / 10 →
      findAccountMatch rt (some text) accounts mappingRules fuse = some a.account_id) ∧
    (∀ a score rest, fuse text.data = (a, some score) :: rest → ¬ score < 3 / 10 →
      findAccountMatch rt (some text) accounts mappingRules fuse = none) := by
  have h1 : mappingRules.find? (ruleMatches rt text) = none := by
    rw [List.find?_eq_none]
    intro r hr
    simp [hrules r hr]
  have h2 : accounts.find? (exactMatches rt text) = none := by
    rw [List.find?_eq_none]
    intro a ha
    simp [hexact a ha]
  refine ⟨?_, ?_, ?_, ?_⟩
  · intro h
    simp only [findAccountMatch, hne, if_false, h1, h2, h]
  · intro a rest h
    simp [findAccountMatch, hne, h1, h2, h, scoreBelow]
  · intro a score rest h hs
    simp [findAccountMatch, hne, h1, h2, h, scoreBelow, hs]
  · intro a score rest h hs
    simp [findAccountMatch, hne, h1, h2, h, scoreBelow, hs]

/-! ## Claims -/

/-- C1. The vouchers and entries `postBatch` adds are those of a list of postings, one
per posted record (their number is the returned `posted` count): each posting is of a
validated record of the batch, its voucher has `total_amount` equal to the record's
`detected_amount` and `legacy_raw_id` equal to the record's `raw_id`, and its entries
are exactly the pair (resolved debit account, amount, 0), (resolved credit account, 0,
amount), whose debit sum equals the credit sum and the voucher's `total_amount`. -/
theorem postBatch_postings_balanced (rt : Runtime) (s : Store) (batchId : Nat) :
    ∃ posts : List Posting,
      (postBatch rt s batchId).1.vouchers = s.vouchers ++ posts.map (fun p => p.voucher) ∧
      (postBatch rt s batchId).1.entries = s.entries ++ posts.flatMap (fun p => p.entries) ∧
      (postBatch rt s batchId).2.processed = posts.length ∧
      ∀ p ∈ posts,
        p.record ∈ selectRecords s batchId (fun st => st == RecordStatus.validated) ∧
        Posting.Faithful rt (activeAccounts s) (getMappingRules s)
          (newFuse rt (activeAccounts s)) p ∧
        p.entries =
          [{ voucher_id := p.voucher.voucher_id, account_id := p.debitAccountId,
             debit_amount := p.amount, credit_amount := 0 },
           { voucher_id := p.voucher.voucher_id, account_id := p.creditAccountId,
             debit_amount := 0, credit_amount := p.amount }] ∧
        (p.entries.map (fun e => e.debit_amount)).sum
          = (p.entries.map (fun e => e.credit_amount)).sum ∧
        (p.entries.map (fun e => e.debit_amount)).sum = p.voucher.total_amount := by
  obtain ⟨posts, h1, h2, h3, h4⟩ :=
    postLoop_postings rt batchId (activeAccounts s) (getMappingRules s)
      (newFuse rt (activeAccounts s))
      (selectRecords s batchId (fun st => st == RecordStatus.validated)) s 0 0
  refine ⟨posts, ?_, ?_, ?_, ?_⟩
  · simpa [postBatch, updateBatch, logAudit] using h1
  · simpa [postBatch, updateBatch, logAudit] using h2
  · simpa [postBatch, updateBatch, logAudit] using h3
  · intro p hp
    obtain ⟨hrec, hf⟩ := h4 p hp
    refine ⟨hrec, hf, rfl, ?_, ?_⟩
    · simp [Posting.entries]
    · simp [Posting.entries, hf.2.2.2.1]

/-- C2. Each of `normalizeRecords`, `validateBatch` and `postBatch` leaves the list of
raw records with their `raw_id` and `raw_payload` exactly as it was: no payload is
changed, on the success path or on the failure path of any record, and no record is
added or removed. -/
theorem stages_preserve_raw_payload (rt : Runtime) (s : Store) (batchId : Nat) :
    payloads (normalizeRecords rt s batchId).1 = payloads s ∧
    payloads (validateBatch rt s batchId).1 = payloads s ∧
    payloads (postBatch rt s batchId).1 = payloads s := by
  refine ⟨?_, ?_, ?_⟩
  · have h := payloads_normalizeLoop rt
      (selectRecords s batchId (fun st => st == RecordStatus.raw)) (s, 0, 0)
    simpa [normalizeRecords, updateBatch, logAudit, payloads] using h
  · have h := payloads_validateLoop rt (activeAccounts s) (getMappingRules s)
      (newFuse rt (activeAccounts s))
      (selectRecords s batchId
        (fun st => st == RecordStatus.normalized || st == RecordStatus.mapped)) (s, 0, 0)
    simpa [validateBatch, updateBatch, logAudit, payloads] using h
  · have h := payloads_postLoop rt batchId (activeAccounts s) (getMappingRules s)
      (newFuse rt (activeAccounts s))
      (selectRecords s batchId (fun st => st == RecordStatus.validated)) (s, 0, 0)
    simpa [postBatch, updateBatch, logAudit, payloads] using h

/-- C3, as stated, fails: on a batch that is already `posted`, `normalizeRecords`
sets the batch status back to `normalized`, which lies before `posted`. -/
theorem normalizeRecords_lowers_posted_batch :
    batchStatus postedStore 1 = some BatchStatus.posted ∧
    batchStatus (normalizeRecords utcRuntime postedStore 1).1 1 = some BatchStatus.normalized ∧
    statusPrecedes BatchStatus.normalized BatchStatus.posted = true := by
  decide

/-- C3, amended. Each stage writes its own status unconditionally: after
`normalizeRecords` an existing batch is `normalized`, after `validateBatch` it is
`validated`, after `postBatch` it is `posted`, whatever its status was before (a
missing batch stays missing). -/
theorem stage_sets_own_status (rt : Runtime) (s : Store) (batchId : Nat) :
    batchStatus (normalizeRecords rt s batchId).1 batchId
      = (batchStatus s batchId).map (fun _ => BatchStatus.normalized) ∧
    batchStatus (validateBatch rt s batchId).1 batchId
      = (batchStatus s batchId).map (fun _ => BatchStatus.validated) ∧
    batchStatus (postBatch rt s batchId).1 batchId
      = (batchStatus s batchId).map (fun _ => BatchStatus.posted) := by
  refine ⟨?_, ?_, ?_⟩
  · have hb := batches_normalizeLoop rt
      (selectRecords s batchId (fun st => st == RecordStatus.raw)) (s, 0, 0)
    have h := batchStatus_updateBatch
      (normalizeLoop rt (selectRecords s batchId (fun st => st == RecordStatus.raw)) (s, 0, 0)).1
      batchId
      (fun b => { b with status := BatchStatus.normalized,
                         processed_records := (normalizeLoop rt (selectRecords s batchId
                           (fun st => st == RecordStatus.raw)) (s, 0, 0)).2.1,
                         failed_records := (normalizeLoop rt (selectRecords s batchId
                           (fun st => st == RecordStatus.raw)) (s, 0, 0)).2.2 })
      BatchStatus.normalized (fun _ => rfl) (fun _ => rfl)
    have h0 : batchStatus (normalizeLoop rt (selectRecords s batchId
        (fun st => st == RecordStatus.raw)) (s, 0, 0)).1 batchId = batchStatus s batchId := by
      unfold batchStatus
      rw [hb]
    rw [h0] at h
    rw [← h]
    rfl
  · have hb := batches_validateLoop rt (activeAccounts s) (getMappingRules s)
      (newFuse rt (activeAccounts s))
      (selectRecords s batchId
        (fun st => st == RecordStatus.normalized || st == RecordStatus.mapped)) (s, 0, 0)
    generalize hL : validateLoop rt (activeAccounts s) (getMappingRules s)
      (newFuse rt (activeAccounts s))
      (selectRecords s batchId
        (fun st => st == RecordStatus.normalized || st == RecordStatus.mapped)) (s, 0, 0) = L at hb
    have h := batchStatus_updateBatch L.1 batchId
      (fun b => { b with status := BatchStatus.validated, processed_records := L.2.1,
                         failed_records := L.2.2 })
      BatchStatus.validated (fun _ => rfl) (fun _ => rfl)
    have h0 : batchStatus L.1 batchId = batchStatus s batchId := by
      unfold batchStatus
      rw [hb]
    rw [h0] at h
    rw [← h]
    simp only [validateBatch, hL]
    rfl
  · have hb := batches_postLoop rt batchId (activeAccounts s) (getMappingRules s)
      (newFuse rt (activeAccounts s))
      (selectRecords s batchId (fun st => st == RecordStatus.validated)) (s, 0, 0)
    generalize hL : postLoop rt batchId (activeAccounts s) (getMappingRules s)
      (newFuse rt (activeAccounts s))
      (selectRecords s batchId (fun st => st == RecordStatus.validated)) (s, 0, 0) = L at hb
    have h := batchStatus_updateBatch L.1 batchId
      (fun b => { b with status := BatchStatus.posted, processed_records := L.2.1,
                         failed_records := L.2.2, completed_at := some rt.now })
      BatchStatus.posted (fun _ => rfl) (fun _ => rfl)
    have h0 : batchStatus L.1 batchId = batchStatus s batchId := by
      unfold batchStatus
      rw [hb]
    rw [h0] at h
    rw [← h]
    simp only [postBatch, hL]
    rfl

/-- C4. A second `normalizeRecords` on a batch, run right after a first one, finds no
record with status `raw`: it reports `normalized = 0` and `failed = 0` and leaves every
raw record as the first run left it. -/
theorem normalizeRecords_twice (rt : Runtime) (s : Store) (batchId : Nat) :
    (normalizeRecords rt (normalizeRecords rt s batchId).1 batchId).2
      = { processed := 0, failed := 0 } ∧
    (normalizeRecords rt (normalizeRecords rt s batchId).1 batchId).1.rawRecords
      = (normalizeRecords rt s batchId).1.rawRecords := by
  have h0 : RawWithin s batchId
      ((selectRecords s batchId (fun st => st == RecordStatus.raw)).map (fun r => r.raw_id)) := by
    intro r hr hb hs
    apply List.mem_map_of_mem
    simp [selectRecords, List.mem_filter, hr, hb, hs]
  have h1 := rawWithin_normalizeLoop rt batchId
    (selectRecords s batchId (fun st => st == RecordStatus.raw)) (s, 0, 0) h0
  have h2 : RawWithin (normalizeRecords rt s batchId).1 batchId [] := by
    intro r hr
    apply h1 r
    simpa [normalizeRecords, updateBatch, logAudit] using hr
  have h3 := selectRecords_raw_nil _ _ h2
  generalize (normalizeRecords rt s batchId).1 = s1 at h3 ⊢
  constructor
  · simp only [normalizeRecords, h3, normalizeLoop]
  · simp only [normalizeRecords, h3, normalizeLoop, updateBatch, logAudit]

/-- C5: the code at two inputs in range. Five hours east of UTC the real date
3/15/2024 comes back as the day before, and in UTC the input 2/31/2024 comes back as
2 March; the claim gives 2024-03-15 and 2024-02-31. -/
theorem parseDate_mdy_shifts_date :
    parseDate karachiRuntime "3/15/2024" = some "2024-03-14" ∧
    parseDate utcRuntime "2/31/2024" = some "2024-03-02" := by
  decide

/-- C6, as stated, fails: both examples of the claim fall through to the DD/MM/YYYY
format and yield a date, not `null`. -/
theorem parseDate_out_of_range_not_null :
    parseDate utcRuntime "13/01/2024" = some "2024-01-13" ∧
    parseDate utcRuntime "01/01/1800" = some "1800-01-01" := by
  decide

/-- C6, amended. For an input that starts with M/D/YYYY but fails the range check, and
whose trimmed text is not exactly two digits, slash, two digits, slash, four digits
(the form DD/MM/YYYY of the formats array): `parseDate` returns `null` exactly when the
native parser rejects the trimmed text or reads it as a date whose local year is
outside 1900..2100. -/
theorem parseDate_mdy_out_of_range (rt : Runtime) (value : String) (month day year : Nat)
    (hne : value.data ≠ [])
    (hm : mdyMatch (trim value.data) = some (month, day, year))
    (hbad : ¬ (1 ≤ month ∧ month ≤ 12 ∧ 1 ≤ day ∧ day ≤ 31 ∧ 1900 ≤ year ∧ year ≤ 2100))
    (hshape : matchTemplate DateFormat.dmySlash.template (trim value.data) = false) :
    parseDate rt value = none ↔
      ∀ t, rt.dateParse (trim value.data) = some t →
        ¬ (1900 ≤ getFullYear rt t ∧ getFullYear rt t ≤ 2100) := by
  have hmdy : mdyDate rt (trim value.data) = none := by
    simp only [mdyDate, hm, hbad, if_false]
  have hsome : (digits12Slash (trim value.data)).isSome = true := by
    unfold mdyMatch at hm
    cases h : digits12Slash (trim value.data) with
    | none => simp [h] at hm
    | some x => rfl
  obtain ⟨h1, h3, h4⟩ := digits12Slash_excludes _ hsome
  have hfall : parseDate rt value = nativeFallback rt (trim value.data) := by
    simp only [parseDate, hne, if_false, parseDateStr, hmdy, formats, formatLoop, h1, hshape,
      h3, h4]
    simp
  rw [hfall]
  unfold nativeFallback
  cases hp : rt.dateParse (trim value.data) with
  | none => simp
  | some t =>
    by_cases hy : 1900 ≤ getFullYear rt t ∧ getFullYear rt t ≤ 2100
    · simp only [hy, and_self, if_true]
      constructor
      · intro h
        cases h
      · intro h
        exact absurd hy (h t rfl)
    · simp only [hy, if_false, true_iff]
      intro t2 ht2
      cases ht2
      exact hy

/-- C6, amended, at the inputs 13/1/2024 and 1/1/1800, which are not of the two-digit
form and which the native parser of the sample runtime rejects. -/
theorem parseDate_mdy_out_of_range_witness :
    parseDate utcRuntime "13/1/2024" = none ∧ parseDate utcRuntime "1/1/1800" = none :=
  ⟨(parseDate_mdy_out_of_range utcRuntime "13/1/2024" 13 1 2024 (by decide) (by decide)
      (by decide) (by decide)).2 (fun t ht => nomatch ht),
   (parseDate_mdy_out_of_range utcRuntime "1/1/1800" 1 1 1800 (by decide) (by decide)
      (by decide) (by decide)).2 (fun t ht => nomatch ht)⟩

/-- C7, as stated, fails at the empty text: an auto-apply rule with an empty pattern
is contained in it, yet `findAccountMatch` returns `null` because of its guard
`if (!text) return null`. -/
theorem findAccountMatch_empty_text_null :
    ruleMatches utcRuntime "" emptyPatternRule = true ∧
    findAccountMatch utcRuntime (some "") [] [emptyPatternRule] (fun _ => []) = none := by
  decide

/-- C7, amended. For every non-empty text: when `rule` is the first rule in list order
that is auto-apply and whose lower-cased pattern is contained in the lower-cased text,
`findAccountMatch` returns its `mapped_account_id`, whatever the accounts are (so also
when the text equals an account name or code). -/
theorem findAccountMatch_rule_first (rt : Runtime) (text : String) (accounts : List Account)
    (before after : List MappingRule) (rule : MappingRule)
    (fuse : List Char → List (Account × Option ℚ))
    (hne : text.data ≠ [])
    (hbefore : ∀ r ∈ before, ¬ (r.auto_apply = true ∧
      rt.toLowerCase r.legacy_text_pattern.data <:+: rt.toLowerCase text.data))
    (hrule : rule.auto_apply = true ∧
      rt.toLowerCase rule.legacy_text_pattern.data <:+: rt.toLowerCase text.data) :
    findAccountMatch rt (some text) accounts (before ++ rule :: after) fuse
      = some rule.mapped_account_id := by
  have hfind : (before ++ rule :: after).find? (ruleMatches rt text) = some rule := by
    rw [List.find?_eq_some]
    refine ⟨?_, before, after, rfl, ?_⟩
    · simp [ruleMatches, includes, hrule.1, hrule.2]
    · intro r hr
      have := hbefore r hr
      simp only [ruleMatches, includes, Bool.not_eq_true', Bool.and_eq_false_iff,
        decide_eq_false_iff_not]
      by_cases ha : r.auto_apply = true
      · right
        exact fun hc => this ⟨ha, hc⟩
      · left
        simpa using ha
  simp only [findAccountMatch, hne, if_false, hfind]

/-- C7, amended, at the text "Office Rent", which is also the exact name of an account:
the rule for "Rent" wins. -/
theorem findAccountMatch_rule_first_witness :
    findAccountMatch utcRuntime (some "Office Rent") [officeRentAccount]
      ([] ++ rentRule :: []) (fun _ => []) = some 7 :=
  findAccountMatch_rule_first utcRuntime "Office Rent" [officeRentAccount] [] [] rentRule
    (fun _ => []) (by decide) (by intro r hr; exact absurd hr (List.not_mem_nil _))
    (by decide)

/-- C8. For every record of the batch that `validateBatch` processes (status
`normalized` or `mapped`; raw ids are a primary key), the record afterwards is
`validated` exactly when the error list is empty and `failed` otherwise, where the
error list, the one stored in `validation_errors`, is in this order "Missing date" for
an empty date, "Invalid or missing amount" for a missing or non-positive amount, and
"No accounts could be mapped" when neither account text resolves. -/
theorem validateBatch_validated_iff_no_errors (rt : Runtime) (s : Store) (batchId : Nat)
    (hpk : (s.rawRecords.map (fun r => r.raw_id)).Nodup)
    (r : RawRecord) (hr : r ∈ s.rawRecords) (hb : r.batch_id = batchId)
    (hs : r.status = RecordStatus.normalized ∨ r.status = RecordStatus.mapped) :
    ∃ r2 ∈ (validateBatch rt s batchId).1.rawRecords,
      r2.raw_id = r.raw_id ∧
      (r2.status = RecordStatus.validated ↔
        specErrors rt (activeAccounts s) (getMappingRules s)
          (newFuse rt (activeAccounts s)) r = []) ∧
      (r2.status = RecordStatus.failed ↔
        specErrors rt (activeAccounts s) (getMappingRules s)
          (newFuse rt (activeAccounts s)) r ≠ []) ∧
      r2.validation_errors =
        (if specErrors rt (activeAccounts s) (getMappingRules s)
            (newFuse rt (activeAccounts s)) r = [] then none
          else some (specErrors rt (activeAccounts s) (getMappingRules s)
            (newFuse rt (activeAccounts s)) r)) := by
  obtain ⟨r2, hr2, h1, h2, h3⟩ := validateBatch_record rt s batchId hpk r hr hb hs
  refine ⟨r2, hr2, h1, ?_, ?_, ?_⟩
  · rw [h2]
    unfold validationStatus
    cases specErrors rt (activeAccounts s) (getMappingRules s)
      (newFuse rt (activeAccounts s)) r <;> simp
  · rw [h2]
    unfold validationStatus
    cases specErrors rt (activeAccounts s) (getMappingRules s)
      (newFuse rt (activeAccounts s)) r <;> simp
  · rw [h3]
    cases specErrors rt (activeAccounts s) (getMappingRules s)
      (newFuse rt (activeAccounts s)) r <;> simp

/-- C8 at the first record of the sample store, which has a date, a positive amount
and two account texts that resolve: it is stored as `validated` with no errors. -/
theorem validateBatch_validated_iff_no_errors_witness :
    ∃ r2 ∈ (validateBatch utcRuntime normalizedStore 1).1.rawRecords,
      r2.raw_id = 1 ∧ r2.status = RecordStatus.validated ∧ r2.validation_errors = none := by
  obtain ⟨r2, hr2, h1, h2, -, h4⟩ :=
    validateBatch_validated_iff_no_errors utcRuntime normalizedStore 1 (by decide) goodRecord
      (List.mem_cons_self _ _) (by decide) (Or.inl (by decide))
  have he : specErrors utcRuntime (activeAccounts normalizedStore)
      (getMappingRules normalizedStore)
      (newFuse utcRuntime (activeAccounts normalizedStore)) goodRecord = [] := by
    decide
  exact ⟨r2, hr2, h1, h2.mpr he, by rw [h4, if_pos he]⟩

/-- C9. A normalized record whose `detected_amount` is 0 is set to `failed` by
`validateBatch`, and its stored `validation_errors` contain "Invalid or missing
amount", whatever its date and account texts are. -/
theorem validateBatch_zero_amount_fails (rt : Runtime) (s : Store) (batchId : Nat)
    (hpk : (s.rawRecords.map (fun r => r.raw_id)).Nodup)
    (r : RawRecord) (hr : r ∈ s.rawRecords) (hb : r.batch_id = batchId)
    (hs : r.status = RecordStatus.normalized) (ha : r.detected_amount = some 0) :
    ∃ r2 ∈ (validateBatch rt s batchId).1.rawRecords,
      r2.raw_id = r.raw_id ∧ r2.status = RecordStatus.failed ∧
      ∃ errors, r2.validation_errors = some errors ∧
        "Invalid or missing amount" ∈ errors := by
  obtain ⟨r2, hr2, h1, h2, h3⟩ := validateBatch_record rt s batchId hpk r hr hb (Or.inl hs)
  have hmem : "Invalid or missing amount" ∈ specErrors rt (activeAccounts s)
      (getMappingRules s) (newFuse rt (activeAccounts s)) r := by
    simp [specErrors, ha]
  have hpos : (specErrors rt (activeAccounts s) (getMappingRules s)
      (newFuse rt (activeAccounts s)) r).length > 0 :=
    List.length_pos_of_mem hmem
  refine ⟨r2, hr2, h1, ?_, _, ?_, hmem⟩
  · rw [h2, validationStatus, if_pos hpos]
  · rw [h3, if_pos hpos]

/-- C9 at the second record of the sample store: amount 0 with a date and two account
texts that resolve. -/
theorem validateBatch_zero_amount_fails_witness :
    (strFalsy zeroAmountRecord.detected_date = false ∧
      idTruthy (findAccountMatch utcRuntime zeroAmountRecord.detected_debit_account
        (activeAccounts normalizedStore) (getMappingRules normalizedStore) (fun _ => [])) = true ∧
      idTruthy (findAccountMatch utcRuntime zeroAmountRecord.detected_credit_account
        (activeAccounts normalizedStore) (getMappingRules normalizedStore) (fun _ => [])) = true) ∧
    ∃ r2 ∈ (validateBatch utcRuntime normalizedStore 1).1.rawRecords,
      r2.raw_id = 2 ∧ r2.status = RecordStatus.failed ∧
      ∃ errors, r2.validation_errors = some errors ∧
        "Invalid or missing amount" ∈ errors :=
  ⟨by decide,
   validateBatch_zero_amount_fails utcRuntime normalizedStore 1 (by decide) zeroAmountRecord
    (List.mem_cons_of_mem _ (List.mem_cons_self _ _)) (by decide) (by decide) (by decide)⟩

/-- C10, as stated, fails: with two hand-numbered vouchers JRN-2024-00007 (older) and
JRN-2024-00003 (newer) the next number is JRN-2024-00004, not one plus the highest
sequence number 7; and after JRN-2024-99999 the next number has six digits. -/
theorem generateVoucherNumber_not_highest :
    generateVoucherNumber utcRuntime outOfOrderStore "Journal" = "JRN-2024-00004" ∧
    generateVoucherNumber utcRuntime fullSequenceStore "Journal" = "JRN-2024-100000" := by
  decide

/-- C10, amended. The number allocated is the lead `PFX-YEAR-` followed by: `00001`
when no voucher number matches the lead; otherwise one plus the sequence number of the
matching voucher with the greatest `voucher_id` (the most recent one, when its number
has the shape `A-B-NNNNN` with a sequence number below 2^53, where doubles count
exactly), zero-padded to at least five digits, which are exactly five up to 99999.
`generateVoucherNumber` allocates so with DBV, CRV or JRN and the current year, and the
transaction of `postBatch` with LGC. -/
theorem voucher_number_from_most_recent (rt : Runtime) (s : Store) (pfx : String) (year : Nat) :
    ((∀ w ∈ s.vouchers,
        likeStart (pfx.data ++ '-' :: natToString year ++ ['-']) w.voucher_number = false) →
      nextVoucherNumber s.vouchers pfx year
        = String.mk (pfx.data ++ '-' :: natToString year ++ ['-'] ++ "00001".data)) ∧
    (∀ (v : Voucher) (a b : List Char) (k : Nat),
      v ∈ s.vouchers →
      likeStart (pfx.data ++ '-' :: natToString year ++ ['-']) v.voucher_number = true →
      (∀ w ∈ s.vouchers,
        likeStart (pfx.data ++ '-' :: natToString year ++ ['-']) w.voucher_number = true →
        w ≠ v → w.voucher_id < v.voucher_id) →
      '-' ∉ a → '-' ∉ b →
      v.voucher_number = String.mk (a ++ '-' :: (b ++ '-' :: padStart 5 (natToString k))) →
      k < 9007199254740992 →
      nextVoucherNumber s.vouchers pfx year
        = String.mk (pfx.data ++ '-' :: natToString year ++ ['-'] ++
            padStart 5 (natToString (k + 1))) ∧
      (k + 1 ≤ 99999 → (padStart 5 (natToString (k + 1))).length = 5)) ∧
    (∀ type : String, generateVoucherNumber rt s type
      = nextVoucherNumber s.vouchers
          (if type = "Debit" then "DBV" else if type = "Credit" then "CRV" else "JRN")
          rt.currentYear) ∧
    (∀ (record : RawRecord) (debitId creditId : Nat) (s1 : Store) (vid : Nat) (num : String),
      postTransaction rt s record debitId creditId = Except.ok (s1, vid, num) →
      num = nextVoucherNumber s.vouchers "LGC" rt.currentYear) := by
  refine ⟨?_, ?_, ?_, ?_⟩
  · intro hnone
    unfold nextVoucherNumber
    simp only [lastVoucherLike_none _ _ hnone]
    rfl
  · intro v a b k hv hlike hmax ha hb hnum _
    exact ⟨nextVoucherNumber_after s.vouchers pfx year v a b k
      (lastVoucherLike_most_recent _ _ v hv hlike hmax) ha hb hnum,
      padStart_five_length (k + 1)⟩
  · intro type
    rfl
  · intro record debitId creditId s1 vid num h
    unfold postTransaction at h
    dsimp only at h
    split at h
    · exact absurd h (by simp)
    · exact absurd h (by simp)
    · split at h
      · exact absurd h (by simp)
      · split at h
        · exact absurd h (by simp)
        · simp only [Except.ok.injEq, Prod.mk.injEq] at h
          exact h.2.2.symm

/-- C10, amended, at the store with the vouchers JRN-2024-00007 (id 1) and
JRN-2024-00003 (id 2): the most recent one gives JRN-2024-00004. -/
theorem voucher_number_from_most_recent_witness :
    nextVoucherNumber outOfOrderStore.vouchers "JRN" 2024 = "JRN-2024-00004" ∧
    (padStart 5 (natToString (3 + 1))).length = 5 :=
  ⟨((voucher_number_from_most_recent utcRuntime outOfOrderStore "JRN" 2024).2.1
      { voucher_id := 2, voucher_number := "JRN-2024-00003", voucher_type := "Journal",
        voucher_date := "2024-03-16", narration := none, total_amount := 5000,
        legacy_raw_id := none }
      "JRN".data "2024".data 3
      (List.mem_cons_of_mem _ (List.mem_cons_self _ _)) (by decide)
      (by decide) (by decide) (by decide) (by decide) (by decide)).1,
   ((voucher_number_from_most_recent utcRuntime outOfOrderStore "JRN" 2024).2.1
      { voucher_id := 2, voucher_number := "JRN-2024-00003", voucher_type := "Journal",
        voucher_date := "2024-03-16", narration := none, total_amount := 5000,
        legacy_raw_id := none }
      "JRN".data "2024".data 3
      (List.mem_cons_of_mem _ (List.mem_cons_self _ _)) (by decide)
      (by decide) (by decide) (by decide) (by decide) (by decide)).2 (by decide)⟩

/-- C12: the code at the row of the scenario with the amount 0, a payload with a
parsable date, a numeric amount, one debit candidate and one narration candidate. The
amount loop counts the amount as detected (`!isNaN(amount)`, confidence 0.75 as for
the amount 5000) and the test `!amount` after the loop still pushes the warning
"Could not detect amount"; the claim gives no warnings. -/
theorem attemptNormalization_zero_amount_warns :
    attemptNormalization isoRuntime (some zeroAmountPayload) = Except.ok
      { date := some "2024-03-15", amount := JsNumber.num 0,
        debit_account := some "Office Rent", credit_account := none,
        narration := "Q1 rent", confidence := 3 / 4,
        warnings := some ["Could not detect amount"] } := by
  apply congrArg Except.ok
  decide!

/-- The four-field payloads outside the zero amount. For a payload whose keys are
exactly one date candidate with a value that `parseDate` accepts, one amount candidate
whose filtered value parses to a number other than 0, one debit candidate with a value and one narration candidate with a value
that is not blank, `attemptNormalization` returns the parsed date, the number, the
trimmed debit text, no credit account, the trimmed narration, confidence 0.75 and no
warnings. -/
theorem attemptNormalization_four_fields (rt : Runtime) (payload : List (String × JsValue))
    (dk ak bk nk : String) (dv av bv nv : JsValue) (d : String) (a : ℚ)
    (hkeys : ∀ kv ∈ payload, kv.1 = dk ∨ kv.1 = ak ∨ kv.1 = bk ∨ kv.1 = nk)
    (hdk : dk ∈ dateFields) (hak : ak ∈ amountFields) (hbk : bk ∈ debitFields)
    (hnk : nk ∈ narrationFields)
    (hd : getField payload dk = some dv) (hdt : dv.truthy = true)
    (hdp : parseDateStr rt (dv.toStr rt) = some d)
    (ha : getField payload ak = some av)
    (hap : parseFloatFiltered (filterNumeric (av.toStr rt)) = some a) (ha0 : a ≠ 0)
    (hb : getField payload bk = some bv) (hbt : bv.truthy = true)
    (hn : getField payload nk = some nv) (hnt : nv.truthy = true)
    (hnn : trim (nv.toStr rt) ≠ []) :
    attemptNormalization rt (some payload) = Except.ok
      { date := some d, amount := JsNumber.num a,
        debit_account := some (String.mk (trim (bv.toStr rt))), credit_account := none,
        narration := String.mk (trim (nv.toStr rt)), confidence := 3 / 4, warnings := none } := by
  obtain ⟨hD, hA, hB, hC, hG⟩ := candidate_keys_disjoint
  have habsent : ∀ k, k ≠ dk → k ≠ ak → k ≠ bk → k ≠ nk → getField payload k = none := by
    intro k h1 h2 h3 h4
    cases h : getField payload k with
    | none => rfl
    | some v =>
      rcases hkeys (k, v) (getField_some_mem payload k v h) with e | e | e | e
      · exact absurd e h1
      · exact absurd e h2
      · exact absurd e h3
      · exact absurd e h4
  have hdate : detectDate rt payload dateFields = some d :=
    detectDate_unique rt payload dateFields dk dv d hdk
      (fun k2 hk2 hne => habsent k2 hne
        (fun e => (hD k2 hk2).1 (by rw [e]; exact hak))
        (fun e => (hD k2 hk2).2.1 (by rw [e]; exact hbk))
        (fun e => (hD k2 hk2).2.2.2.2 (by rw [e]; exact hnk)))
      hd hdt hdp
  have hamt : detectAmount rt payload amountFields JsNumber.null = (JsNumber.num a, true) :=
    detectAmount_unique rt payload amountFields ak av a hak
      (fun k2 hk2 hne => habsent k2
        (fun e => (hD dk hdk).1 (by rw [← e]; exact hk2)) hne
        (fun e => (hA k2 hk2).1 (by rw [e]; exact hbk))
        (fun e => (hA k2 hk2).2.2.2 (by rw [e]; exact hnk)))
      ha hap JsNumber.null
  have hdeb : firstValue payload debitFields = some bv :=
    firstValue_unique payload debitFields bk bv hbk
      (fun k2 hk2 hne => habsent k2
        (fun e => (hD dk hdk).2.1 (by rw [← e]; exact hk2))
        (fun e => (hA ak hak).1 (by rw [← e]; exact hk2)) hne
        (fun e => (hB k2 hk2).2.2 (by rw [e]; exact hnk)))
      hb hbt
  have hnar : firstValue payload narrationFields = some nv :=
    firstValue_unique payload narrationFields nk nv hnk
      (fun k2 hk2 hne => habsent k2
        (fun e => (hD dk hdk).2.2.2.2 (by rw [← e]; exact hk2))
        (fun e => (hA ak hak).2.2.2 (by rw [← e]; exact hk2))
        (fun e => (hB bk hbk).2.2 (by rw [← e]; exact hk2)) hne)
      hn hnt
  have hcred : firstValue payload creditFields = none :=
    firstValue_absent payload creditFields (fun k2 hk2 v2 h2 => by
      rw [habsent k2
        (fun e => (hD dk hdk).2.2.1 (by rw [← e]; exact hk2))
        (fun e => (hA ak hak).2.1 (by rw [← e]; exact hk2))
        (fun e => (hB bk hbk).1 (by rw [← e]; exact hk2))
        (fun e => (hC k2 hk2).2 (by rw [e]; exact hnk))] at h2
      exact absurd h2 (by simp))
  have hacc : firstValue payload accountFields = none :=
    firstValue_absent payload accountFields (fun k2 hk2 v2 h2 => by
      rw [habsent k2
        (fun e => (hD dk hdk).2.2.2.1 (by rw [← e]; exact hk2))
        (fun e => (hA ak hak).2.2.1 (by rw [← e]; exact hk2))
        (fun e => (hB bk hbk).2.1 (by rw [← e]; exact hk2))
        (fun e => (hG k2 hk2) (by rw [e]; exact hnk))] at h2
      exact absurd h2 (by simp))
  simp only [attemptNormalization, attemptNormalizationFields, hdate, hamt,
    detectText_eq_firstValue, hdeb, hcred, hacc, hnar, Option.map_some', Option.map_none']
  have hnf : strFalsy (some (String.mk (trim (nv.toStr rt)))) = false := by
    simp [strFalsy, hnn]
  have hnone : strFalsy none = true := rfl
  by_cases hbf : strFalsy (some (String.mk (trim (bv.toStr rt)))) = true
  · simp [hbf, hnf, hnone, JsNumber.falsy, ha0]
    norm_num
  · simp only [Bool.not_eq_true] at hbf
    simp [hbf, hnf, hnone, JsNumber.falsy, ha0]
    norm_num

/-- The payload of the scenario, with native parsing of ISO dates: confidence 0.75 and
no warnings. -/
theorem attemptNormalization_four_fields_witness :
    attemptNormalization isoRuntime (some scenarioPayload) = Except.ok
      { date := some "2024-03-15", amount := JsNumber.num 5000,
        debit_account := some "Office Rent", credit_account := none,
        narration := "Q1 rent", confidence := 3 / 4, warnings := none } :=
  attemptNormalization_four_fields isoRuntime scenarioPayload "date" "amount" "paid_to" "notes"
    (.str "2024-03-15") (.str "5000") (.str "Office Rent") (.str "Q1 rent") "2024-03-15" 5000
    (by decide) (by decide) (by decide) (by decide) (by decide) (by decide) (by decide)
    (by decide) (by decide) (by decide!) (by decide) (by decide) (by decide) (by decide)
    (by decide) (by decide)

/-- C13. When no debit-specific and no credit-specific candidate key is present and
`gk` is the first generic account key (account, Account, account_name, ledger) with a
value, `attemptNormalization` returns the trimmed text of that value as `debit_account`,
no `credit_account`, a warning list containing "Only one account detected, manual
mapping required", and a confidence in which the account field counts exactly 0.1 next
to 0.25 for a detected date, 0.25 for a detected amount and 0.125 for a narration key. -/
theorem attemptNormalization_generic_account (rt : Runtime) (payload : List (String × JsValue))
    (before after : List String) (gk : String) (v : JsValue)
    (hsplit : accountFields = before ++ gk :: after)
    (hdeb : ∀ k ∈ debitFields, getField payload k = none)
    (hcred : ∀ k ∈ creditFields, getField payload k = none)
    (hbefore : ∀ k ∈ before, ∀ v2, getField payload k = some v2 → v2.truthy = false)
    (hg : getField payload gk = some v) (hv : v.truthy = true) :
    ∃ r, attemptNormalization rt (some payload) = Except.ok r ∧
      r.debit_account = some (String.mk (trim (v.toStr rt))) ∧
      r.credit_account = none ∧
      (∃ w, r.warnings = some w ∧
        "Only one account detected, manual mapping required" ∈ w) ∧
      r.confidence =
        (if r.date.isSome then 1 / 4 else 0) +
        (if anyField payload amountFields
            (fun x => (parseFloatFiltered (filterNumeric (x.toStr rt))).isSome)
          then 1 / 4 else 0) +
        1 / 10 +
        (if (firstValue payload narrationFields).isSome then 1 / 8 else 0) := by
  have hfd : firstValue payload debitFields = none :=
    firstValue_absent payload debitFields (fun k hk v2 h2 => by
      rw [hdeb k hk] at h2
      exact absurd h2 (by simp))
  have hfc : firstValue payload creditFields = none :=
    firstValue_absent payload creditFields (fun k hk v2 h2 => by
      rw [hcred k hk] at h2
      exact absurd h2 (by simp))
  have hfa : firstValue payload accountFields = some v := by
    rw [hsplit]
    exact firstValue_first payload before after gk v hbefore hg hv
  have hnone : strFalsy none = true := rfl
  refine ⟨attemptNormalizationFields rt payload, rfl, ?_, ?_, ?_, ?_⟩
  · simp [attemptNormalizationFields, detectText_eq_firstValue, hfd, hfc, hfa, hnone]
  · simp [attemptNormalizationFields, detectText_eq_firstValue, hfc]
  · simp only [attemptNormalizationFields, detectText_eq_firstValue, hfd, hfc, hfa, hnone,
      Option.map_none', Option.map_some', Bool.and_self, if_true, Option.isSome_some]
    rw [if_pos (by simp)]
    exact ⟨_, rfl, by simp⟩
  · have hle : ∀ (p q r : Prop) [Decidable p] [Decidable q] [Decidable r],
        ((if p then (1 : ℚ) / 4 else 0) + (if q then 1 / 4 else 0) + 0 + 0 + 1 / 10 +
          (if r then 1 / 8 else 0)) ≤ 1 := by
      intro p q r _ _ _
      split_ifs <;> norm_num
    simp only [attemptNormalizationFields, detectText_eq_firstValue, hfd, hfc, hfa, hnone,
      Option.map_none', Option.map_some', Bool.and_self, if_true, Option.isSome_some,
      Option.isSome_none, Bool.false_eq_true, if_false, detectAmount_snd, Option.isSome_map']
    rw [min_eq_left (hle _ _ _)]
    ring

/-- C13 at the payload with the single field Account = "Cash": `debit_account` is Cash
and the confidence is 0.1. -/
theorem attemptNormalization_generic_account_witness :
    ∃ r, attemptNormalization utcRuntime (some genericAccountPayload) = Except.ok r ∧
      r.debit_account = some "Cash" ∧ r.credit_account = none ∧
      (∃ w, r.warnings = some w ∧
        "Only one account detected, manual mapping required" ∈ w) ∧
      r.confidence = 1 / 10 := by
  obtain ⟨r, h1, h2, h3, h4, h5⟩ :=
    attemptNormalization_generic_account utcRuntime genericAccountPayload ["account"]
      ["account_name", "ledger"] "Account" (.str "Cash") (by decide) (by decide) (by decide)
      (by decide) (by decide) (by decide)
  refine ⟨r, h1, h2, h3, h4, ?_⟩
  have hr : r = attemptNormalizationFields utcRuntime genericAccountPayload := by
    injection h1 with h
    exact h.symm
  rw [h5, hr]
  decide!

/-- C14: the code at the input 2024/03/15. The YYYY/MM/DD entry of `formats` also takes
the slash branch written for DD/MM/YYYY, which builds `new Date("15", 2, "2024")`: the
result in UTC is 1920-09-13, where the claim gives 2024-03-15. -/
theorem parseDate_ymd_slash_misread :
    parseDate utcRuntime "2024/03/15" = some "1920-09-13" ∧
    parseDate isoRuntime "2024/03/15" = some "1920-09-13" := by
  decide

/-- C17. For every non-null payload the confidence returned by `attemptNormalization`
is the smaller of 1 and the sum of 0.25 for a detected date, 0.25 for a detected amount,
0.125 for a debit-specific key, 0.125 for a credit-specific key, 0.1 for the generic
account fallback and 0.125 for a narration key; it lies between 0 and 1. -/
theorem attemptNormalization_confidence (rt : Runtime) (payload : List (String × JsValue)) :
    ∃ r, attemptNormalization rt (some payload) = Except.ok r ∧
      r.confidence = min 1 (specConfidenceSum rt payload) ∧
      0 ≤ r.confidence ∧ r.confidence ≤ 1 := by
  have hgen : (if (strFalsy (detectText rt payload debitFields) &&
        strFalsy (detectText rt payload creditFields)) = true
      then detectText rt payload accountFields else none).isSome
      = (blankText rt (firstValue payload debitFields) &&
          blankText rt (firstValue payload creditFields) &&
          (firstValue payload accountFields).isSome) := by
    rw [strFalsy_detectText, strFalsy_detectText]
    cases blankText rt (firstValue payload debitFields) <;>
      cases blankText rt (firstValue payload creditFields) <;>
      simp [detectText_eq_firstValue]
  have hconf : (attemptNormalizationFields rt payload).confidence
      = min 1 (specConfidenceSum rt payload) := by
    simp only [attemptNormalizationFields, specConfidenceSum, hgen, detectDate_isSome,
      detectAmount_snd]
    rw [min_comm]
    simp only [detectText_eq_firstValue, Option.isSome_map']
  have hnonneg : 0 ≤ specConfidenceSum rt payload := by
    unfold specConfidenceSum
    split_ifs <;> norm_num
  refine ⟨attemptNormalizationFields rt payload, rfl, hconf, ?_, ?_⟩
  · rw [hconf]
    exact le_min (by norm_num) hnonneg
  · rw [hconf]
    exact min_le_left _ _

/-- C18, as stated, fails: a field whose value is the empty string is left out of the
synthesized narration. -/
theorem attemptNormalization_narration_skips_empty :
    (attemptNormalizationFields utcRuntime emptyFieldPayload).narration = "party: Acme" ∧
    allStringsNarration emptyFieldPayload = "ref: ; party: Acme" := by
  decide

/-- C18, amended. When no narration candidate key has a value, the narration returned
is the text `key: value` of every field whose value is a non-empty string, in payload
order, joined by "; ". -/
theorem attemptNormalization_synth_narration (rt : Runtime) (payload : List (String × JsValue))
    (hnone : ∀ k ∈ narrationFields, ∀ v, getField payload k = some v → v.truthy = false) :
    ∃ r, attemptNormalization rt (some payload) = Except.ok r ∧
      r.narration = specNarration payload := by
  refine ⟨attemptNormalizationFields rt payload, rfl, ?_⟩
  have h : firstValue payload narrationFields = none :=
    firstValue_absent payload narrationFields hnone
  simp [attemptNormalizationFields, detectText_eq_firstValue, h, strFalsy,
    synthNarration_eq_spec]

/-- C18, amended, at a payload with an empty string field and a non-empty one. -/
theorem attemptNormalization_synth_narration_witness :
    ∃ r, attemptNormalization utcRuntime (some emptyFieldPayload) = Except.ok r ∧
      r.narration = "party: Acme" :=
  attemptNormalization_synth_narration utcRuntime emptyFieldPayload (by decide)

/-- C19: the code at the payload with amount = "abc". The loop assigns the result of
`parseFloat` before it tests it, so the amount returned is `NaN`, where the claim gives
`null`. -/
theorem attemptNormalization_amount_nan :
    (attemptNormalizationFields utcRuntime badAmountPayload).amount = JsNumber.nan ∧
    attemptNormalization utcRuntime (some badAmountPayload)
      = Except.ok (attemptNormalizationFields utcRuntime badAmountPayload) := by
  exact ⟨by decide, rfl⟩

/-- C15: the code never accepts a fuzzy candidate. `validateBatch` and `postBatch`
build the index without `includeScore`, so the hits of `fuse.search` carry no `score`
and the test `fuzzyResults[0].score < 0.3` fails for every hit: with the index of the
service, `findAccountMatch` returns what it returns with an index that finds nothing.
At the text `Office Rnt`, which Fuse.js matches to the account `Office Rent` with a
score below the threshold, the result is `null`, not the account id 5. -/
theorem findAccountMatch_fuzzy_tier_dead :
    (∀ (rt : Runtime) (text : Option String) (accounts indexed : List Account)
        (mappingRules : List MappingRule),
      findAccountMatch rt text accounts mappingRules (newFuse rt indexed)
        = findAccountMatch rt text accounts mappingRules (fun _ => [])) ∧
    (nearHitRuntime.fuseSearch [officeRentAccount] (4 / 10) "Office Rnt".data
        = [(officeRentAccount, 1 / 10)] ∧
      findAccountMatch nearHitRuntime (some "Office Rnt") [officeRentAccount] []
        (newFuse nearHitRuntime [officeRentAccount]) = none) := by
  refine ⟨?_, by decide!, by decide!⟩
  intro rt text accounts indexed mappingRules
  exact findAccountMatch_newFuse rt text accounts indexed mappingRules

/-- C16. A successful `importBatch` that returns the batch id `batchId` and
`records_imported = n` has parsed the file into `n` rows of a CSV or JSON source, and
adds exactly: one batch with that (new) id, `total_records = n` and status `pending`;
`n` raw records of that batch with status `raw` whose payloads are the serialised rows
in order; and one audit entry `BATCH_IMPORTED` for the batch. -/
theorem importBatch_success (rt : Runtime) (s : Store) (filePath sourceType : String)
    (batchId n : Nat)
    (h : (importBatch rt s filePath sourceType).2 = Except.ok (batchId, n)) :
    ∃ (rows : List String) (news : List RawRecord) (entry : AuditEntry),
      parseRows rt filePath sourceType = Except.ok rows ∧ rows.length = n ∧
      (sourceType = "CSV" ∨ sourceType = "JSON") ∧
      (∀ b ∈ s.batches, b.batch_id ≠ batchId) ∧
      (importBatch rt s filePath sourceType).1.batches = s.batches ++
        [{ batch_id := batchId, source_file := rt.basename filePath, source_type := sourceType,
           total_records := n, processed_records := 0, failed_records := 0,
           status := BatchStatus.pending, completed_at := none }] ∧
      (importBatch rt s filePath sourceType).1.rawRecords = s.rawRecords ++ news ∧
      news.length = n ∧
      news.map (fun r => (r.batch_id, r.status, r.raw_payload))
        = rows.map (fun payload => (batchId, RecordStatus.raw, payload)) ∧
      (importBatch rt s filePath sourceType).1.auditLog = s.auditLog ++ [entry] ∧
      entry.action_taken = "BATCH_IMPORTED" ∧ entry.batch_id = some batchId := by
  unfold importBatch at h ⊢
  cases hp : parseRows rt filePath sourceType with
  | error msg =>
    simp only [hp] at h
    exact absurd h (by simp)
  | ok rows =>
    simp only [hp, Except.ok.injEq, Prod.mk.injEq] at h ⊢
    obtain ⟨hb, hn⟩ := h
    have hsrc : sourceType = "CSV" ∨ sourceType = "JSON" := by
      unfold parseRows at hp
      by_cases h1 : sourceType = "CSV"
      · exact Or.inl h1
      · by_cases h2 : sourceType = "JSON"
        · exact Or.inr h2
        · simp [h1, h2] at hp
    obtain ⟨news, h1, h2, h3, h4, -, -⟩ := insertRawRecords_spec (newBatchId s) rows
      { s with batches := s.batches ++
                 [{ batch_id := newBatchId s, source_file := rt.basename filePath,
                    source_type := sourceType, total_records := rows.length,
                    processed_records := 0, failed_records := 0,
                    status := BatchStatus.pending, completed_at := none }],
               batchSeq := newBatchId s }
    have hlen : news.length = rows.length := by
      have := congrArg List.length h2
      simpa using this
    refine ⟨rows, news,
      { batch_id := some (newBatchId s), raw_id := none, action_taken := "BATCH_IMPORTED",
        details := String.mk ("Imported ".data ++ natToString rows.length ++
          " records from ".data ++ (rt.basename filePath).data),
        warnings := none, final_voucher_id := none },
      rfl, hn, hsrc, ?_, ?_, ?_, ?_, ?_, ?_, rfl, ?_⟩
    · intro b hb2
      have := newBatchId_fresh s b hb2
      omega
    · simp only [logAudit, h3]
      rw [← hb, ← hn]
    · simp only [logAudit, h1]
    · rw [hlen, hn]
    · rw [h2, ← hb]
    · simp only [logAudit, h4]
    · simp only [hb]

/-- C16 at a CSV file of two rows imported into the sample store. -/
theorem importBatch_success_witness :
    ∃ (rows : List String) (news : List RawRecord) (entry : AuditEntry),
      parseRows importRuntime "legacy-data/ledger.csv" "CSV" = Except.ok rows ∧
      rows.length = 2 ∧
      ("CSV" = "CSV" ∨ "CSV" = "JSON") ∧
      (∀ b ∈ postedStore.batches, b.batch_id ≠ 2) ∧
      (importBatch importRuntime postedStore "legacy-data/ledger.csv" "CSV").1.batches
        = postedStore.batches ++
        [{ batch_id := 2, source_file := importRuntime.basename "legacy-data/ledger.csv",
           source_type := "CSV", total_records := 2, processed_records := 0,
           failed_records := 0, status := BatchStatus.pending, completed_at := none }] ∧
      (importBatch importRuntime postedStore "legacy-data/ledger.csv" "CSV").1.rawRecords
        = postedStore.rawRecords ++ news ∧
      news.length = 2 ∧
      news.map (fun r => (r.batch_id, r.status, r.raw_payload))
        = rows.map (fun payload => (2, RecordStatus.raw, payload)) ∧
      (importBatch importRuntime postedStore "legacy-data/ledger.csv" "CSV").1.auditLog
        = postedStore.auditLog ++ [entry] ∧
      entry.action_taken = "BATCH_IMPORTED" ∧ entry.batch_id = some 2 :=
  importBatch_success importRuntime postedStore "legacy-data/ledger.csv" "CSV" 2 2 rfl

/-- C20. For every source type other than CSV and JSON, `importBatch` returns the
failure "Unsupported file type. Use CSV or JSON." and the store is unchanged: no batch,
no raw record and no audit entry is created. -/
theorem importBatch_unsupported (rt : Runtime) (s : Store) (filePath sourceType : String)
    (hcsv : sourceType ≠ "CSV") (hjson : sourceType ≠ "JSON") :
    importBatch rt s filePath sourceType
      = (s, Except.error "Unsupported file type. Use CSV or JSON.") := by
  simp [importBatch, parseRows, hcsv, hjson]

/-- C20 at the source type Excel, which the scanner gives to `.xlsx` and `.xls` files. -/
theorem importBatch_unsupported_witness :
    scanSourceType ".xlsx" = some "Excel" ∧ scanSourceType ".xls" = some "Excel" ∧
    importBatch importRuntime postedStore "legacy-data/ledger.xlsx" "Excel"
      = (postedStore, Except.error "Unsupported file type. Use CSV or JSON.") :=
  ⟨by decide, by decide,
   importBatch_unsupported importRuntime postedStore "legacy-data/ledger.xlsx" "Excel"
    (by decide) (by decide)⟩

/-- C11. When no voucher number of the store matches `LGC-YEAR-%` for the current
year, the vouchers `postBatch` adds, one per posted record and in posting order, are
numbered `LGC-YEAR-00001`, `LGC-YEAR-00002`, ...: the k-th posted record gets the
sequence number k, zero-padded to five digits, which are exactly five digits up to
99999. -/
theorem postBatch_numbers_consecutive (rt : Runtime) (s : Store) (batchId : Nat)
    (hnone : ∀ w ∈ s.vouchers,
      likeStart ("LGC".data ++ '-' :: natToString rt.currentYear ++ ['-']) w.voucher_number
        = false) :
    ∃ news : List Voucher,
      (postBatch rt s batchId).1.vouchers = s.vouchers ++ news ∧
      news.length = (postBatch rt s batchId).2.processed ∧
      news.map (fun v => v.voucher_number)
        = (List.range news.length).map (fun i => legacyNumber rt.currentYear (i + 1)) ∧
      ∀ k, k ≤ 99999 → (padStart 5 (natToString k)).length = 5 := by
  have h0 : nextVoucherNumber s.vouchers "LGC" rt.currentYear
      = legacyNumber rt.currentYear (0 + 1) := by
    unfold nextVoucherNumber
    simp only [lastVoucherLike_none _ _ hnone]
    rfl
  obtain ⟨news, h1, h2, h3⟩ := postLoop_numbers rt batchId (activeAccounts s)
    (getMappingRules s) (newFuse rt (activeAccounts s))
    (selectRecords s batchId (fun st => st == RecordStatus.validated)) s 0 0 0 h0
  refine ⟨news, ?_, ?_, ?_, fun k hk => padStart_five_length k hk⟩
  · simpa [postBatch, updateBatch, logAudit] using h1
  · have : (postBatch rt s batchId).2.processed = 0 + news.length := by
      simpa [postBatch] using h2
    omega
  · rw [h3]
    apply List.map_congr_left
    intro i _
    congr 1
    omega

/-- C11 at the sample store with two validated records and no voucher, in 2024: the
numbers are LGC-2024-00001 and LGC-2024-00002. -/
theorem postBatch_numbers_consecutive_witness :
    ∃ news : List Voucher,
      (postBatch utcRuntime validatedStore 1).1.vouchers = validatedStore.vouchers ++ news ∧
      news.map (fun v => v.voucher_number) = ["LGC-2024-00001", "LGC-2024-00002"] := by
  obtain ⟨news, h1, h2, h3, -⟩ :=
    postBatch_numbers_consecutive utcRuntime validatedStore 1 (by decide)
  have hp : (postBatch utcRuntime validatedStore 1).2.processed = 2 := by decide
  rw [hp] at h2
  rw [h2] at h3
  exact ⟨news, h1, by rw [h3]; decide⟩

/-- C30. The bulk importer's `parseDate` returns, for every input that starts with
M/D/YYYY (one or two digits, a slash, one or two digits, a slash, four digits) with
month 1..12, day 1..31 and year 1900..2100, exactly the ten-character text YYYY-MM-DD
of the same three numbers, zero-padded, and `null` for every other input. The function
takes no runtime: no time zone enters the result. -/
theorem importer_parseDate_mdy (dateStr : String) :
    (∀ m d y, StartsWithMDY dateStr.data m d y →
      1 ≤ m → m ≤ 12 → 1 ≤ d → d ≤ 31 → 1900 ≤ y → y ≤ 2100 →
      Importer.parseDate dateStr = some (isoText y m d) ∧ (isoText y m d).data.length = 10) ∧
    ((¬ ∃ m d y, StartsWithMDY dateStr.data m d y ∧
        1 ≤ m ∧ m ≤ 12 ∧ 1 ≤ d ∧ d ≤ 31 ∧ 1900 ≤ y ∧ y ≤ 2100) →
      Importer.parseDate dateStr = none) := by
  constructor
  · intro m d y hs hm1 hm2 hd1 hd2 hy1 hy2
    have hmatch := (mdyMatch_iff _ _ _ _).mpr hs
    have hne : dateStr.data ≠ [] := by
      obtain ⟨g1, g2, g3, rest, he, hl, -⟩ := hs
      rw [he]
      rcases g1 with _ | ⟨a, g⟩
      · simp at hl
      · simp
    have hy4 := natToString_length_four y (by omega) (by omega)
    have hpad : padStart 4 (natToString y) = natToString y := by
      simp [padStart, hy4]
    constructor
    · unfold Importer.parseDate
      rw [if_neg hne, hmatch]
      simp only
      rw [if_pos ⟨hm1, hm2, hd1, hd2, hy1, hy2⟩, isoText, hpad]
    · simp only [isoText, hpad, List.length_append, List.length_cons, hy4,
        padStart_two_length m (by omega), padStart_two_length d (by omega)]
  · intro hno
    unfold Importer.parseDate
    split
    · rfl
    · split
      · rename_i m d y hmatch
        split
        · rename_i hr
          exact absurd ⟨m, d, y, (mdyMatch_iff _ _ _ _).mp hmatch, hr⟩ hno
        · rfl
      · rfl

/-- C30 at the inputs 3/15/2024 10:30, which gives 2024-03-15, and 2024-03-15, which
gives `null`. -/
theorem importer_parseDate_mdy_witness :
    Importer.parseDate "3/15/2024 10:30" = some "2024-03-15" ∧
    Importer.parseDate "2024-03-15" = none :=
  ⟨(((importer_parseDate_mdy "3/15/2024 10:30").1 3 15 2024
      ⟨['3'], ['1', '5'], ['2', '0', '2', '4'], " 10:30".data, by decide, by decide, by decide,
        by decide, by decide, by decide, by decide, by decide, by decide, by decide⟩
      (by decide) (by decide) (by decide) (by decide) (by decide) (by decide)).1).trans (by decide),
   (importer_parseDate_mdy "2024-03-15").2 (by
      rintro ⟨m, d, y, h, -⟩
      have hm := (mdyMatch_iff _ _ _ _).mpr h
      have hn : mdyMatch "2024-03-15".data = none := by decide
      rw [hn] at hm
      exact absurd hm (by simp))⟩

/-- C29. In the bulk importer, for every transaction group, every `VType` and every
state of the loop, no insert throws and the rows added to `voucher_entries` are, for
each source row whose account is found, exactly one debit row and one credit row of the
same non-negative amount `|Amount|`, and nothing for a row whose account is unknown.
Hence after the run, for every voucher id, the debit amounts and the credit amounts of
its entries have exactly the same sum, whatever rows were skipped. -/
theorem importer_vouchers_balanced (rt : Runtime) (maps : Importer.Maps) (s : Store)
    (trGroups : List (String × List Importer.Row)) :
    (∀ (trNo vtype : String) (voucherId : Nat) (entries : List Importer.Row)
        (st : Importer.State),
      ∃ debitId creditId : Importer.Row → Nat → Nat,
        (Importer.createEntries rt maps trNo vtype voucherId entries st).2 = none ∧
        (Importer.createEntries rt maps trNo vtype voucherId entries st).1.db.entries
          = st.db.entries ++
            entries.flatMap (fun entry =>
              match Importer.findAccount maps entry with
              | none => []
              | some account =>
                [{ voucher_id := voucherId, account_id := debitId entry account,
                   debit_amount := |(rt.parseFloat entry.Amount.data).getD 0|, credit_amount := 0 },
                 { voucher_id := voucherId, account_id := creditId entry account,
                   debit_amount := 0,
                   credit_amount := |(rt.parseFloat entry.Amount.data).getD 0| }])) ∧
    ∀ v, debitTotal (Importer.main rt maps s trGroups).db.entries v
      = creditTotal (Importer.main rt maps s trGroups).db.entries v := by
  constructor
  · intro trNo vtype voucherId entries st
    obtain ⟨debitId, creditId, h1, h2, -⟩ :=
      importer_createEntries_spec rt maps trNo vtype voucherId entries st
    exact ⟨debitId, creditId, h1, h2⟩
  · intro v
    unfold Importer.main
    apply importer_groupLoop_balanced
    intro w
    simp [debitTotal, creditTotal]

/-- C28. With a `toLowerCase` that maps the empty string to itself: if the rule list
contains an auto-apply rule whose `legacy_text_pattern` is the empty string, then for
every non-empty text `findAccountMatch` returns the `mapped_account_id` of the first
rule in list order that is auto-apply and whose pattern is empty or contained in the
text (compared in lower case), whatever the accounts and the fuzzy matcher are, so the
exact and fuzzy tiers are not reached. And `createMappingRule` accepts the empty
pattern: for an account that exists it returns the new rule id, and the rule is among
the rules `getMappingRules` returns, with `auto_apply` set. -/
theorem findAccountMatch_empty_pattern_rule (rt : Runtime) (hlow : rt.toLowerCase [] = []) :
    (∀ (text : String) (accounts : List Account) (mappingRules : List MappingRule)
        (fuse : List Char → List (Account × Option ℚ)),
      text.data ≠ [] →
      (∃ e ∈ mappingRules, e.auto_apply = true ∧ e.legacy_text_pattern = "") →
      ∃ before rule after, mappingRules = before ++ rule :: after ∧
        (∀ r ∈ before, ¬ (r.auto_apply = true ∧ (r.legacy_text_pattern = "" ∨
          rt.toLowerCase r.legacy_text_pattern.data <:+: rt.toLowerCase text.data))) ∧
        rule.auto_apply = true ∧
        (rule.legacy_text_pattern = "" ∨
          rt.toLowerCase rule.legacy_text_pattern.data <:+: rt.toLowerCase text.data) ∧
        findAccountMatch rt (some text) accounts mappingRules fuse
          = some rule.mapped_account_id) ∧
    (∀ (s : Store) (accountId : Nat) (priority : Option Int),
      (∃ a ∈ s.accounts, a.account_id = accountId) →
      (createMappingRule s { legacy_text_pattern := some "", mapped_account_id := some accountId,
                             priority := priority, auto_apply := none }).2
        = Except.ok (newRuleId s) ∧
      ∃ e ∈ getMappingRules (createMappingRule s
          { legacy_text_pattern := some "", mapped_account_id := some accountId,
            priority := priority, auto_apply := none }).1,
        e.auto_apply = true ∧ e.legacy_text_pattern = "" ∧ e.mapped_account_id = accountId) := by
  have hempty : ∀ (text : String) (r : MappingRule), r.legacy_text_pattern = "" →
      rt.toLowerCase r.legacy_text_pattern.data <:+: rt.toLowerCase text.data := by
    intro text r hr
    rw [hr]
    show rt.toLowerCase [] <:+: _
    rw [hlow]
    exact List.nil_infix
  constructor
  · intro text accounts mappingRules fuse hne ⟨e, he, hauto, hpat⟩
    have hsome : (mappingRules.find? (ruleMatches rt text)).isSome = true := by
      rw [List.find?_isSome]
      exact ⟨e, he, by simp [ruleMatches, includes, hauto, hempty text e hpat]⟩
    obtain ⟨rule, hfind⟩ := Option.isSome_iff_exists.mp hsome
    obtain ⟨hm, before, after, hsplit, hbefore⟩ := List.find?_eq_some.mp hfind
    simp only [ruleMatches, includes, Bool.and_eq_true, decide_eq_true_eq] at hm
    refine ⟨before, rule, after, hsplit, ?_, hm.1, Or.inr hm.2, ?_⟩
    · rintro r hr ⟨ha, hc⟩
      have hnot := hbefore r hr
      have hin : rt.toLowerCase r.legacy_text_pattern.data <:+: rt.toLowerCase text.data := by
        rcases hc with hc | hc
        · exact hempty text r hc
        · exact hc
      simp [ruleMatches, includes, ha, hin] at hnot
    · simp only [findAccountMatch, hne, if_false, hfind]
  · intro s accountId priority ⟨a, ha, haid⟩
    refine ⟨rfl, ⟨{ rule_id := newRuleId s, legacy_text_pattern := "",
                    mapped_account_id := accountId, priority := priority.getD 0,
                    auto_apply := true }, ?_, rfl, rfl, rfl⟩⟩
    rw [mem_getMappingRules]
    exact ⟨by simp [createMappingRule], a, by simpa [createMappingRule] using ha, haid⟩

/-- C28 at the rules for "Rent" and for the empty pattern and the text "Cash": the
empty pattern decides, account 1; and `createMappingRule` with the empty pattern on the
sample store returns rule id 1. -/
theorem findAccountMatch_empty_pattern_rule_witness :
    (∃ before rule after, [rentRule, emptyPatternRule] = before ++ rule :: after ∧
        (∀ r ∈ before, ¬ (r.auto_apply = true ∧ (r.legacy_text_pattern = "" ∨
          utcRuntime.toLowerCase r.legacy_text_pattern.data <:+:
            utcRuntime.toLowerCase "Cash".data))) ∧
        rule.auto_apply = true ∧
        (rule.legacy_text_pattern = "" ∨
          utcRuntime.toLowerCase rule.legacy_text_pattern.data <:+:
            utcRuntime.toLowerCase "Cash".data) ∧
        findAccountMatch utcRuntime (some "Cash") postedStore.accounts
          [rentRule, emptyPatternRule] (newFuse utcRuntime postedStore.accounts)
          = some rule.mapped_account_id) ∧
    findAccountMatch utcRuntime (some "Cash") postedStore.accounts
      [rentRule, emptyPatternRule] (newFuse utcRuntime postedStore.accounts) = some 1 ∧
    (createMappingRule postedStore { legacy_text_pattern := some "", mapped_account_id := some 1,
                                     priority := none, auto_apply := none }).2 = Except.ok 1 :=
  ⟨(findAccountMatch_empty_pattern_rule utcRuntime (by decide)).1 "Cash" postedStore.accounts
      [rentRule, emptyPatternRule] (newFuse utcRuntime postedStore.accounts)
      (by decide) ⟨emptyPatternRule, by decide, by decide, by decide⟩,
   by decide,
   ((findAccountMatch_empty_pattern_rule utcRuntime (by decide)).2 postedStore 1 none
      ⟨{ account_id := 1, account_code := some "1000", account_name := "Cash",
         is_active := true }, by decide, by decide⟩).1⟩

/-- C24, as stated, fails: a debit of 1.01 against a credit of 1.00, amounts that
differ by 0.01, is refused. The totals are doubles, and the difference of the doubles
nearest to 1.01 and to 1.00 is greater than the double nearest to 0.01. And a debit
of 400 digits 9 against a credit of 400 digits 8, amounts that differ by more than
0.01, is valid with the total `Infinity`: both totals are `Infinity`, and their
difference `NaN` is not greater than 0.01. -/
theorem validateVoucherEntries_refuses_one_cent :
    (utcRuntime.parseFloat "1.01".data = some (101 / 100) ∧
      utcRuntime.parseFloat "1.00".data = some 1 ∧
      |(101 : ℚ) / 100 - 1| ≤ 1 / 100 ∧
      errorOf (validateVoucherEntries utcRuntime (some centEntries))
        = some "Voucher is not balanced. Debit: 1.01, Credit: 1.00") ∧
    (utcRuntime.parseFloat (List.replicate 400 '9') = some (10 ^ 400 - 1) ∧
      utcRuntime.parseFloat (List.replicate 400 '8') = some (8 * (10 ^ 400 - 1) / 9) ∧
      (1 : ℚ) / 100 < |(10 ^ 400 - 1) - 8 * (10 ^ 400 - 1) / 9| ∧
      (validateVoucherEntries utcRuntime (some overflowEntries)).toOption
        = some Float64.posInf) := by
  refine ⟨by decide!, ?_, ?_, ?_, ?_⟩ <;> decide!

/-- C24, amended. For an entry list whose total debit and total credit are not both
infinite, `validateVoucherEntries` returns valid exactly when the list has at least 2
entries, every entry has an `account_id`, every entry has exactly one of debit amount
and credit amount greater than 0 with the other equal to 0 (amounts read as
`parseFloat(x) || 0`), and the absolute difference between total debit and total
credit, the totals added in entry order and the difference taken in the double
arithmetic of the engine, is at most the double 0.01. When valid, `totalAmount` is the
total debit. When it returns invalid, `createVoucher` and `updateVoucher` return that
error and leave the store as it was. -/
theorem validateVoucherEntries_valid_iff (rt : Runtime) :
    (∀ entries : Option (List EntryInput),
      (∀ es, entries = some es →
        ¬ (totalDebit rt es = Float64.posInf ∧ totalCredit rt es = Float64.posInf)) →
      ((∃ total, validateVoucherEntries rt entries = Except.ok total) ↔
        ∃ es, entries = some es ∧ 2 ≤ es.length ∧ (∀ e ∈ es, idTruthy e.account_id = true) ∧
          (∀ e ∈ es,
            (Float64.lt (Float64.fin 0) (amountOrZero rt e.debit_amount) = true ∧
              amountOrZero rt e.credit_amount = Float64.fin 0) ∨
            (Float64.lt (Float64.fin 0) (amountOrZero rt e.credit_amount) = true ∧
              amountOrZero rt e.debit_amount = Float64.fin 0)) ∧
          ((totalDebit rt es).sub (totalCredit rt es)).abs.le (roundToDouble (1 / 100))
            = true)) ∧
    (∀ (es : List EntryInput) (total : Float64),
      validateVoucherEntries rt (some es) = Except.ok total → total = totalDebit rt es) ∧
    (∀ (s : Store) (data : VoucherData) (msg : String),
      validateVoucherEntries rt data.entries = Except.error msg →
      createVoucher rt s data = some (s, Except.error msg) ∧
      ∀ id, updateVoucher rt s id data = some (s, Except.error msg)) := by
  refine ⟨?_, ?_, ?_⟩
  · intro entries hinf
    constructor
    · rintro ⟨total, h⟩
      cases entries with
      | none => exact absurd h (by simp [validateVoucherEntries])
      | some es =>
        exact ⟨es, rfl, ((validateVoucherEntries_ok_iff rt es total (hinf es rfl)).mp h).1⟩
    · rintro ⟨es, rfl, hspec⟩
      exact ⟨totalDebit rt es,
        (validateVoucherEntries_ok_iff rt es _ (hinf es rfl)).mpr ⟨hspec, rfl⟩⟩
  · intro es total h
    exact (validateVoucherEntries_total rt es total h).2.2.2.2
  · intro s data msg h
    constructor
    · simp only [createVoucher, h]
    · intro id
      simp only [updateVoucher, h]

/-- C24, amended, at a debit and a credit of 5000 and at a debit of 0.02 with a credit
of 0.01 (the difference of the doubles is the double 0.01), which are valid, and at a
debit of 5000 with a credit of 4000, for which `createVoucher` returns the imbalance
error and the store is unchanged. -/
theorem validateVoucherEntries_valid_iff_witness :
    (∃ total, validateVoucherEntries utcRuntime (some balancedEntries) = Except.ok total) ∧
    (∃ total, validateVoucherEntries utcRuntime (some twoCentEntries) = Except.ok total) ∧
    createVoucher utcRuntime postedStore
        { voucher_number := none, voucher_type := some "Journal",
          voucher_date := some "2024-03-15", narration := none, legacy_raw_id := none,
          entries := some unbalancedEntries }
      = some (postedStore,
         Except.error "Voucher is not balanced. Debit: 5000.00, Credit: 4000.00") :=
  ⟨((validateVoucherEntries_valid_iff utcRuntime).1 (some balancedEntries)
      (fun es h => by
        simp only [Option.some.injEq] at h
        rw [← h]
        decide!)).mpr
      ⟨balancedEntries, rfl, by decide, by decide, by
        simp only [balancedEntries, List.mem_cons, List.mem_singleton, List.not_mem_nil,
          or_false, forall_eq_or_imp, forall_eq]
        decide!, by decide!⟩,
   ((validateVoucherEntries_valid_iff utcRuntime).1 (some twoCentEntries)
      (fun es h => by
        simp only [Option.some.injEq] at h
        rw [← h]
        decide!)).mpr
      ⟨twoCentEntries, rfl, by decide, by decide, by
        simp only [twoCentEntries, List.mem_cons, List.mem_singleton, List.not_mem_nil,
          or_false, forall_eq_or_imp, forall_eq]
        decide!, by decide!⟩,
   ((validateVoucherEntries_valid_iff utcRuntime).2.2 postedStore _ _
      (errorOf_eq_some _ _ (by decide!))).1⟩

/-- C23, as stated, fails for a function that calls `transaction` again: the inner
call finds a transaction open, its `catch` block resets the flag and rolls the outer
transaction back. Here the function catches that error, inserts a row through `run`,
which now writes the file, and returns 1; `COMMIT` then fails, so `transaction` throws
although the function completed, and the inserted row stays. -/
theorem transaction_reentrant_body_fails :
    (∃ db1, reentrantBody.exec idleDatabase.begun = (db1, Except.ok 1) ∧
      db1.saves = idleDatabase.saves + 1) ∧
    (idleDatabase.transaction reentrantBody.exec).2
      = Except.error "cannot commit - no transaction is active" ∧
    (idleDatabase.transaction reentrantBody.exec).1.data ≠ idleDatabase.data := by
  refine ⟨⟨_, rfl, rfl⟩, rfl, ?_⟩
  decide

/-- C23, amended. For a database object on which no transaction is open and every
function body that does not call `transaction` again: when the body completes,
`transaction` returns its value, the flag is false and the data is written to the file
once; when the body throws, `transaction` throws the same error and the database object
is exactly as before the call (data, file and flag); and while the body runs the flag
stays set and no `run` call writes the file. -/
theorem transaction_returns_or_rolls_back (db : AppDatabase) (body : Prog)
    (hflag : db.inTransaction = false) (htxn : db.txn = none)
    (hbody : body.reenters = false) :
    (∀ value, (body.exec db.begun).2 = Except.ok value →
      db.transaction body.exec =
        ({ data := (body.exec db.begun).1.data, txn := none, inTransaction := false,
           file := (body.exec db.begun).1.data, saves := db.saves + 1 }, Except.ok value)) ∧
    (∀ msg, (body.exec db.begun).2 = Except.error msg →
      db.transaction body.exec = (db, Except.error msg)) ∧
    (body.exec db.begun).1.inTransaction = true ∧
    (body.exec db.begun).1.file = db.file ∧ (body.exec db.begun).1.saves = db.saves := by
  obtain ⟨h1, h2, h3, h4⟩ := exec_inside_transaction body db.begun db.data hbody rfl rfl
  have hbegin : ({ db with inTransaction := true } : AppDatabase).beginTransaction
      = Except.ok db.begun := by
    simp [AppDatabase.beginTransaction, AppDatabase.begun, htxn]
  refine ⟨?_, ?_, h1, h3, h4⟩
  · intro value hv
    unfold AppDatabase.transaction
    simp only [hbegin]
    generalize body.exec db.begun = r at h1 h2 h3 h4 hv
    obtain ⟨db3, res⟩ := r
    simp only at h1 h2 h3 h4 hv
    subst hv
    simp only [AppDatabase.commit, h2, Option.isNone_some, Bool.false_eq_true, if_false,
      AppDatabase.save]
    simp [AppDatabase.begun] at h4
    rw [h4]
  · intro msg hv
    unfold AppDatabase.transaction
    simp only [hbegin]
    generalize body.exec db.begun = r at h1 h2 h3 h4 hv
    obtain ⟨db3, res⟩ := r
    simp only at h1 h2 h3 h4 hv
    subst hv
    simp only [AppDatabase.transactionCatch, AppDatabase.rollback, h2]
    obtain ⟨data, txn, flag, file, saves⟩ := db
    simp only at hflag htxn
    subst hflag htxn
    simp only [AppDatabase.begun] at h3 h4
    simp [h3, h4]

/-- C23, amended, at a body that inserts a row and throws, which leaves the sample
database as it was, and at a body that inserts a row and returns 7, which is returned
with the file written once. -/
theorem transaction_returns_or_rolls_back_witness :
    idleDatabase.transaction failingBody.exec = (idleDatabase, Except.error "boom") ∧
    (idleDatabase.transaction insertingBody.exec).2 = Except.ok 7 ∧
    (idleDatabase.transaction insertingBody.exec).1.saves = 1 :=
  ⟨(transaction_returns_or_rolls_back idleDatabase failingBody rfl rfl rfl).2.1 "boom" rfl,
   congrArg Prod.snd
     ((transaction_returns_or_rolls_back idleDatabase insertingBody rfl rfl rfl).1 7 rfl),
   congrArg (fun r => r.1.saves)
     ((transaction_returns_or_rolls_back idleDatabase insertingBody rfl rfl rfl).1 7 rfl)⟩

/-- C25. The audit log is append-only: after `importBatch`, `normalizeRecords`,
`validateBatch` and `postBatch` the log is the log before the call followed by new
entries. `normalizeRecords` and `validateBatch` append exactly one entry, the batch-level
entry (no `raw_id`) BATCH_NORMALIZED or BATCH_VALIDATED of the batch; `postBatch` appends
per-record entries, each with a `raw_id`, and then exactly one batch-level entry
BATCH_POSTED. This holds whatever happened to the records, failures included. -/
theorem audit_log_append_only (rt : Runtime) (s : Store) (batchId : Nat)
    (filePath sourceType : String) :
    (∃ added, (importBatch rt s filePath sourceType).1.auditLog = s.auditLog ++ added) ∧
    (∃ e : AuditEntry, (normalizeRecords rt s batchId).1.auditLog = s.auditLog ++ [e] ∧
      e.raw_id = none ∧ e.batch_id = some batchId ∧ e.action_taken = "BATCH_NORMALIZED") ∧
    (∃ e : AuditEntry, (validateBatch rt s batchId).1.auditLog = s.auditLog ++ [e] ∧
      e.raw_id = none ∧ e.batch_id = some batchId ∧ e.action_taken = "BATCH_VALIDATED") ∧
    (∃ (perRecord : List AuditEntry) (e : AuditEntry),
      (postBatch rt s batchId).1.auditLog = s.auditLog ++ perRecord ++ [e] ∧
      (∀ x ∈ perRecord, x.raw_id ≠ none ∧
        (x.action_taken = "RECORD_POSTED" ∨ x.action_taken = "RECORD_FAILED")) ∧
      e.raw_id = none ∧ e.batch_id = some batchId ∧ e.action_taken = "BATCH_POSTED") := by
  refine ⟨?_, ?_, ?_, ?_⟩
  · unfold importBatch
    split
    · exact ⟨[], by simp⟩
    · rename_i rows _
      obtain ⟨news, -, -, -, h4, -, -⟩ := insertRawRecords_spec (newBatchId s) rows
        { s with batches := s.batches ++
                   [{ batch_id := newBatchId s, source_file := rt.basename filePath,
                      source_type := sourceType, total_records := rows.length,
                      processed_records := 0, failed_records := 0,
                      status := BatchStatus.pending, completed_at := none }],
                 batchSeq := newBatchId s }
      exact ⟨[{ batch_id := some (newBatchId s), raw_id := none, action_taken := "BATCH_IMPORTED",
                details := String.mk ("Imported ".data ++ natToString rows.length ++
                  " records from ".data ++ (rt.basename filePath).data),
                warnings := none, final_voucher_id := none }],
        by simp only [logAudit, h4]⟩
  · have h := auditLog_normalizeLoop rt
      (selectRecords s batchId (fun st => st == RecordStatus.raw)) (s, 0, 0)
    exact ⟨{ batch_id := some batchId, raw_id := none, action_taken := "BATCH_NORMALIZED",
             details := String.mk ("Normalized ".data ++
               natToString (normalizeLoop rt
                 (selectRecords s batchId (fun st => st == RecordStatus.raw)) (s, 0, 0)).2.1 ++
               " records, ".data ++
               natToString (normalizeLoop rt
                 (selectRecords s batchId (fun st => st == RecordStatus.raw)) (s, 0, 0)).2.2 ++
               " failed".data),
             warnings := none, final_voucher_id := none },
      by simp only [normalizeRecords, logAudit, updateBatch, h], rfl, rfl, rfl⟩
  · have h := auditLog_validateLoop rt (activeAccounts s) (getMappingRules s)
      (newFuse rt (activeAccounts s))
      (selectRecords s batchId
        (fun st => st == RecordStatus.normalized || st == RecordStatus.mapped)) (s, 0, 0)
    exact ⟨{ batch_id := some batchId, raw_id := none, action_taken := "BATCH_VALIDATED",
             details := String.mk ("Validated ".data ++
               natToString (validateLoop rt (activeAccounts s) (getMappingRules s)
                 (newFuse rt (activeAccounts s))
                 (selectRecords s batchId
                   (fun st => st == RecordStatus.normalized || st == RecordStatus.mapped))
                 (s, 0, 0)).2.1 ++
               " records, ".data ++
               natToString (validateLoop rt (activeAccounts s) (getMappingRules s)
                 (newFuse rt (activeAccounts s))
                 (selectRecords s batchId
                   (fun st => st == RecordStatus.normalized || st == RecordStatus.mapped))
                 (s, 0, 0)).2.2 ++
               " failed".data),
             warnings := none, final_voucher_id := none },
      by simp only [validateBatch, logAudit, updateBatch, h], rfl, rfl, rfl⟩
  · obtain ⟨added, h1, h2, h3⟩ := postLoop_auditLog rt batchId (activeAccounts s)
      (getMappingRules s) (newFuse rt (activeAccounts s))
      (selectRecords s batchId (fun st => st == RecordStatus.validated)) (s, 0, 0)
    refine ⟨added,
      { batch_id := some batchId, raw_id := none, action_taken := "BATCH_POSTED",
        details := String.mk ("Posted ".data ++
          natToString (postLoop rt batchId (activeAccounts s) (getMappingRules s)
            (newFuse rt (activeAccounts s))
            (selectRecords s batchId (fun st => st == RecordStatus.validated)) (s, 0, 0)).2.1 ++
          " vouchers, ".data ++
          natToString (postLoop rt batchId (activeAccounts s) (getMappingRules s)
            (newFuse rt (activeAccounts s))
            (selectRecords s batchId (fun st => st == RecordStatus.validated)) (s, 0, 0)).2.2 ++
          " failed".data),
        warnings := none, final_voucher_id := none },
      by simp only [postBatch, logAudit, updateBatch, h1], ?_, rfl, rfl, rfl⟩
    intro x hx
    refine ⟨?_, (h3 x hx).2⟩
    have hmem : x.raw_id ∈ added.map (fun e => e.raw_id) := List.mem_map_of_mem _ hx
    rw [h2] at hmem
    obtain ⟨r, -, hr⟩ := List.mem_map.mp hmem
    rw [← hr]
    simp

/-- C21. Let `r` be a validated record of the batch whose debit or credit text
resolves to `null` (raw ids are a primary key). After `postBatch`: the row of `r` is `r`
marked `failed` with `validation_errors` ["Account mapping incomplete"]; among the audit
entries written by the call exactly one is for `r`, a RECORD_FAILED entry with that
message; no voucher created by the call is for `r`; every other validated record is
processed exactly as in the store without `r` (same vouchers, same entries, same rows of
the other records, same per-record audit entries); and the call returns the same
`posted` count and one more `failed`, the two counts summing to the number of validated
records. -/
theorem postBatch_failure_isolated (rt : Runtime) (s : Store) (batchId : Nat)
    (pre post : List RawRecord) (r : RawRecord)
    (hpk : (s.rawRecords.map (fun x => x.raw_id)).Nodup)
    (hsel : selectRecords s batchId (fun st => st == RecordStatus.validated) = pre ++ r :: post)
    (hnull :
      findAccountMatch rt r.detected_debit_account (activeAccounts s) (getMappingRules s)
        (newFuse rt (activeAccounts s)) = none ∨
      findAccountMatch rt r.detected_credit_account (activeAccounts s) (getMappingRules s)
        (newFuse rt (activeAccounts s)) = none) :
    applyFailed "Account mapping incomplete" r ∈ (postBatch rt s batchId).1.rawRecords ∧
    (∃ added : List AuditEntry, (postBatch rt s batchId).1.auditLog = s.auditLog ++ added ∧
      added.filter (fun e => decide (e.raw_id = some r.raw_id))
        = [{ batch_id := some batchId, raw_id := some r.raw_id, action_taken := "RECORD_FAILED",
             details := "Account mapping incomplete", warnings := none,
             final_voucher_id := none }]) ∧
    (∃ posts : List Posting,
      (postBatch rt s batchId).1.vouchers = s.vouchers ++ posts.map (fun p => p.voucher) ∧
      ∀ p ∈ posts, p.voucher.legacy_raw_id ≠ some r.raw_id) ∧
    (postBatch rt s batchId).1.vouchers
      = (postBatch rt (withoutRecord s r.raw_id) batchId).1.vouchers ∧
    (postBatch rt s batchId).1.entries
      = (postBatch rt (withoutRecord s r.raw_id) batchId).1.entries ∧
    (postBatch rt s batchId).1.rawRecords.filter (fun x => decide (x.raw_id ≠ r.raw_id))
      = (postBatch rt (withoutRecord s r.raw_id) batchId).1.rawRecords ∧
    (postBatch rt s batchId).1.auditLog.filter
        (fun e => e.raw_id.isSome && decide (e.raw_id ≠ some r.raw_id))
      = (postBatch rt (withoutRecord s r.raw_id) batchId).1.auditLog.filter
          (fun e => e.raw_id.isSome && decide (e.raw_id ≠ some r.raw_id)) ∧
    (postBatch rt s batchId).2.processed
      = (postBatch rt (withoutRecord s r.raw_id) batchId).2.processed ∧
    (postBatch rt s batchId).2.failed
      = (postBatch rt (withoutRecord s r.raw_id) batchId).2.failed + 1 ∧
    (postBatch rt s batchId).2.processed + (postBatch rt s batchId).2.failed
      = (selectRecords s batchId (fun st => st == RecordStatus.validated)).length := by
  have hne := split_ids_ne _ pre post r (selectRecords_nodup s batchId _ hpk) hsel
  have hun : idTruthy (findAccountMatch rt r.detected_debit_account (activeAccounts s)
        (getMappingRules s) (newFuse rt (activeAccounts s))) = false ∨
      idTruthy (findAccountMatch rt r.detected_credit_account (activeAccounts s)
        (getMappingRules s) (newFuse rt (activeAccounts s))) = false := by
    rcases hnull with h | h
    · exact Or.inl (by rw [h]; rfl)
    · exact Or.inr (by rw [h]; rfl)
  have hr : r ∈ s.rawRecords := by
    have : r ∈ selectRecords s batchId (fun st => st == RecordStatus.validated) := by
      rw [hsel]; simp
    exact (List.mem_filter.mp this).1
  obtain ⟨v1, e1, r1, ⟨eb, heb, a1⟩, p1, f1⟩ := postBatch_loop rt s batchId
  obtain ⟨v0, e0, r0, ⟨eb0, heb0, a0⟩, p0, f0⟩ := postBatch_loop rt (withoutRecord s r.raw_id) batchId
  have hacc : activeAccounts (withoutRecord s r.raw_id) = activeAccounts s := rfl
  have hrules : getMappingRules (withoutRecord s r.raw_id) = getMappingRules s := rfl
  rw [hacc, hrules, selectRecords_withoutRecord s batchId _ pre post r hsel hne] at v0 e0 r0 a0 p0 f0
  rw [hsel] at v1 e1 r1 a1 p1 f1
  obtain ⟨hskip, hone⟩ := postLoop_skip_failed rt batchId (activeAccounts s) (getMappingRules s)
    (newFuse rt (activeAccounts s)) s pre post r hne hun
  rw [hskip] at v0 e0 r0 a0 p0 f0
  simp only at v0 e0 r0 a0 p0 f0
  refine ⟨?_, ?_, ?_, ?_, ?_, ?_, ?_, ?_, ?_, ?_⟩
  · rw [r1]
    exact postLoop_failed_mem rt batchId _ _ _ s pre post r r hne hun hr rfl
  · obtain ⟨b1, b2, hlog, hother⟩ := postLoop_auditLog_failed rt batchId (activeAccounts s)
      (getMappingRules s) (newFuse rt (activeAccounts s)) s pre post r hne hun
    refine ⟨(b1 ++ _ :: b2) ++ [eb], by rw [a1, hlog, List.append_assoc], ?_⟩
    have hb1 : b1.filter (fun e => decide (e.raw_id = some r.raw_id)) = [] := by
      rw [List.filter_eq_nil_iff]
      intro e he
      simpa using hother e (List.mem_append_left _ he)
    have hb2 : b2.filter (fun e => decide (e.raw_id = some r.raw_id)) = [] := by
      rw [List.filter_eq_nil_iff]
      intro e he
      simpa using hother e (List.mem_append_right _ he)
    simp [List.filter_append, List.filter_cons, hb1, hb2, heb]
  · obtain ⟨posts, h1, -, -, h4⟩ := postLoop_postings rt batchId (activeAccounts s)
      (getMappingRules s) (newFuse rt (activeAccounts s)) (pre ++ r :: post) s 0 0
    refine ⟨posts, by rw [v1, h1], ?_⟩
    intro p hp hc
    obtain ⟨hmem, hfa⟩ := h4 p hp
    obtain ⟨-, hd, hcr, -, hleg⟩ := hfa
    rw [hleg] at hc
    have hid : p.record.raw_id = r.raw_id := Option.some.inj hc
    have hrec : p.record = r := by
      rcases List.mem_append.mp hmem with hm | hm
      · exact absurd hid (hne _ (List.mem_append_left _ hm))
      · rcases List.mem_cons.mp hm with hm | hm
        · exact hm
        · exact absurd hid (hne _ (List.mem_append_right _ hm))
    rw [hrec] at hd hcr
    rcases hnull with h | h
    · rw [h] at hd; exact absurd hd (by simp)
    · rw [h] at hcr; exact absurd hcr (by simp)
  · rw [v1, v0]; rfl
  · rw [e1, e0]; rfl
  · rw [r1, r0]; rfl
  · rw [a1, a0]
    simp only [withoutRecord, List.filter_append, List.filter_filter, List.filter_cons, heb, heb0,
      Option.isSome_none, Bool.false_and, Bool.false_eq_true, if_false, List.filter_nil,
      List.append_nil]
    apply List.filter_congr
    intro e _
    cases e.raw_id.isSome <;> cases decide (e.raw_id ≠ some r.raw_id) <;> rfl
  · rw [p1, p0]
  · rw [f1, f0]
    omega
  · rw [p1, f1, postLoop_counts, hsel]
    omega

/-- C21 at a batch of three validated records whose second has the credit text
"Unknown Co": that record is marked failed, the vouchers are those of the store without
it, and the counts are 2 posted and 1 failed. -/
theorem postBatch_failure_isolated_witness :
    applyFailed "Account mapping incomplete" unmappedCreditRecord
      ∈ (postBatch utcRuntime mixedStore 1).1.rawRecords ∧
    (postBatch utcRuntime mixedStore 1).1.vouchers
      = (postBatch utcRuntime (withoutRecord mixedStore 3) 1).1.vouchers ∧
    (postBatch utcRuntime mixedStore 1).2 = { processed := 2, failed := 1 } :=
  ⟨(postBatch_failure_isolated utcRuntime mixedStore 1
      [{ postedRecord with status := RecordStatus.validated }] [secondValidatedRecord]
      unmappedCreditRecord (by decide) (by decide) (Or.inr (by decide))).1,
   (postBatch_failure_isolated utcRuntime mixedStore 1
      [{ postedRecord with status := RecordStatus.validated }] [secondValidatedRecord]
      unmappedCreditRecord (by decide) (by decide) (Or.inr (by decide))).2.2.2.1,
   by decide⟩

/-- C27. A record of the batch that `validateBatch` marks `validated` (its error list
is empty) while exactly one of its two account texts resolves gets the warning "Only one
account mapped - manual intervention required"; a following `postBatch`, which reads the
same accounts and mapping rules, marks it `failed` with "Account mapping incomplete"
and creates no voucher for it (raw ids are a primary key). In particular a record
normalized through the generic single-account fallback, which is told by the warning
"Only one account detected, manual mapping required", has no credit text, and a record
without a credit text is refused by the posting step in every store. -/
theorem one_account_validated_never_posted (rt : Runtime) (s : Store) (batchId : Nat)
    (r : RawRecord)
    (hpk : (s.rawRecords.map (fun x => x.raw_id)).Nodup)
    (hr : r ∈ s.rawRecords) (hb : r.batch_id = batchId)
    (hs : r.status = RecordStatus.normalized ∨ r.status = RecordStatus.mapped)
    (hvalid : specErrors rt (activeAccounts s) (getMappingRules s)
      (newFuse rt (activeAccounts s)) r = [])
    (hone :
      idTruthy (findAccountMatch rt r.detected_debit_account (activeAccounts s)
        (getMappingRules s) (newFuse rt (activeAccounts s))) ≠
      idTruthy (findAccountMatch rt r.detected_credit_account (activeAccounts s)
        (getMappingRules s) (newFuse rt (activeAccounts s)))) :
    (∃ r1 ∈ (validateBatch rt s batchId).1.rawRecords,
      r1.raw_id = r.raw_id ∧ r1.status = RecordStatus.validated ∧
      (∃ w, r1.warnings = some w ∧
        "Only one account mapped - manual intervention required" ∈ w) ∧
      applyFailed "Account mapping incomplete" r1
        ∈ (postBatch rt (validateBatch rt s batchId).1 batchId).1.rawRecords ∧
      ∃ posts : List Posting,
        (postBatch rt (validateBatch rt s batchId).1 batchId).1.vouchers
          = s.vouchers ++ posts.map (fun p => p.voucher) ∧
        ∀ p ∈ posts, p.voucher.legacy_raw_id ≠ some r.raw_id) ∧
    (∀ payload : List (String × JsValue),
      "Only one account detected, manual mapping required"
        ∈ (attemptNormalizationFields rt payload).warnings.getD [] →
      strFalsy (attemptNormalizationFields rt payload).credit_account = true) ∧
    (∀ (t : Store) (accounts : List Account) (mappingRules : List MappingRule)
        (fuse : List Char → List (Account × Option ℚ)) (x : RawRecord),
      strFalsy x.detected_credit_account = true →
      postOne rt t accounts mappingRules fuse x = Except.error "Account mapping incomplete") := by
  refine ⟨?_, ?_, ?_⟩
  · have hsel : r ∈ selectRecords s batchId
        (fun st => st == RecordStatus.normalized || st == RecordStatus.mapped) := by
      simp only [selectRecords, List.mem_filter, Bool.and_eq_true, decide_eq_true_eq,
        Bool.or_eq_true, beq_iff_eq]
      exact ⟨hr, hb, hs⟩
    have herr : validationErrors rt (activeAccounts s) (getMappingRules s)
        (newFuse rt (activeAccounts s)) r = [] := by
      rw [validationErrors_eq_spec]
      exact hvalid
    have hmem := validateLoop_record_eq rt (activeAccounts s) (getMappingRules s)
      (newFuse rt (activeAccounts s)) _ (s, 0, 0)
      (selectRecords_nodup s batchId _ hpk) r hsel r hr rfl
    rw [herr] at hmem
    obtain ⟨f1, f2, f3, f4, -, f6⟩ := validateBatch_frame rt s batchId
    rw [← f1] at hmem
    have hun : idTruthy (findAccountMatch rt r.detected_debit_account (activeAccounts s)
          (getMappingRules s) (newFuse rt (activeAccounts s))) = false ∨
        idTruthy (findAccountMatch rt r.detected_credit_account (activeAccounts s)
          (getMappingRules s) (newFuse rt (activeAccounts s))) = false := by
      revert hone
      cases idTruthy (findAccountMatch rt r.detected_debit_account (activeAccounts s)
          (getMappingRules s) (newFuse rt (activeAccounts s))) <;>
        cases idTruthy (findAccountMatch rt r.detected_credit_account (activeAccounts s)
          (getMappingRules s) (newFuse rt (activeAccounts s))) <;> simp
    have hwarn : "Only one account mapped - manual intervention required"
        ∈ validationWarnings rt (activeAccounts s) (getMappingRules s)
          (newFuse rt (activeAccounts s)) r := by
      unfold validationWarnings
      simp only [mapAccount_eq]
      revert hone
      cases idTruthy (findAccountMatch rt r.detected_debit_account (activeAccounts s)
          (getMappingRules s) (newFuse rt (activeAccounts s))) <;>
        cases idTruthy (findAccountMatch rt r.detected_credit_account (activeAccounts s)
          (getMappingRules s) (newFuse rt (activeAccounts s))) <;> simp
    have hpk1 : ((validateBatch rt s batchId).1.rawRecords.map (fun x => x.raw_id)).Nodup := by
      rw [f6]
      exact hpk
    have hsel1 : applyValidation [] (validationWarnings rt (activeAccounts s) (getMappingRules s)
          (newFuse rt (activeAccounts s)) r) r
        ∈ selectRecords (validateBatch rt s batchId).1 batchId
          (fun st => st == RecordStatus.validated) := by
      simp only [selectRecords, List.mem_filter, Bool.and_eq_true, decide_eq_true_eq, beq_iff_eq]
      exact ⟨hmem, hb, rfl⟩
    obtain ⟨g1, posts, g2, g3⟩ := postBatch_unresolved rt (validateBatch rt s batchId).1 batchId _
      hpk1 hsel1 (by rw [f2, f3]; exact hun)
    refine ⟨_, hmem, rfl, rfl, ?_, g1, posts, by rw [g2, f4], g3⟩
    cases hw : validationWarnings rt (activeAccounts s) (getMappingRules s)
        (newFuse rt (activeAccounts s)) r with
    | nil => rw [hw] at hwarn; exact absurd hwarn (List.not_mem_nil _)
    | cons w ws =>
      refine ⟨w :: ws, by simp [applyValidation], ?_⟩
      rw [← hw]
      exact hwarn
  · intro payload hw
    unfold attemptNormalizationFields at hw ⊢
    dsimp only at hw ⊢
    by_cases hgen : (strFalsy (detectText rt payload debitFields) &&
        strFalsy (detectText rt payload creditFields)) = true
    · simp only [Bool.and_eq_true] at hgen
      exact hgen.2
    · exfalso
      simp only [hgen, Bool.false_eq_true, if_false, Option.isSome_none, List.append_nil] at hw
      revert hw
      cases (detectDate rt payload dateFields).isNone <;>
        cases (detectAmount rt payload amountFields JsNumber.null).1.falsy <;> simp
  · intro t accounts mappingRules fuse x hx
    apply postOne_unresolved
    right
    rw [findAccountMatch_falsy rt _ accounts mappingRules fuse hx]
    rfl

/-- C27 at a normalized record with the debit text "Rent Expense" and no credit text:
`validateBatch` validates it with the warning, `postBatch` then fails it and creates no
voucher; the counts are 0 posted and 1 failed. -/
theorem one_account_validated_never_posted_witness :
    (∃ r1 ∈ (validateBatch utcRuntime oneAccountStore 1).1.rawRecords,
      r1.raw_id = oneAccountRecord.raw_id ∧ r1.status = RecordStatus.validated ∧
      (∃ w, r1.warnings = some w ∧
        "Only one account mapped - manual intervention required" ∈ w) ∧
      applyFailed "Account mapping incomplete" r1
        ∈ (postBatch utcRuntime (validateBatch utcRuntime oneAccountStore 1).1 1).1.rawRecords ∧
      ∃ posts : List Posting,
        (postBatch utcRuntime (validateBatch utcRuntime oneAccountStore 1).1 1).1.vouchers
          = oneAccountStore.vouchers ++ posts.map (fun p => p.voucher) ∧
        ∀ p ∈ posts, p.voucher.legacy_raw_id ≠ some oneAccountRecord.raw_id) ∧
    (postBatch utcRuntime (validateBatch utcRuntime oneAccountStore 1).1 1).2
      = { processed := 0, failed := 1 } :=
  ⟨(one_account_validated_never_posted utcRuntime oneAccountStore 1 oneAccountRecord
      (by decide) (by decide) (by decide) (by decide) (by decide) (by decide)).1,
   by decide⟩

/-- C26. In every state the pipeline reaches from a store without validated records
(so that records become `validated` through `validateBatch` only), every validated record
has a `detected_amount` greater than 0, and every voucher entry a `postBatch` call creates
in that state has exactly one of `debit_amount` and `credit_amount` greater than 0 and
the other equal to 0. -/
theorem postBatch_entries_one_sided (rt : Runtime) (s : Store) (h : Reachable rt s)
    (batchId : Nat) :
    ValidatedPositive s ∧
    ∃ posts : List Posting,
      (postBatch rt s batchId).1.entries = s.entries ++ posts.flatMap (fun p => p.entries) ∧
      ∀ e ∈ posts.flatMap (fun p => p.entries),
        (0 < e.debit_amount ∧ e.credit_amount = 0) ∨
        (0 < e.credit_amount ∧ e.debit_amount = 0) := by
  obtain ⟨-, hpos⟩ := reachable_inv rt s h
  refine ⟨hpos, ?_⟩
  obtain ⟨-, e1, -, -, -, -⟩ := postBatch_loop rt s batchId
  obtain ⟨posts, -, h2, -, h4⟩ := postLoop_postings rt batchId (activeAccounts s)
    (getMappingRules s) (newFuse rt (activeAccounts s))
    (selectRecords s batchId (fun st => st == RecordStatus.validated)) s 0 0
  refine ⟨posts, by rw [e1, h2], ?_⟩
  intro e he
  obtain ⟨p, hp, hep⟩ := List.mem_flatMap.mp he
  obtain ⟨hmem, hamt, -⟩ := h4 p hp
  have hsel := List.mem_filter.mp hmem
  have hstatus : p.record.status = RecordStatus.validated := by
    have := hsel.2
    simp only [Bool.and_eq_true, decide_eq_true_eq, beq_iff_eq] at this
    exact this.2
  obtain ⟨a, ha, hapos⟩ := hpos p.record hsel.1 hstatus
  have hpa : p.amount = a := by
    rw [hamt] at ha
    exact Option.some.inj ha
  simp only [Posting.entries, List.mem_cons, List.mem_singleton, List.not_mem_nil, or_false] at hep
  rcases hep with rfl | rfl
  · left
    exact ⟨by simpa [hpa] using hapos, rfl⟩
  · right
    exact ⟨by simpa [hpa] using hapos, rfl⟩

/-- C26 at the state reached by `validateBatch` on the sample store with two
normalized records. -/
theorem postBatch_entries_one_sided_witness :
    ValidatedPositive (validateBatch utcRuntime normalizedStore 1).1 ∧
    ∃ posts : List Posting,
      (postBatch utcRuntime (validateBatch utcRuntime normalizedStore 1).1 1).1.entries
        = (validateBatch utcRuntime normalizedStore 1).1.entries
          ++ posts.flatMap (fun p => p.entries) ∧
      ∀ e ∈ posts.flatMap (fun p => p.entries),
        (0 < e.debit_amount ∧ e.credit_amount = 0) ∨
        (0 < e.credit_amount ∧ e.debit_amount = 0) :=
  postBatch_entries_one_sided utcRuntime (validateBatch utcRuntime normalizedStore 1).1
    (Reachable.validated normalizedStore 1
      (Reachable.start normalizedStore (by decide) (by decide))) 1

/-- C22: the code at the first validated record of the sample store. The transaction
of `postBatch` holds the voucher insert and the two entry inserts only; the update of
the record to `posted` is a separate statement after it. The file is written three
times: after `COMMIT` it holds voucher LGC-2024-00001 for record 1 with its two entries
while record 1 is still `validated`; the record is `posted` from the second write on.
The claim gives no state with a committed voucher whose source record is not `posted`.
In `deleteVoucher` the status update of the linked record is inside the transaction. -/
theorem postBatch_status_update_after_commit :
    (postStepSaves utcRuntime 1 (activeAccounts validatedStore) (getMappingRules validatedStore)
        (newFuse utcRuntime (activeAccounts validatedStore)) validatedStore
        { postedRecord with status := RecordStatus.validated }).map
      (fun t => (t.vouchers.map (fun v => (v.voucher_number, v.legacy_raw_id)),
                 t.entries.length, (findRecord t 1).map (fun r => r.status)))
      = [([("LGC-2024-00001", some 1)], 2, some RecordStatus.validated),
         ([("LGC-2024-00001", some 1)], 2, some RecordStatus.posted),
         ([("LGC-2024-00001", some 1)], 2, some RecordStatus.posted)] ∧
    (postStep utcRuntime 1 (activeAccounts validatedStore) (getMappingRules validatedStore)
        (newFuse utcRuntime (activeAccounts validatedStore)) validatedStore
        { postedRecord with status := RecordStatus.validated }).2 = true := by
  decide

end HomeSweetHome
